import Mathlib

/-!
# Path stroking engine (juce_PathStrokeType.cpp)

A shallow embedding of the stroking and dashing routines of
`juce_PathStrokeType.cpp`, in exact arithmetic over an ordered field `F`
(the source computes in `float`).  The C library functions the source calls
(`sqrtf`, `juce_hypotf`, `atan2f`, `sinf`, `cosf`) and the constant `float_Pi`
are collected in the record `FloatMath`; theorems that depend on their values
say so through explicit hypotheses at the points where they are used.

The destination `Path` is represented by the sequence of primitive operations
performed on it, and the `PathFlatteningIterator` by the finite stream of
flattened segments it yields.
-/

namespace Juce

/-! ## Data model -/

/-- Joint styles, `PathStrokeType::JointStyle`. -/
inductive JointStyle where
  | mitered
  | curved
  | beveled
  deriving DecidableEq, Repr

/-- End cap styles, `PathStrokeType::EndCapStyle`. -/
inductive EndCapStyle where
  | butt
  | square
  | rounded
  deriving DecidableEq, Repr

/-- The stroke style record `PathStrokeType`. -/
structure PathStrokeType (F : Type) where
  thickness : F
  jointStyle : JointStyle
  endStyle : EndCapStyle
  deriving DecidableEq, Repr

/-- Modelled from the spec: the primitive operations of the output path
(`juce_Path.h` is not among the sources).  The spec lists them as start
sub-path, line-to, cubic-to and close sub-path; a path is the sequence of the
operations performed on it. -/
inductive PathOp (F : Type) where
  | startNewSubPath (x y : F)
  | lineTo (x y : F)
  | cubicTo (x1 y1 x2 y2 x3 y3 : F)
  | closeSubPath
  deriving DecidableEq, Repr

/-- Modelled from the spec: the appendable geometric path, as the list of
operations appended so far. -/
abbrev Path (F : Type) := List (PathOp F)

/-- Modelled from the spec: one flattened segment produced by the
`PathFlatteningIterator` (`juce_PathIterator.h` is not among the sources):
end points, the index of the segment inside its sub-path (0 for the first
segment of a sub-path) and the flag telling that the segment closes its
sub-path. -/
structure FlatSegment (F : Type) where
  x1 : F
  y1 : F
  x2 : F
  y2 : F
  subPathIndex : Int
  closesSubPath : Bool
  deriving DecidableEq, Repr

/-- The library functions and constant used by the source, as parameters. -/
structure FloatMath (F : Type) [LinearOrderedField F] where
  sqrtf : F → F
  hypotf : F → F → F
  atan2f : F → F → F
  sinf : F → F
  cosf : F → F
  float_Pi : F
  float_Pi_pos : 0 < float_Pi

/-- Modelled from the spec: the curve-flattening component, out of scope of
the engine.  `segments path transform tolerance` is the finite stream that a
`PathFlatteningIterator` constructed on `path` yields through successive calls
of `next()`; `Transform` stands for `AffineTransform`.  A call of `next()`
that returns `false` leaves the fields `x2`, `y2` of the iterator at the end
point of the segment yielded last (the dasher "closes out the final partial
segment" with them). -/
structure Flattener (F : Type) where
  Transform : Type
  identity : Transform
  segments : Path F → Transform → F → List (FlatSegment F)

/-- The record `LineSection`: a kept segment with its two offset edges. -/
structure LineSection (F : Type) where
  x1 : F
  y1 : F
  x2 : F
  y2 : F
  lx1 : F
  ly1 : F
  lx2 : F
  ly2 : F
  rx1 : F
  ry1 : F
  rx2 : F
  ry2 : F
  deriving DecidableEq, Repr

/-- The three results of `lineIntersection`: the returned flag and the two
reference parameters. -/
structure Intersection (F : Type) where
  intersects : Bool
  intersectionX : F
  intersectionY : F
  distanceBeyondLine1EndSquared : F
  deriving DecidableEq, Repr

section Defs

variable {F : Type} [LinearOrderedField F]

namespace Path

/-- The call `destPath.clear()`. -/
def clear (_p : Path F) : Path F := []

/-- The call `destPath.startNewSubPath (x, y)`. -/
def startNewSubPath (p : Path F) (x y : F) : Path F := p ++ [PathOp.startNewSubPath x y]

/-- The call `destPath.lineTo (x, y)`. -/
def lineTo (p : Path F) (x y : F) : Path F := p ++ [PathOp.lineTo x y]

/-- The call `destPath.cubicTo (x1, y1, x2, y2, x3, y3)`. -/
def cubicTo (p : Path F) (x1 y1 x2 y2 x3 y3 : F) : Path F :=
  p ++ [PathOp.cubicTo x1 y1 x2 y2 x3 y3]

/-- The call `destPath.closeSubPath()`. -/
def closeSubPath (p : Path F) : Path F := p ++ [PathOp.closeSubPath]

end Path

/-! ## The intersector -/

/-- The function `lineIntersection` (source lines 84-199). -/
def lineIntersection (x1 y1 x2 y2 x3 y3 x4 y4 : F) : Intersection F :=
  if x2 ≠ x3 ∨ y2 ≠ y3 then
    let dx1 := x2 - x1
    let dy1 := y2 - y1
    let dx2 := x4 - x3
    let dy2 := y4 - y3
    let divisor := dx1 * dy2 - dx2 * dy1
    if divisor = 0 then
      if ¬ ((dx1 = 0 ∧ dy1 = 0) ∨ (dx2 = 0 ∧ dy2 = 0)) then
        if dy1 = 0 ∧ dy2 ≠ 0 then
          let along := (y1 - y3) / dy2
          let intersectionX := x3 + along * dx2
          let d := (intersectionX - x2) * (intersectionX - x2)
          let d := if decide (x2 > x1) = decide (intersectionX < x2) then -d else d
          ⟨decide (along ≥ 0 ∧ along ≤ 1), intersectionX, y1, d⟩
        else if dy2 = 0 ∧ dy1 ≠ 0 then
          let along := (y3 - y1) / dy1
          let intersectionX := x1 + along * dx1
          let d := ((along - 1) * dx1) * ((along - 1) * dx1)
          let d := if along < 1 then -d else d
          ⟨decide (along ≥ 0 ∧ along ≤ 1), intersectionX, y3, d⟩
        else if dx1 = 0 ∧ dx2 ≠ 0 then
          let along := (x1 - x3) / dx2
          let intersectionY := y3 + along * dy2
          let d := (intersectionY - y2) * (intersectionY - y2)
          let d := if decide (y2 > y1) = decide (intersectionY < y2) then -d else d
          ⟨decide (along ≥ 0 ∧ along ≤ 1), x1, intersectionY, d⟩
        else if dx2 = 0 ∧ dx1 ≠ 0 then
          let along := (x3 - x1) / dx1
          let intersectionY := y1 + along * dy1
          let d := ((along - 1) * dy1) * ((along - 1) * dy1)
          let d := if along < 1 then -d else d
          ⟨decide (along ≥ 0 ∧ along ≤ 1), x3, intersectionY, d⟩
        else
          ⟨false, (1 / 2) * (x2 + x3), (1 / 2) * (y2 + y3), 0⟩
      else
        ⟨false, (1 / 2) * (x2 + x3), (1 / 2) * (y2 + y3), 0⟩
    else
      let along1 := ((y1 - y3) * dx2 - (x1 - x3) * dy2) / divisor
      let intersectionX := x1 + along1 * dx1
      let intersectionY := y1 + along1 * dy1
      let along2 := (y1 - y3) * dx1 - (x1 - x3) * dy1
      if (along1 ≥ 0 ∧ along1 ≤ 1) ∧ (along2 ≥ 0 ∧ along2 ≤ divisor) then
        ⟨true, intersectionX, intersectionY, 0⟩
      else
        let d := (along1 - 1) * (along1 - 1) * (dx1 * dx1 + dy1 * dy1)
        let d := if along1 < 1 then -d else d
        ⟨false, intersectionX, intersectionY, d⟩
  else
    ⟨true, x2, y2, 0⟩

/-! ## The join builder -/

/-- The first loop of the curved joint (source lines 251-252):
`while (angle < angle2 - 0.01f) angle2 -= float_Pi * 2.0f;`
The result is the final value of `angle2`. -/
def unwrapAngle [FloorRing F] (M : FloatMath F) (angle angle2 : F) : F :=
  if angle < angle2 - 1 / 100 then
    unwrapAngle M angle (angle2 - M.float_Pi * 2)
  else
    angle2
termination_by (Int.ceil ((angle2 - 1 / 100 - angle) / (M.float_Pi * 2))).toNat
decreasing_by
  have hpi : 0 < M.float_Pi * 2 := mul_pos M.float_Pi_pos two_pos
  have hpos : 0 < (angle2 - 1 / 100 - angle) / (M.float_Pi * 2) :=
    div_pos (by linarith) hpi
  have hstep : (angle2 - M.float_Pi * 2 - 1 / 100 - angle) / (M.float_Pi * 2)
      = (angle2 - 1 / 100 - angle) / (M.float_Pi * 2) - 1 := by
    field_simp
    ring
  rw [hstep, Int.ceil_sub_one]
  have hceil := Int.ceil_pos.mpr hpos
  omega

/-- The second loop of the curved joint (source lines 256-262):
`while (angle > angle2) { destPath.lineTo (...); angle -= 0.1f; }` -/
def arcSteps [FloorRing F] (M : FloatMath F) (destPath : Path F)
    (midX midY width angle angle2 : F) : Path F :=
  if angle > angle2 then
    arcSteps M
      (destPath.lineTo (midX + width * M.sinf angle) (midY + width * M.cosf angle))
      midX midY width (angle - 1 / 10) angle2
  else
    destPath
termination_by (Int.ceil ((angle - angle2) * 10)).toNat
decreasing_by
  have hpos : 0 < (angle - angle2) * 10 := by linarith
  have hstep : (angle - 1 / 10 - angle2) * 10 = (angle - angle2) * 10 - 1 := by ring
  rw [hstep, Int.ceil_sub_one]
  have hceil := Int.ceil_pos.mpr hpos
  omega

/-- The function `addEdgeAndJoint` (source lines 202-268). -/
def addEdgeAndJoint [FloorRing F] (M : FloatMath F) (destPath : Path F) (style : JointStyle)
    (maxMiterExtensionSquared width x1 y1 x2 y2 x3 y3 x4 y4 midX midY : F) : Path F :=
  if style = JointStyle.beveled ∨ (x3 = x4 ∧ y3 = y4) ∨ (x1 = x2 ∧ y1 = y2) then
    (destPath.lineTo x2 y2).lineTo x3 y3
  else
    let r := lineIntersection x1 y1 x2 y2 x3 y3 x4 y4
    if r.intersects = true then
      destPath.lineTo r.intersectionX r.intersectionY
    else if style = JointStyle.mitered then
      if r.distanceBeyondLine1EndSquared < maxMiterExtensionSquared
          ∧ r.distanceBeyondLine1EndSquared > 0 then
        destPath.lineTo r.intersectionX r.intersectionY
      else
        (destPath.lineTo x2 y2).lineTo x3 y3
    else
      let angle := M.atan2f (x2 - midX) (y2 - midY)
      let angle2 := unwrapAngle M angle (M.atan2f (x3 - midX) (y3 - midY))
      let destPath := destPath.lineTo x2 y2
      let destPath := arcSteps M destPath midX midY width angle angle2
      destPath.lineTo x3 y3

/-! ## The cap builder -/

/-- The function `addLineEnd` (source lines 270-327). -/
def addLineEnd (M : FloatMath F) (destPath : Path F) (style : EndCapStyle)
    (x1 y1 x2 y2 width : F) : Path F :=
  if style = EndCapStyle.butt then
    destPath.lineTo x2 y2
  else
    let dx := x2 - x1
    let dy := y2 - y1
    let len := M.hypotf dx dy
    let off : F × F × F × F :=
      if len = 0 then
        (x1, y1, x1, y1)
      else
        let offset := width / len
        let dx := dx * offset
        let dy := dy * offset
        (x1 + dy, y1 - dx, x2 + dy, y2 - dx)
    let offx1 := off.1
    let offy1 := off.2.1
    let offx2 := off.2.2.1
    let offy2 := off.2.2.2
    if style = EndCapStyle.square then
      ((destPath.lineTo offx1 offy1).lineTo offx2 offy2).lineTo x2 y2
    else
      let midx := (offx1 + offx2) * (1 / 2)
      let midy := (offy1 + offy2) * (1 / 2)
      let destPath := destPath.cubicTo
        (x1 + (offx1 - x1) * (55 / 100)) (y1 + (offy1 - y1) * (55 / 100))
        (offx1 + (midx - offx1) * (45 / 100)) (offy1 + (midy - offy1) * (45 / 100))
        midx midy
      destPath.cubicTo
        (midx + (offx2 - midx) * (55 / 100)) (midy + (offy2 - midy) * (55 / 100))
        (offx2 + (x2 - offx2) * (45 / 100)) (offy2 + (y2 - offy2) * (45 / 100))
        x2 y2

/-! ## The sub-path assembler -/

/-- The variables carried round the two `for` loops of `addSubPath`: the
destination and the edge `(lastX1, lastY1)-(lastX2, lastY2)`. -/
structure EdgeWalk (F : Type) where
  destPath : Path F
  lastX1 : F
  lastY1 : F
  lastX2 : F
  lastY2 : F

/-- The body of the forward loop of `addSubPath` (source lines 370-381). -/
def leftStep [FloorRing F] (M : FloatMath F) (jointStyle : JointStyle)
    (maxMiterExtensionSquared width : F) (w : EdgeWalk F) (l : LineSection F) : EdgeWalk F :=
  { destPath := addEdgeAndJoint M w.destPath jointStyle maxMiterExtensionSquared width
      w.lastX1 w.lastY1 w.lastX2 w.lastY2 l.lx1 l.ly1 l.lx2 l.ly2 l.x1 l.y1
    lastX1 := l.lx1
    lastY1 := l.ly1
    lastX2 := l.lx2
    lastY2 := l.ly2 }

/-- The body of the backward loop of `addSubPath` (source lines 416-427). -/
def rightStep [FloorRing F] (M : FloatMath F) (jointStyle : JointStyle)
    (maxMiterExtensionSquared width : F) (w : EdgeWalk F) (l : LineSection F) : EdgeWalk F :=
  { destPath := addEdgeAndJoint M w.destPath jointStyle maxMiterExtensionSquared width
      w.lastX1 w.lastY1 w.lastX2 w.lastY2 l.rx1 l.ry1 l.rx2 l.ry2 l.x2 l.y2
    lastX1 := l.rx1
    lastY1 := l.ry1
    lastX2 := l.rx2
    lastY2 := l.ry2 }

/-- The function `addSubPath` (source lines 339-445).  The source asserts
`subPath.size() > 0` and is only called on a non-empty list; on the empty
list the destination is returned as it is.  The forward loop visits the
sections of index `1 .. size-1`, the backward loop those of index
`size-2 .. 0`. -/
def addSubPath [FloorRing F] (M : FloatMath F) (destPath : Path F)
    (subPath : List (LineSection F)) (isClosed : Bool)
    (width maxMiterExtensionSquared : F)
    (jointStyle : JointStyle) (endStyle : EndCapStyle) : Path F :=
  match subPath with
  | [] => destPath
  | firstLine :: rest =>
    let lastLine := (firstLine :: rest).getLast (List.cons_ne_nil firstLine rest)
    let destPath :=
      if isClosed then
        destPath.startNewSubPath firstLine.lx1 firstLine.ly1
      else
        addLineEnd M (destPath.startNewSubPath firstLine.rx2 firstLine.ry2) endStyle
          firstLine.rx2 firstLine.ry2 firstLine.lx1 firstLine.ly1 width
    let w : EdgeWalk F :=
      rest.foldl (leftStep M jointStyle maxMiterExtensionSquared width)
        ⟨destPath, firstLine.lx1, firstLine.ly1, firstLine.lx2, firstLine.ly2⟩
    let destPath :=
      if isClosed then
        Path.startNewSubPath
          (Path.closeSubPath
            (addEdgeAndJoint M w.destPath jointStyle maxMiterExtensionSquared width
              w.lastX1 w.lastY1 w.lastX2 w.lastY2
              firstLine.lx1 firstLine.ly1 firstLine.lx2 firstLine.ly2
              firstLine.x1 firstLine.y1))
          lastLine.rx1 lastLine.ry1
      else
        addLineEnd M (w.destPath.lineTo w.lastX2 w.lastY2) endStyle
          w.lastX2 w.lastY2 lastLine.rx1 lastLine.ry1 width
    let w : EdgeWalk F :=
      ((firstLine :: rest).dropLast.reverse).foldl
        (rightStep M jointStyle maxMiterExtensionSquared width)
        ⟨destPath, lastLine.rx1, lastLine.ry1, lastLine.rx2, lastLine.ry2⟩
    let destPath :=
      if isClosed then
        addEdgeAndJoint M w.destPath jointStyle maxMiterExtensionSquared width
          w.lastX1 w.lastY1 w.lastX2 w.lastY2
          lastLine.rx1 lastLine.ry1 lastLine.rx2 lastLine.ry2
          lastLine.x2 lastLine.y2
      else
        w.destPath.lineTo w.lastX2 w.lastY2
    destPath.closeSubPath

/-! ## The stroker -/

/-- The variables carried round the `while (it.next())` loop of
`createStrokedPath`: the destination, the working list `subPath`, and the
fields `x1`, `y1` of the section `l` under construction. -/
structure StrokeState (F : Type) where
  destPath : Path F
  subPath : List (LineSection F)
  lx1 : F
  ly1 : F

/-- The section `l` as filled in by source lines 501-533 for a segment that
runs from `(x1, y1)` to `(x2, y2)`. -/
def makeSection (M : FloatMath F) (width x1 y1 x2 y2 : F) : LineSection F :=
  let dx := x2 - x1
  let dy := y2 - y1
  let hypotSquared := dx * dx + dy * dy
  let len := M.sqrtf hypotSquared
  if len = 0 then
    { x1 := x1, y1 := y1, x2 := x2, y2 := y2
      lx1 := x1, ly1 := y1, lx2 := x1, ly2 := y1
      rx1 := x1, ry1 := y1, rx2 := x1, ry2 := y1 }
  else
    let offset := width / len
    let dx := dx * offset
    let dy := dy * offset
    { x1 := x1, y1 := y1, x2 := x2, y2 := y2
      lx1 := x1 + dy, ly1 := y1 - dx, lx2 := x2 + dy, ly2 := y2 - dx
      rx1 := x2 - dy, ry1 := y2 + dx, rx2 := x1 - dy, ry2 := y1 + dx }

/-- The first part of the body of the `while (it.next())` loop of
`createStrokedPath` (source lines 489-499): when the segment `it` starts a
sub-path, the pending sub-path is flushed as an open one and the section under
construction restarts at `(it.x1, it.y1)`. -/
def strokeBegin [FloorRing F] (M : FloatMath F) (jointStyle : JointStyle)
    (endStyle : EndCapStyle) (width maxMiterExtensionSquared : F)
    (st : StrokeState F) (it : FlatSegment F) : StrokeState F :=
  if it.subPathIndex = 0 then
    if st.subPath.length > 0 then
      ⟨addSubPath M st.destPath st.subPath false width maxMiterExtensionSquared
          jointStyle endStyle,
        [], it.x1, it.y1⟩
    else
      ⟨st.destPath, st.subPath, it.x1, it.y1⟩
  else st

/-- The second part of the body of the loop (source lines 501-547): the
section that ends at `(it.x2, it.y2)` is kept or skipped, and a closing
segment flushes the sub-path as a closed one. -/
def strokeKeep [FloorRing F] (M : FloatMath F) (jointStyle : JointStyle)
    (endStyle : EndCapStyle) (width maxMiterExtensionSquared minSegmentLength : F)
    (st : StrokeState F) (it : FlatSegment F) : StrokeState F :=
  let dx := it.x2 - st.lx1
  let dy := it.y2 - st.ly1
  let hypotSquared := dx * dx + dy * dy
  if it.closesSubPath = true ∨ hypotSquared > minSegmentLength then
    if it.closesSubPath = true then
      ⟨addSubPath M st.destPath
          (st.subPath ++ [makeSection M width st.lx1 st.ly1 it.x2 it.y2]) true width
          maxMiterExtensionSquared jointStyle endStyle,
        [], st.lx1, st.ly1⟩
    else
      ⟨st.destPath, st.subPath ++ [makeSection M width st.lx1 st.ly1 it.x2 it.y2],
        it.x2, it.y2⟩
  else st

/-- One pass through the body of the `while (it.next())` loop of
`createStrokedPath` (source lines 489-547), for the segment `it`. -/
def strokeStep [FloorRing F] (M : FloatMath F) (jointStyle : JointStyle) (endStyle : EndCapStyle)
    (width maxMiterExtensionSquared minSegmentLength : F)
    (st : StrokeState F) (it : FlatSegment F) : StrokeState F :=
  strokeKeep M jointStyle endStyle width maxMiterExtensionSquared minSegmentLength
    (strokeBegin M jointStyle endStyle width maxMiterExtensionSquared st it) it

/-- The part of `createStrokedPath` after the thickness test and the clearing
of the destination (source lines 473-551), run on the stream `segments`
yielded by the iterator.  The quotient `2 / (extraAccuracy * extraAccuracy)`
is that of the source for `extraAccuracy ≠ 0`.  For `extraAccuracy = 0` the
quotient of type `float` is `+infinity` and every segment that does not close
a sub-path is skipped; the field has no such value (its quotient is 0), so
what is stated about the minimum length assumes `extraAccuracy ≠ 0`. -/
def strokeSegments [FloorRing F] (M : FloatMath F) (style : PathStrokeType F)
    (segments : List (FlatSegment F)) (extraAccuracy : F) : Path F :=
  let maxMiterExtensionSquared := 9 * style.thickness * style.thickness
  let width := (1 / 2) * style.thickness
  let minSegmentLength := 2 / (extraAccuracy * extraAccuracy)
  let st := segments.foldl
    (strokeStep M style.jointStyle style.endStyle width maxMiterExtensionSquared
      minSegmentLength)
    ⟨[], [], 0, 0⟩
  if st.subPath.length > 0 then
    addSubPath M st.destPath st.subPath false width maxMiterExtensionSquared
      style.jointStyle style.endStyle
  else
    st.destPath

/-- The method `PathStrokeType::createStrokedPath` (source lines 447-552).
The result is the destination after the call.  When `source` is the
destination itself the source swaps it into a temporary, which leaves the
destination empty just as `clear()` does, so the previous content of the
destination is dropped in both cases.  The call `setUsingNonZeroWinding (true)`
sets the fill rule and appends no operation. -/
def createStrokedPath [FloorRing F] (M : FloatMath F) (fl : Flattener F)
    (style : PathStrokeType F) (destPath : Path F) (source : Path F)
    (transform : fl.Transform) (extraAccuracy : F) : Path F :=
  if style.thickness ≤ 0 then
    destPath.clear
  else
    let _cleared := destPath.clear
    strokeSegments M style (fl.segments source transform (9 / extraAccuracy)) extraAccuracy

/-! ## The dasher -/

/-- The local variables of `createDashedStroke` (source lines 567-573).  The
iterator `it` is represented by the segments it has not yielded yet
(`pending`) and by its fields `x1`, `y1`, `x2`, `y2`, which hold the segment
yielded last (see `Flattener`); the source reads them only after a first
successful call of `next()`. -/
structure DashState (F : Type) where
  newDestPath : Path F
  pending : List (FlatSegment F)
  itX1 : F
  itY1 : F
  itX2 : F
  itY2 : F
  first : Bool
  dashNum : Nat
  pos : F
  lineLen : F
  lineEndPos : F
  dx : F
  dy : F

/-- The ways in which the `for (;;)` loop of `createDashedStroke` is left. -/
inductive DashOutcome (F : Type) where
  /-- The iterator ran out (source lines 588-595): the stroker is called on
  `newDestPath` and the function returns. -/
  | exhausted (st : DashState F)
  /-- A dash length `<= 0` was read (source lines 581-582): `break`. -/
  | invalidDash (st : DashState F)
  /-- The read `dashLengths [dashNum % numDashLengths]` is not defined:
  `numDashLengths` is 0 or the index is outside the table. -/
  | undefinedRead (st : DashState F)

/-- The loop `while (pos > lineEndPos)` of `createDashedStroke` (source lines
586-611), as a recursion on the segments the iterator still has to yield.
The first component of the result is `true` when the iterator ran out inside
the loop.  The sum `lineEndPos + lineLen` is exact; `consumeSegmentsWith` has
the addition as a parameter. -/
def consumeSegments (M : FloatMath F) (isSolid : Bool) (st : DashState F) :
    List (FlatSegment F) → Bool × DashState F
  | [] =>
    if st.pos > st.lineEndPos then
      (true, { st with
        pending := []
        newDestPath :=
          if isSolid = true ∧ st.first = false then st.newDestPath.lineTo st.itX2 st.itY2
          else st.newDestPath })
    else
      (false, { st with pending := [] })
  | s :: rest =>
    if st.pos > st.lineEndPos then
      let dx := s.x2 - s.x1
      let dy := s.y2 - s.y1
      let lineLen := M.hypotf dx dy
      consumeSegments M isSolid
        { st with
          itX1 := s.x1, itY1 := s.y1, itX2 := s.x2, itY2 := s.y2
          newDestPath :=
            if isSolid = true ∧ st.first = false then st.newDestPath.lineTo s.x1 s.y1
            else st.newDestPath.startNewSubPath s.x1 s.y1
          first := if isSolid = true ∧ st.first = false then st.first else false
          dx := dx, dy := dy, lineLen := lineLen
          lineEndPos := st.lineEndPos + lineLen }
        rest
    else
      (false, { st with pending := s :: rest })

/-- The loop `for (;;)` of `createDashedStroke` (source lines 575-621); `fuel`
bounds the number of passes, and `none` means that the bound was reached.
The running sums `pos += dashLen` and `lineEndPos += lineLen` are exact here;
`dashLoopWith` has their addition as a parameter, for the rounding addition
of type `float`. -/
def dashLoop (M : FloatMath F) (dashLengths : List F) (numDashLengths : Nat) :
    Nat → DashState F → Option (DashOutcome F)
  | 0, _ => none
  | fuel + 1, st =>
    let isSolid : Bool := decide (st.dashNum % 2 = 0)
    if numDashLengths = 0 then some (DashOutcome.undefinedRead st)
    else
      match dashLengths[st.dashNum % numDashLengths]? with
      | none => some (DashOutcome.undefinedRead st)
      | some dashLen =>
        let st : DashState F := { st with dashNum := st.dashNum + 1 }
        if dashLen ≤ 0 then some (DashOutcome.invalidDash st)
        else
          let st : DashState F := { st with pos := st.pos + dashLen }
          match consumeSegments M isSolid st st.pending with
          | (true, st) => some (DashOutcome.exhausted st)
          | (false, st) =>
            let alpha := (st.pos - (st.lineEndPos - st.lineLen)) / st.lineLen
            let st : DashState F :=
              { st with
                newDestPath :=
                  if isSolid = true then
                    st.newDestPath.lineTo (st.itX1 + st.dx * alpha) (st.itY1 + st.dy * alpha)
                  else
                    st.newDestPath.startNewSubPath (st.itX1 + st.dx * alpha)
                      (st.itY1 + st.dy * alpha) }
            dashLoop M dashLengths numDashLengths fuel st

/-- The state of `createDashedStroke` on entry to its loop (source lines
567-573), for an iterator that will yield `segments`. -/
def dashInit (segments : List (FlatSegment F)) : DashState F :=
  { newDestPath := []
    pending := segments
    itX1 := 0, itY1 := 0, itX2 := 0, itY2 := 0
    first := true
    dashNum := 0
    pos := 0, lineLen := 0, lineEndPos := 0
    dx := 0, dy := 0 }

/-- What a call of `createDashedStroke` leaves behind. -/
inductive DashResult (F : Type) where
  /-- The function returned with this destination. -/
  | returned (destPath : Path F)
  /-- The dash table was read where it is not defined. -/
  | undefinedRead
  deriving DecidableEq, Repr

/-- The method `PathStrokeType::createDashedStroke` (source lines 554-622),
assertions disabled; `fuel` bounds the passes through its main loop. -/
def createDashedStroke [FloorRing F] (M : FloatMath F) (fl : Flattener F)
    (style : PathStrokeType F) (destPath : Path F) (sourcePath : Path F)
    (dashLengths : List F) (numDashLengths : Nat)
    (transform : fl.Transform) (extraAccuracy : F) (fuel : Nat) : Option (DashResult F) :=
  if style.thickness ≤ 0 then
    some (DashResult.returned destPath)
  else
    match dashLoop M dashLengths numDashLengths fuel
        (dashInit (fl.segments sourcePath transform (9 / extraAccuracy))) with
    | none => none
    | some (DashOutcome.exhausted st) =>
      some (DashResult.returned
        (createStrokedPath M fl style destPath st.newDestPath fl.identity extraAccuracy))
    | some (DashOutcome.invalidDash _) => some (DashResult.returned destPath)
    | some (DashOutcome.undefinedRead _) => some DashResult.undefinedRead

end Defs

/-! ## Rational instances used to evaluate the model -/

/-- Bisection for the integer square root: keeps `lo * lo ≤ n < hi * hi`. -/
def isqrtAux (n : Nat) : Nat → Nat → Nat → Nat
  | 0, lo, _ => lo
  | fuel + 1, lo, hi =>
    if hi ≤ lo + 1 then lo
    else
      let mid := (lo + hi) / 2
      if mid * mid ≤ n then isqrtAux n fuel mid hi else isqrtAux n fuel lo mid

/-- Integer square root. -/
def isqrt (n : Nat) : Nat := isqrtAux n (n + 1) 0 (n + 1)

/-- Square root on the rationals: exact on squares of rationals, rounded
towards zero in numerator and denominator otherwise. -/
def sqrtQ (q : ℚ) : ℚ := (isqrt q.num.natAbs : ℚ) / (isqrt q.den : ℚ)

/-- The rational stand-in for `float_Pi`. -/
def piQ : ℚ := 355 / 113

/-- Arc tangent on `[-1, 1]`, a quadratic approximation. -/
def atanQ (z : ℚ) : ℚ := z * (piQ / 4 + (273 / 1000) * (1 - |z|))

/-- A rational `atan2 (y, x)`, by reduction to `atanQ`. -/
def atan2Q (y x : ℚ) : ℚ :=
  if x = 0 ∧ y = 0 then 0
  else if |y| ≤ |x| then
    if 0 < x then atanQ (y / x)
    else if 0 ≤ y then atanQ (y / x) + piQ
    else atanQ (y / x) - piQ
  else
    if 0 < y then piQ / 2 - atanQ (x / y) else -(piQ / 2) - atanQ (x / y)

/-- The library functions over the rationals: `sqrtf` and `juce_hypotf` are
exact wherever the true value is rational, the trigonometric functions are
polynomial approximations. -/
def ratMath : FloatMath ℚ where
  sqrtf := sqrtQ
  hypotf := fun dx dy => sqrtQ (dx * dx + dy * dy)
  atan2f := atan2Q
  sinf := fun a => a - a ^ 3 / 6 + a ^ 5 / 120
  cosf := fun a => 1 - a ^ 2 / 2 + a ^ 4 / 24
  float_Pi := piQ
  float_Pi_pos := by norm_num [piQ]

/-- The flattener that yields the stream `segments` whatever the path. -/
def fixedFlattener {F : Type} (segments : List (FlatSegment F)) : Flattener F where
  Transform := Unit
  identity := ()
  segments := fun _ _ _ => segments

/-- A flattener for paths made of `startNewSubPath` and `lineTo` only, with
the identity as its one transform: every `lineTo` yields the segment from the
current point, numbered from 0 inside its sub-path; no segment closes a
sub-path.  Curves are not flattened (they yield nothing). -/
def polylineSegments : Path ℚ → ℚ × ℚ → Int → List (FlatSegment ℚ)
  | [], _, _ => []
  | PathOp.startNewSubPath x y :: ops, _, _ => polylineSegments ops (x, y) 0
  | PathOp.lineTo x y :: ops, cur, idx =>
    ⟨cur.1, cur.2, x, y, idx, false⟩ :: polylineSegments ops (x, y) (idx + 1)
  | PathOp.cubicTo _ _ _ _ x y :: ops, _, idx => polylineSegments ops (x, y) idx
  | PathOp.closeSubPath :: ops, cur, idx => polylineSegments ops cur idx

/-- The flattener built on `polylineSegments`. -/
def polylineFlattener : Flattener ℚ where
  Transform := Unit
  identity := ()
  segments := fun path _ _ => polylineSegments path (0, 0) 0

/-! ## Shape of the emitted operations -/

/-- The operation is a `lineTo`. -/
def PathOp.isLineTo {F : Type} : PathOp F → Bool
  | PathOp.lineTo _ _ => true
  | _ => false

/-- The operation is a `lineTo` or a `cubicTo`. -/
def PathOp.isDraw {F : Type} : PathOp F → Bool
  | PathOp.lineTo _ _ => true
  | PathOp.cubicTo _ _ _ _ _ _ => true
  | _ => false

/-- The operation is a `startNewSubPath`. -/
def PathOp.isStart {F : Type} : PathOp F → Bool
  | PathOp.startNewSubPath _ _ => true
  | _ => false

/-- The operation is a `closeSubPath`. -/
def PathOp.isClose {F : Type} : PathOp F → Bool
  | PathOp.closeSubPath => true
  | _ => false

/-- The operation is a `cubicTo`. -/
def PathOp.isCubic {F : Type} : PathOp F → Bool
  | PathOp.cubicTo _ _ _ _ _ _ => true
  | _ => false

/-- One closed output sub-path: a `startNewSubPath`, then `lineTo` and
`cubicTo` operations only, then a `closeSubPath`. -/
def ClosedBlock {F : Type} (b : Path F) : Prop :=
  ∃ (x y : F) (body : Path F),
    b = PathOp.startNewSubPath x y :: (body ++ [PathOp.closeSubPath]) ∧
    ∀ o ∈ body, o.isDraw = true

/-- A concatenation of closed output sub-paths. -/
def ClosedBlocks {F : Type} (p : Path F) : Prop :=
  ∃ blocks : List (Path F), p = blocks.flatten ∧ ∀ b ∈ blocks, ClosedBlock b

section ShapeDefs

variable {F : Type} [LinearOrderedField F]

/-- The walk `w` with `pre` put in front of its destination. -/
def EdgeWalk.prepend (pre : Path F) (w : EdgeWalk F) : EdgeWalk F :=
  { w with destPath := pre ++ w.destPath }

/-- The operations of the forward walk of `addSubPath` over `rest`, started
on the left edge of `firstLine`. -/
def leftWalk [FloorRing F] (M : FloatMath F) (js : JointStyle) (mm wd : F)
    (firstLine : LineSection F) (rest : List (LineSection F)) : EdgeWalk F :=
  rest.foldl (leftStep M js mm wd)
    ⟨[], firstLine.lx1, firstLine.ly1, firstLine.lx2, firstLine.ly2⟩

/-- The operations of the backward walk of `addSubPath` over `ls`, started
on the right edge of `lastLine`. -/
def rightWalk [FloorRing F] (M : FloatMath F) (js : JointStyle) (mm wd : F)
    (lastLine : LineSection F) (ls : List (LineSection F)) : EdgeWalk F :=
  ls.foldl (rightStep M js mm wd)
    ⟨[], lastLine.rx1, lastLine.ry1, lastLine.rx2, lastLine.ry2⟩

end ShapeDefs

section DashDefs

variable {F : Type} [LinearOrderedField F]

/-- The dashed path `newDestPath` that `createDashedStroke` has built when it
calls the stroker, for an iterator that yields `segments`; `none` when the
loop is left in another way or `fuel` passes do not suffice. -/
def dashedPath (M : FloatMath F) (dashLengths : List F) (numDashLengths : Nat) (fuel : Nat)
    (segments : List (FlatSegment F)) : Option (Path F) :=
  match dashLoop M dashLengths numDashLengths fuel (dashInit segments) with
  | some (DashOutcome.exhausted st) => some st.newDestPath
  | _ => none

end DashDefs

section DashSegmentDefs
variable {F : Type} [LinearOrderedField F]

/-- The straight line of length `a` that starts at the offset `k * (a + b)`
along the segment `(x1, y1)-(x2, y2)` of length `L`, as a sub-path. -/
def onDash (x1 y1 x2 y2 a b L : F) (k : Nat) : Path F :=
  [PathOp.startNewSubPath (x1 + (x2 - x1) * ((k * (a + b)) / L))
      (y1 + (y2 - y1) * ((k * (a + b)) / L)),
   PathOp.lineTo (x1 + (x2 - x1) * ((k * (a + b) + a) / L))
      (y1 + (y2 - y1) * ((k * (a + b) + a) / L))]

/-- The state of the dasher loop over the one segment `(x1, y1)-(x2, y2)` of
length `L` after `2 * k` passes with the pattern `[a, b]`. -/
def dashStateAfter (x1 y1 x2 y2 a b L : F) (k : Nat) : DashState F :=
  ⟨(List.range k).flatMap (onDash x1 y1 x2 y2 a b L)
      ++ [PathOp.startNewSubPath (x1 + (x2 - x1) * ((k * (a + b)) / L))
            (y1 + (y2 - y1) * ((k * (a + b)) / L))],
    [], x1, y1, x2, y2, false, 2 * k, k * (a + b), L, L, x2 - x1, y2 - y1⟩

/-- The point `(x, y)` lies on the closed segment `s`: it is collinear with the
end points and between them. -/
def pointOnSegment (s : FlatSegment F) (x y : F) : Bool :=
  decide ((s.x2 - s.x1) * (y - s.y1) - (s.y2 - s.y1) * (x - s.x1) = 0
    ∧ min s.x1 s.x2 ≤ x ∧ x ≤ max s.x1 s.x2
    ∧ min s.y1 s.y2 ≤ y ∧ y ≤ max s.y1 s.y2)

end DashSegmentDefs

section DashTerminationDefs
variable {F : Type} [LinearOrderedField F]

/-- The flag `first` and the iterator fields `x2`, `y2` of the dasher state
agree with the list of segments yielded so far: `first` is set as long as
nothing was yielded, and afterwards the fields hold the end point of the
segment yielded last. -/
def LastSeen (consumed : List (FlatSegment F)) (st : DashState F) : Prop :=
  (consumed = [] → st.first = true)
  ∧ ∀ s, consumed.getLast? = some s → st.first = false ∧ st.itX2 = s.x2 ∧ st.itY2 = s.y2

end DashTerminationDefs

section IntersectionDefs
variable {F : Type} [LinearOrderedField F]

/-- The local variable `divisor` of `lineIntersection` (source line 98): the
determinant `dx1 * dy2 - dx2 * dy1` of the two direction vectors. -/
def lineIntersection.divisor (x1 y1 x2 y2 x3 y3 x4 y4 : F) : F :=
  (x2 - x1) * (y4 - y3) - (x4 - x3) * (y2 - y1)

/-- The local variable `along1` of `lineIntersection` (source line 167). -/
def lineIntersection.along1 (x1 y1 x2 y2 x3 y3 x4 y4 : F) : F :=
  ((y1 - y3) * (x4 - x3) - (x1 - x3) * (y4 - y3))
    / lineIntersection.divisor x1 y1 x2 y2 x3 y3 x4 y4

/-- The local variable `along2` of `lineIntersection` (source line 174); the
source does not divide it by `divisor`. -/
def lineIntersection.along2 (x1 y1 x2 y2 x3 y3 : F) : F :=
  (y1 - y3) * (x2 - x1) - (x1 - x3) * (y2 - y1)

end IntersectionDefs

section ArcDefs

/-- The library functions over the rationals with a sine and a cosine that
satisfy `sin^2 + cos^2 = 1` exactly: the half-angle formulas with the tangent
of `a / 2` replaced by `a / 2`. -/
def unitCircleMath : FloatMath ℚ :=
  { ratMath with
    sinf := fun a => 4 * a / (4 + a * a)
    cosf := fun a => (4 - a * a) / (4 + a * a) }

end ArcDefs

section EqualityDefs
variable {F : Type} [LinearOrderedField F]

/-- The copy constructor `PathStrokeType (const PathStrokeType&)` (source
lines 52-57). -/
def PathStrokeType.copy (other : PathStrokeType F) : PathStrokeType F :=
  ⟨other.thickness, other.jointStyle, other.endStyle⟩

/-- The assignment `operator=` (source lines 59-65): the value of `*this`
after the call. -/
def PathStrokeType.assign (_self other : PathStrokeType F) : PathStrokeType F :=
  ⟨other.thickness, other.jointStyle, other.endStyle⟩

/-- The comparison `operator==` (source lines 71-76). -/
def PathStrokeType.operatorEq (self other : PathStrokeType F) : Bool :=
  decide (self.thickness = other.thickness)
    && decide (self.jointStyle = other.jointStyle)
    && decide (self.endStyle = other.endStyle)

/-- The comparison `operator!=` (source lines 78-81). -/
def PathStrokeType.operatorNe (self other : PathStrokeType F) : Bool :=
  ! self.operatorEq other

end EqualityDefs

section DashStepDefs
variable {F : Type} [LinearOrderedField F]

/-- What a pass of the `for (;;)` loop of `createDashedStroke` that starts in
the state `st` computes first (source lines 577-579): the index
`dashNum % numDashLengths` at which it reads the table and its flag `isSolid`. -/
def dashRead (numDashLengths : Nat) (st : DashState F) : Nat × Bool :=
  (st.dashNum % numDashLengths, decide (st.dashNum % 2 = 0))

/-- One pass of the `for (;;)` loop of `createDashedStroke` (source lines
577-620): the way the loop is left, or the state in which the next pass
starts.  The sum `pos + dashLen` is exact, as in `dashLoop`. -/
def dashStep (M : FloatMath F) (dashLengths : List F) (numDashLengths : Nat)
    (st : DashState F) : DashOutcome F ⊕ DashState F :=
  if numDashLengths = 0 then Sum.inl (DashOutcome.undefinedRead st)
  else
    match dashLengths[(dashRead numDashLengths st).1]? with
    | none => Sum.inl (DashOutcome.undefinedRead st)
    | some dashLen =>
      if dashLen ≤ 0 then
        Sum.inl (DashOutcome.invalidDash { st with dashNum := st.dashNum + 1 })
      else
        match consumeSegments M (dashRead numDashLengths st).2
            { st with dashNum := st.dashNum + 1, pos := st.pos + dashLen } st.pending with
        | (true, st2) => Sum.inl (DashOutcome.exhausted st2)
        | (false, st2) =>
          Sum.inr
            { st2 with
              newDestPath :=
                if (dashRead numDashLengths st).2 = true then
                  st2.newDestPath.lineTo
                    (st2.itX1 + st2.dx * ((st2.pos - (st2.lineEndPos - st2.lineLen)) / st2.lineLen))
                    (st2.itY1 + st2.dy * ((st2.pos - (st2.lineEndPos - st2.lineLen)) / st2.lineLen))
                else
                  st2.newDestPath.startNewSubPath
                    (st2.itX1 + st2.dx * ((st2.pos - (st2.lineEndPos - st2.lineLen)) / st2.lineLen))
                    (st2.itY1 + st2.dy * ((st2.pos - (st2.lineEndPos - st2.lineLen)) / st2.lineLen)) }

/-- The state in which pass number `k` (counted from 0) of the loop of
`createDashedStroke` starts, when the loop gets that far. -/
def dashStateAt (M : FloatMath F) (dashLengths : List F) (numDashLengths : Nat)
    (segments : List (FlatSegment F)) : Nat → Option (DashState F)
  | 0 => some (dashInit segments)
  | k + 1 =>
    match dashStateAt M dashLengths numDashLengths segments k with
    | none => none
    | some st =>
      match dashStep M dashLengths numDashLengths st with
      | Sum.inl _ => none
      | Sum.inr st2 => some st2

end DashStepDefs

section StrokeEndDefs
variable {F : Type} [LinearOrderedField F]

/-- The end of `createStrokedPath` (source lines 550-551): a pending sub-path
is flushed as an open one. -/
def strokeEnd [FloorRing F] (M : FloatMath F) (jointStyle : JointStyle) (endStyle : EndCapStyle)
    (width maxMiterExtensionSquared : F) (st : StrokeState F) : Path F :=
  if st.subPath.length > 0 then
    addSubPath M st.destPath st.subPath false width maxMiterExtensionSquared jointStyle endStyle
  else
    st.destPath

/-- The state `st` of the stroker loop with `pre` put in front of its
destination. -/
def StrokeState.prepend (pre : Path F) (st : StrokeState F) : StrokeState F :=
  ⟨pre ++ st.destPath, st.subPath, st.lx1, st.ly1⟩

end StrokeEndDefs

section FlushDefs
variable {F : Type} [LinearOrderedField F]

/-- The join that the forward loop of `addSubPath` makes from the left edge of
the section `a` to the left edge of the section `b`, with the pivot
`(b.x1, b.y1)` (source lines 372-376), as the operations it appends. -/
def leftJoin [FloorRing F] (M : FloatMath F) (js : JointStyle) (mm wd : F)
    (a b : LineSection F) : Path F :=
  addEdgeAndJoint M [] js mm wd a.lx1 a.ly1 a.lx2 a.ly2 b.lx1 b.ly1 b.lx2 b.ly2 b.x1 b.y1

/-- The join that the backward loop of `addSubPath` makes from the right edge
of the section `a` to the right edge of the section `b`, with the pivot
`(b.x2, b.y2)` (source lines 418-422), as the operations it appends. -/
def rightJoin [FloorRing F] (M : FloatMath F) (js : JointStyle) (mm wd : F)
    (a b : LineSection F) : Path F :=
  addEdgeAndJoint M [] js mm wd a.rx1 a.ry1 a.rx2 a.ry2 b.rx1 b.ry1 b.rx2 b.ry2 b.x2 b.y2

/-- The joins along the left edges of an open sub-path, in the words of the
specification: for `k = 0 .. n-2` the join from section `k` to section
`k + 1`, whose pivot is the point `(x1, y1)` of section `k + 1`. -/
def openLeftJoinsSpec [FloorRing F] (M : FloatMath F) (js : JointStyle) (mm wd : F)
    (firstLine : LineSection F) (rest : List (LineSection F)) : List (Path F) :=
  (List.range rest.length).map (fun k =>
    leftJoin M js mm wd ((firstLine :: rest).getD k firstLine)
      ((firstLine :: rest).getD (k + 1) firstLine))

/-- The joins along the right edges of an open sub-path, in the words of the
specification: for `i = n-2` down to `0` the join from section `i + 1` to
section `i`, whose pivot is the point `(x2, y2)` of section `i`. -/
def openRightJoinsSpec [FloorRing F] (M : FloatMath F) (js : JointStyle) (mm wd : F)
    (firstLine : LineSection F) (rest : List (LineSection F)) : List (Path F) :=
  (List.range rest.length).reverse.map (fun i =>
    rightJoin M js mm wd ((firstLine :: rest).getD (i + 1) firstLine)
      ((firstLine :: rest).getD i firstLine))

/-- The outline of an open sub-path with the sections `firstLine :: rest`, in
the words of the specification: the start at the point `(rx2, ry2)` of the
first section, the start cap to its `(lx1, ly1)`, the joins along the left
edges, the line to the `(lx2, ly2)` of the last section, the end cap to its
`(rx1, ry1)`, the joins along the right edges, the line back to the start and
the closing. -/
def openOutlineSpec [FloorRing F] (M : FloatMath F) (js : JointStyle) (es : EndCapStyle)
    (mm wd : F) (firstLine : LineSection F) (rest : List (LineSection F)) : Path F :=
  [PathOp.startNewSubPath firstLine.rx2 firstLine.ry2]
    ++ addLineEnd M [] es firstLine.rx2 firstLine.ry2 firstLine.lx1 firstLine.ly1 wd
    ++ (openLeftJoinsSpec M js mm wd firstLine rest).flatten
    ++ [PathOp.lineTo ((firstLine :: rest).getD rest.length firstLine).lx2
          ((firstLine :: rest).getD rest.length firstLine).ly2]
    ++ addLineEnd M [] es
          ((firstLine :: rest).getD rest.length firstLine).lx2
          ((firstLine :: rest).getD rest.length firstLine).ly2
          ((firstLine :: rest).getD rest.length firstLine).rx1
          ((firstLine :: rest).getD rest.length firstLine).ry1 wd
    ++ (openRightJoinsSpec M js mm wd firstLine rest).flatten
    ++ [PathOp.lineTo firstLine.rx2 firstLine.ry2, PathOp.closeSubPath]

/-- The two rings of a closed sub-path with beveled joints and the `n`
sections `firstLine :: rest`, in the words of the specification: the start at
`lx1[0]`, for `i = 0 .. n-1` the lines to `lx2[i]` and `lx1[(i+1) mod n]`,
the closing, the start at `rx1[n-1]`, for `i = n-1` down to `0` the lines to
`rx2[i]` and `rx1[(i-1) mod n]`, the closing. -/
def closedBevelRingsSpec (firstLine : LineSection F) (rest : List (LineSection F)) : Path F :=
  [PathOp.startNewSubPath firstLine.lx1 firstLine.ly1]
    ++ (List.range (rest.length + 1)).flatMap (fun i =>
        [PathOp.lineTo ((firstLine :: rest).getD i firstLine).lx2
            ((firstLine :: rest).getD i firstLine).ly2,
         PathOp.lineTo ((firstLine :: rest).getD ((i + 1) % (rest.length + 1)) firstLine).lx1
            ((firstLine :: rest).getD ((i + 1) % (rest.length + 1)) firstLine).ly1])
    ++ [PathOp.closeSubPath,
        PathOp.startNewSubPath ((firstLine :: rest).getD rest.length firstLine).rx1
          ((firstLine :: rest).getD rest.length firstLine).ry1]
    ++ (List.range (rest.length + 1)).reverse.flatMap (fun i =>
        [PathOp.lineTo ((firstLine :: rest).getD i firstLine).rx2
            ((firstLine :: rest).getD i firstLine).ry2,
         PathOp.lineTo
            ((firstLine :: rest).getD ((i + (rest.length + 1) - 1) % (rest.length + 1))
              firstLine).rx1
            ((firstLine :: rest).getD ((i + (rest.length + 1) - 1) % (rest.length + 1))
              firstLine).ry1])
    ++ [PathOp.closeSubPath]

end FlushDefs

section DashCutDefs
variable {F : Type} [LinearOrderedField F]

/-- The state in which a pass of the `for (;;)` loop of `createDashedStroke`
that starts in the state `st` interpolates its cut point (source line 613):
the state left by the loop `while (pos > lineEndPos)`.  The value is `none`
when the pass does not get to line 613: the table cannot be read, the dash
length read is `<= 0`, or the iterator runs out. -/
def dashCut (M : FloatMath F) (dashLengths : List F) (numDashLengths : Nat)
    (st : DashState F) : Option (DashState F) :=
  if numDashLengths = 0 then none
  else
    match dashLengths[(dashRead numDashLengths st).1]? with
    | none => none
    | some dashLen =>
      if dashLen ≤ 0 then none
      else
        match consumeSegments M (dashRead numDashLengths st).2
            { st with dashNum := st.dashNum + 1, pos := st.pos + dashLen } st.pending with
        | (true, _) => none
        | (false, st2) => some st2

/-- The local variable `alpha` of `createDashedStroke` (source line 613). -/
def dashAlpha (st : DashState F) : F :=
  (st.pos - (st.lineEndPos - st.lineLen)) / st.lineLen

/-- The iterator fields, the differences `dx`, `dy` and the length `lineLen`
of the dasher state are those of the segment `s`. -/
def AtSegment (M : FloatMath F) (s : FlatSegment F) (st : DashState F) : Prop :=
  st.itX1 = s.x1 ∧ st.itY1 = s.y1 ∧ st.itX2 = s.x2 ∧ st.itY2 = s.y2
    ∧ st.dx = s.x2 - s.x1 ∧ st.dy = s.y2 - s.y1
    ∧ st.lineLen = M.hypotf (s.x2 - s.x1) (s.y2 - s.y1)

/-- What holds of the dasher state at the start of every pass, for an iterator
over `segments`: `pos` is not before the start of the current segment, the
current segment is a segment of the stream as soon as `lineLen` is not 0, and
the segments still to be yielded belong to the stream. -/
def DashInv (M : FloatMath F) (segments : List (FlatSegment F)) (st : DashState F) : Prop :=
  st.lineEndPos - st.lineLen ≤ st.pos
    ∧ (st.lineLen ≠ 0 → ∃ s ∈ segments, AtSegment M s st)
    ∧ ∀ s ∈ st.pending, s ∈ segments

end DashCutDefs

section CapDefs
variable {F : Type} [LinearOrderedField F]

/-- The two offset points `(offx1, offy1)` and `(offx2, offy2)` that
`addLineEnd` computes for a cap that is not a butt cap (source lines
282-303). -/
def capOffsets (M : FloatMath F) (x1 y1 x2 y2 width : F) : F × F × F × F :=
  let dx := x2 - x1
  let dy := y2 - y1
  let len := M.hypotf dx dy
  if len = 0 then
    (x1, y1, x1, y1)
  else
    let offset := width / len
    let dx := dx * offset
    let dy := dy * offset
    (x1 + dy, y1 - dx, x2 + dy, y2 - dx)

/-- The point at which an operation leaves the current position, when it
moves it. -/
def PathOp.endPoint : PathOp F → Option (F × F)
  | PathOp.startNewSubPath x y => some (x, y)
  | PathOp.lineTo x y => some (x, y)
  | PathOp.cubicTo _ _ _ _ x3 y3 => some (x3, y3)
  | PathOp.closeSubPath => none

end CapDefs

section ContiguousDefs
variable {F : Type} [LinearOrderedField F]

/-- The squared length of the segment from which a section was built. -/
def LineSection.hypotSquared (s : LineSection F) : F :=
  (s.x2 - s.x1) * (s.x2 - s.x1) + (s.y2 - s.y1) * (s.y2 - s.y1)

end ContiguousDefs

section FloatDefs

/-- Rounding of a rational to the nearest integer, a tie going to the even
neighbour. -/
def roundHalfEven (q : ℚ) : Int :=
  if q - ⌊q⌋ < 1 / 2 then ⌊q⌋
  else if 1 / 2 < q - ⌊q⌋ then ⌊q⌋ + 1
  else if ⌊q⌋ % 2 = 0 then ⌊q⌋ else ⌊q⌋ + 1

/-- The value of type `float` nearest to the rational `x`: the significand
has 24 binary digits, a tie goes to the even significand (the default
rounding of IEEE 754 single precision).  The range of the exponent is not
limited, so there is neither overflow nor a subnormal range. -/
def roundFloat (x : ℚ) : ℚ :=
  if x = 0 then 0
  else roundHalfEven (x / 2 ^ (Int.log 2 |x| - 23)) * 2 ^ (Int.log 2 |x| - 23)

/-- The addition of two values of type `float`: the exact sum, rounded. -/
def floatAdd (a b : ℚ) : ℚ := roundFloat (a + b)

end FloatDefs

section DashRoundingDefs
variable {F : Type} [LinearOrderedField F]

/-- The loop `while (pos > lineEndPos)` of `createDashedStroke` (source lines
586-611) with the sum `lineEndPos += lineLen` (source line 610) computed by
`add`: the variables are of type `float`, whose addition rounds its result.
With the exact addition of the field this is `consumeSegments`. -/
def consumeSegmentsWith (add : F → F → F) (M : FloatMath F) (isSolid : Bool)
    (st : DashState F) : List (FlatSegment F) → Bool × DashState F
  | [] =>
    if st.pos > st.lineEndPos then
      (true, { st with
        pending := []
        newDestPath :=
          if isSolid = true ∧ st.first = false then st.newDestPath.lineTo st.itX2 st.itY2
          else st.newDestPath })
    else
      (false, { st with pending := [] })
  | s :: rest =>
    if st.pos > st.lineEndPos then
      let dx := s.x2 - s.x1
      let dy := s.y2 - s.y1
      let lineLen := M.hypotf dx dy
      consumeSegmentsWith add M isSolid
        { st with
          itX1 := s.x1, itY1 := s.y1, itX2 := s.x2, itY2 := s.y2
          newDestPath :=
            if isSolid = true ∧ st.first = false then st.newDestPath.lineTo s.x1 s.y1
            else st.newDestPath.startNewSubPath s.x1 s.y1
          first := if isSolid = true ∧ st.first = false then st.first else false
          dx := dx, dy := dy, lineLen := lineLen
          lineEndPos := add st.lineEndPos lineLen }
        rest
    else
      (false, { st with pending := s :: rest })

/-- The loop `for (;;)` of `createDashedStroke` (source lines 575-621) with
the two running sums on which its control flow depends, `pos += dashLen`
(source line 584) and `lineEndPos += lineLen` (source line 610), computed by
`add`; `fuel` bounds the number of passes, and `none` means that the bound was
reached.  With the exact addition of the field this is `dashLoop`. -/
def dashLoopWith (add : F → F → F) (M : FloatMath F) (dashLengths : List F)
    (numDashLengths : Nat) : Nat → DashState F → Option (DashOutcome F)
  | 0, _ => none
  | fuel + 1, st =>
    let isSolid : Bool := decide (st.dashNum % 2 = 0)
    if numDashLengths = 0 then some (DashOutcome.undefinedRead st)
    else
      match dashLengths[st.dashNum % numDashLengths]? with
      | none => some (DashOutcome.undefinedRead st)
      | some dashLen =>
        let st : DashState F := { st with dashNum := st.dashNum + 1 }
        if dashLen ≤ 0 then some (DashOutcome.invalidDash st)
        else
          let st : DashState F := { st with pos := add st.pos dashLen }
          match consumeSegmentsWith add M isSolid st st.pending with
          | (true, st) => some (DashOutcome.exhausted st)
          | (false, st) =>
            let alpha := (st.pos - (st.lineEndPos - st.lineLen)) / st.lineLen
            let st : DashState F :=
              { st with
                newDestPath :=
                  if isSolid = true then
                    st.newDestPath.lineTo (st.itX1 + st.dx * alpha) (st.itY1 + st.dy * alpha)
                  else
                    st.newDestPath.startNewSubPath (st.itX1 + st.dx * alpha)
                      (st.itY1 + st.dy * alpha) }
            dashLoopWith add M dashLengths numDashLengths fuel st

/-- The method `PathStrokeType::createDashedStroke` (source lines 554-622),
assertions disabled, with the running sums of its loop computed by `add`;
`fuel` bounds the passes through its main loop.  With the exact addition of
the field this is `createDashedStroke`. -/
def createDashedStrokeWith [FloorRing F] (add : F → F → F) (M : FloatMath F) (fl : Flattener F)
    (style : PathStrokeType F) (destPath : Path F) (sourcePath : Path F)
    (dashLengths : List F) (numDashLengths : Nat)
    (transform : fl.Transform) (extraAccuracy : F) (fuel : Nat) : Option (DashResult F) :=
  if style.thickness ≤ 0 then
    some (DashResult.returned destPath)
  else
    match dashLoopWith add M dashLengths numDashLengths fuel
        (dashInit (fl.segments sourcePath transform (9 / extraAccuracy))) with
    | none => none
    | some (DashOutcome.exhausted st) =>
      some (DashResult.returned
        (createStrokedPath M fl style destPath st.newDestPath fl.identity extraAccuracy))
    | some (DashOutcome.invalidDash _) => some (DashResult.returned destPath)
    | some (DashOutcome.undefinedRead _) => some DashResult.undefinedRead

/-- The dashed path `newDestPath` that `createDashedStroke` has built when it
calls the stroker, for an iterator that yields `segments` and the running sums
computed by `add`; `none` when the loop is left in another way or `fuel`
passes do not suffice. -/
def dashedPathWith (add : F → F → F) (M : FloatMath F) (dashLengths : List F)
    (numDashLengths : Nat) (fuel : Nat) (segments : List (FlatSegment F)) : Option (Path F) :=
  match dashLoopWith add M dashLengths numDashLengths fuel (dashInit segments) with
  | some (DashOutcome.exhausted st) => some st.newDestPath
  | _ => none

/-- The greatest value that `lineEndPos` takes while the segments `pending`
are yielded, from its present value `e` on, the sums computed by `add`. -/
def reachWith (add : F → F → F) (M : FloatMath F) : F → List (FlatSegment F) → F
  | e, [] => e
  | e, s :: rest =>
    max e (reachWith add M (add e (M.hypotf (s.x2 - s.x1) (s.y2 - s.y1))) rest)

end DashRoundingDefs

/-! # Theorems -/

set_option linter.unusedSectionVars false
set_option linter.unusedVariables false

section Lemmas

variable {F : Type} [LinearOrderedField F]

theorem isDraw_of_isLineTo {o : PathOp F} (h : o.isLineTo = true) : o.isDraw = true := by
  cases o <;> simp_all [PathOp.isLineTo, PathOp.isDraw]

theorem arcSteps_append [FloorRing F] (M : FloatMath F) (destPath : Path F) (midX midY width angle angle2 : F) :
    arcSteps M destPath midX midY width angle angle2
      = destPath ++ arcSteps M [] midX midY width angle angle2 := by
  suffices h : ∀ (d : Path F) (mx my w a a2 : F),
      ∀ pre : Path F, arcSteps M (pre ++ d) mx my w a a2 = pre ++ arcSteps M d mx my w a a2 by
    simpa using h [] midX midY width angle angle2 destPath
  intro d mx my w a a2
  induction d, mx, my, w, a, a2 using arcSteps.induct M with
  | case1 d mx my w a a2 hgt ih =>
    intro pre
    rw [arcSteps, if_pos hgt, arcSteps.eq_1 M d, if_pos hgt]
    simpa [Path.lineTo, List.append_assoc] using ih pre
  | case2 d mx my w a a2 hgt =>
    intro pre
    rw [arcSteps, if_neg hgt, arcSteps.eq_1 M d, if_neg hgt]

theorem arcSteps_isLineTo [FloorRing F] (M : FloatMath F) (midX midY width angle angle2 : F) :
    ∀ o ∈ arcSteps M [] midX midY width angle angle2, o.isLineTo = true := by
  suffices h : ∀ (d : Path F) (mx my w a a2 : F), (∀ o ∈ d, o.isLineTo = true) →
      ∀ o ∈ arcSteps M d mx my w a a2, o.isLineTo = true from
    h [] midX midY width angle angle2 (by simp)
  intro d mx my w a a2
  induction d, mx, my, w, a, a2 using arcSteps.induct M with
  | case1 d mx my w a a2 hgt ih =>
    intro hd
    rw [arcSteps, if_pos hgt]
    apply ih
    intro o ho
    simp only [Path.lineTo, List.mem_append, List.mem_singleton] at ho
    rcases ho with ho | rfl
    · exact hd o ho
    · rfl
  | case2 d mx my w a a2 hgt =>
    intro hd
    rw [arcSteps, if_neg hgt]
    exact hd

/-- The operations that `addEdgeAndJoint` appends. -/
theorem addEdgeAndJoint_append [FloorRing F] (M : FloatMath F) (destPath : Path F) (style : JointStyle)
    (mm width x1 y1 x2 y2 x3 y3 x4 y4 midX midY : F) :
    addEdgeAndJoint M destPath style mm width x1 y1 x2 y2 x3 y3 x4 y4 midX midY
      = destPath ++ addEdgeAndJoint M [] style mm width x1 y1 x2 y2 x3 y3 x4 y4 midX midY := by
  unfold addEdgeAndJoint
  simp only [Path.lineTo]
  split_ifs
  all_goals first
    | (simp; done)
    | (rw [arcSteps_append M (destPath ++ _), arcSteps_append M ([] ++ _)]; simp)

theorem addEdgeAndJoint_isLineTo [FloorRing F] (M : FloatMath F) (style : JointStyle)
    (mm width x1 y1 x2 y2 x3 y3 x4 y4 midX midY : F) :
    ∀ o ∈ addEdgeAndJoint M [] style mm width x1 y1 x2 y2 x3 y3 x4 y4 midX midY,
      o.isLineTo = true := by
  unfold addEdgeAndJoint
  simp only [Path.lineTo]
  split_ifs
  all_goals first
    | (simp [PathOp.isLineTo]; done)
    | (rw [arcSteps_append M ([] ++ _)]
       intro o ho
       simp only [List.nil_append, List.mem_append, List.mem_singleton, List.mem_cons,
         List.not_mem_nil, or_false] at ho
       rcases ho with (rfl | ho) | rfl
       · rfl
       · exact arcSteps_isLineTo M _ _ _ _ _ o ho
       · rfl)

theorem addLineEnd_append (M : FloatMath F) (destPath : Path F) (style : EndCapStyle)
    (x1 y1 x2 y2 width : F) :
    addLineEnd M destPath style x1 y1 x2 y2 width
      = destPath ++ addLineEnd M [] style x1 y1 x2 y2 width := by
  unfold addLineEnd
  split_ifs <;> simp [Path.lineTo, Path.cubicTo]

theorem addLineEnd_isDraw (M : FloatMath F) (style : EndCapStyle) (x1 y1 x2 y2 width : F) :
    ∀ o ∈ addLineEnd M [] style x1 y1 x2 y2 width, o.isDraw = true := by
  unfold addLineEnd
  split_ifs <;> simp [Path.lineTo, Path.cubicTo, PathOp.isDraw]

theorem leftStep_prepend [FloorRing F] (M : FloatMath F) (js : JointStyle) (mm wd : F)
    (pre : Path F) (w : EdgeWalk F) (l : LineSection F) :
    leftStep M js mm wd (w.prepend pre) l = (leftStep M js mm wd w l).prepend pre := by
  simp only [leftStep, EdgeWalk.prepend]
  rw [addEdgeAndJoint_append M (pre ++ w.destPath), addEdgeAndJoint_append M w.destPath]
  simp

theorem rightStep_prepend [FloorRing F] (M : FloatMath F) (js : JointStyle) (mm wd : F)
    (pre : Path F) (w : EdgeWalk F) (l : LineSection F) :
    rightStep M js mm wd (w.prepend pre) l = (rightStep M js mm wd w l).prepend pre := by
  simp only [rightStep, EdgeWalk.prepend]
  rw [addEdgeAndJoint_append M (pre ++ w.destPath), addEdgeAndJoint_append M w.destPath]
  simp

theorem leftStep_mem [FloorRing F] (M : FloatMath F) (js : JointStyle) (mm wd : F)
    (w : EdgeWalk F) (l : LineSection F) :
    ∀ o ∈ (leftStep M js mm wd w l).destPath, o ∈ w.destPath ∨ o.isLineTo = true := by
  intro o ho
  simp only [leftStep] at ho
  rw [addEdgeAndJoint_append, List.mem_append] at ho
  exact ho.imp id (addEdgeAndJoint_isLineTo M _ _ _ _ _ _ _ _ _ _ _ _ _ o)

theorem rightStep_mem [FloorRing F] (M : FloatMath F) (js : JointStyle) (mm wd : F)
    (w : EdgeWalk F) (l : LineSection F) :
    ∀ o ∈ (rightStep M js mm wd w l).destPath, o ∈ w.destPath ∨ o.isLineTo = true := by
  intro o ho
  simp only [rightStep] at ho
  rw [addEdgeAndJoint_append, List.mem_append] at ho
  exact ho.imp id (addEdgeAndJoint_isLineTo M _ _ _ _ _ _ _ _ _ _ _ _ _ o)

theorem foldl_walk_prepend (step : EdgeWalk F → LineSection F → EdgeWalk F)
    (hstep : ∀ pre w l, step (EdgeWalk.prepend pre w) l = EdgeWalk.prepend pre (step w l))
    (pre : Path F) (ls : List (LineSection F)) :
    ∀ w : EdgeWalk F, ls.foldl step (w.prepend pre) = (ls.foldl step w).prepend pre := by
  induction ls with
  | nil => intro w; rfl
  | cons l ls ih =>
    intro w
    simp only [List.foldl_cons]
    rw [hstep, ih]

theorem foldl_walk_mem (step : EdgeWalk F → LineSection F → EdgeWalk F)
    (hstep : ∀ w l, ∀ o ∈ (step w l).destPath, o ∈ w.destPath ∨ o.isLineTo = true)
    (ls : List (LineSection F)) :
    ∀ w : EdgeWalk F, ∀ o ∈ (ls.foldl step w).destPath, o ∈ w.destPath ∨ o.isLineTo = true := by
  induction ls with
  | nil => intro w o ho; exact Or.inl ho
  | cons l ls ih =>
    intro w o ho
    simp only [List.foldl_cons] at ho
    rcases ih _ o ho with h | h
    · exact hstep w l o h
    · exact Or.inr h

theorem leftWalk_eq [FloorRing F] (M : FloatMath F) (js : JointStyle) (mm wd : F)
    (d : Path F) (firstLine : LineSection F) (rest : List (LineSection F)) :
    rest.foldl (leftStep M js mm wd)
        ⟨d, firstLine.lx1, firstLine.ly1, firstLine.lx2, firstLine.ly2⟩
      = (leftWalk M js mm wd firstLine rest).prepend d := by
  have h := foldl_walk_prepend (leftStep M js mm wd) (leftStep_prepend M js mm wd) d rest
    ⟨[], firstLine.lx1, firstLine.ly1, firstLine.lx2, firstLine.ly2⟩
  simpa [EdgeWalk.prepend, leftWalk] using h

theorem rightWalk_eq [FloorRing F] (M : FloatMath F) (js : JointStyle) (mm wd : F)
    (d : Path F) (lastLine : LineSection F) (ls : List (LineSection F)) :
    ls.foldl (rightStep M js mm wd)
        ⟨d, lastLine.rx1, lastLine.ry1, lastLine.rx2, lastLine.ry2⟩
      = (rightWalk M js mm wd lastLine ls).prepend d := by
  have h := foldl_walk_prepend (rightStep M js mm wd) (rightStep_prepend M js mm wd) d ls
    ⟨[], lastLine.rx1, lastLine.ry1, lastLine.rx2, lastLine.ry2⟩
  simpa [EdgeWalk.prepend, rightWalk] using h

theorem leftWalk_isLineTo [FloorRing F] (M : FloatMath F) (js : JointStyle) (mm wd : F)
    (firstLine : LineSection F) (rest : List (LineSection F)) :
    ∀ o ∈ (leftWalk M js mm wd firstLine rest).destPath, o.isLineTo = true := by
  intro o ho
  rcases foldl_walk_mem (leftStep M js mm wd) (leftStep_mem M js mm wd) rest _ o ho with h | h
  · simp at h
  · exact h

theorem rightWalk_isLineTo [FloorRing F] (M : FloatMath F) (js : JointStyle) (mm wd : F)
    (lastLine : LineSection F) (ls : List (LineSection F)) :
    ∀ o ∈ (rightWalk M js mm wd lastLine ls).destPath, o.isLineTo = true := by
  intro o ho
  rcases foldl_walk_mem (rightStep M js mm wd) (rightStep_mem M js mm wd) ls _ o ho with h | h
  · simp at h
  · exact h

/-- The operations `addSubPath` appends for a closed sub-path. -/
theorem addSubPath_closed_eq [FloorRing F] (M : FloatMath F) (d : Path F)
    (firstLine : LineSection F) (rest : List (LineSection F)) (wd mm : F)
    (js : JointStyle) (es : EndCapStyle) :
    addSubPath M d (firstLine :: rest) true wd mm js es
      = d ++ (PathOp.startNewSubPath firstLine.lx1 firstLine.ly1
          :: ((leftWalk M js mm wd firstLine rest).destPath
              ++ addEdgeAndJoint M [] js mm wd
                  (leftWalk M js mm wd firstLine rest).lastX1
                  (leftWalk M js mm wd firstLine rest).lastY1
                  (leftWalk M js mm wd firstLine rest).lastX2
                  (leftWalk M js mm wd firstLine rest).lastY2
                  firstLine.lx1 firstLine.ly1 firstLine.lx2 firstLine.ly2
                  firstLine.x1 firstLine.y1)
          ++ [PathOp.closeSubPath])
        ++ (PathOp.startNewSubPath
              ((firstLine :: rest).getLast (List.cons_ne_nil _ _)).rx1
              ((firstLine :: rest).getLast (List.cons_ne_nil _ _)).ry1
          :: ((rightWalk M js mm wd ((firstLine :: rest).getLast (List.cons_ne_nil _ _))
                  (firstLine :: rest).dropLast.reverse).destPath
              ++ addEdgeAndJoint M [] js mm wd
                  (rightWalk M js mm wd ((firstLine :: rest).getLast (List.cons_ne_nil _ _))
                    (firstLine :: rest).dropLast.reverse).lastX1
                  (rightWalk M js mm wd ((firstLine :: rest).getLast (List.cons_ne_nil _ _))
                    (firstLine :: rest).dropLast.reverse).lastY1
                  (rightWalk M js mm wd ((firstLine :: rest).getLast (List.cons_ne_nil _ _))
                    (firstLine :: rest).dropLast.reverse).lastX2
                  (rightWalk M js mm wd ((firstLine :: rest).getLast (List.cons_ne_nil _ _))
                    (firstLine :: rest).dropLast.reverse).lastY2
                  ((firstLine :: rest).getLast (List.cons_ne_nil _ _)).rx1
                  ((firstLine :: rest).getLast (List.cons_ne_nil _ _)).ry1
                  ((firstLine :: rest).getLast (List.cons_ne_nil _ _)).rx2
                  ((firstLine :: rest).getLast (List.cons_ne_nil _ _)).ry2
                  ((firstLine :: rest).getLast (List.cons_ne_nil _ _)).x2
                  ((firstLine :: rest).getLast (List.cons_ne_nil _ _)).y2)
          ++ [PathOp.closeSubPath]) := by
  simp only [addSubPath, if_true, leftWalk_eq, rightWalk_eq, EdgeWalk.prepend,
    Path.startNewSubPath, Path.closeSubPath]
  rw [addEdgeAndJoint_append M (_ ++ _), addEdgeAndJoint_append M ((_ ++ _) ++ _)]
  simp [List.append_assoc]

/-- The operations `addSubPath` appends for an open sub-path. -/
theorem addSubPath_open_eq [FloorRing F] (M : FloatMath F) (d : Path F)
    (firstLine : LineSection F) (rest : List (LineSection F)) (wd mm : F)
    (js : JointStyle) (es : EndCapStyle) :
    addSubPath M d (firstLine :: rest) false wd mm js es
      = d ++ (PathOp.startNewSubPath firstLine.rx2 firstLine.ry2
          :: (addLineEnd M [] es firstLine.rx2 firstLine.ry2 firstLine.lx1 firstLine.ly1 wd
              ++ (leftWalk M js mm wd firstLine rest).destPath
              ++ [PathOp.lineTo (leftWalk M js mm wd firstLine rest).lastX2
                    (leftWalk M js mm wd firstLine rest).lastY2]
              ++ addLineEnd M [] es
                  (leftWalk M js mm wd firstLine rest).lastX2
                  (leftWalk M js mm wd firstLine rest).lastY2
                  ((firstLine :: rest).getLast (List.cons_ne_nil _ _)).rx1
                  ((firstLine :: rest).getLast (List.cons_ne_nil _ _)).ry1 wd
              ++ (rightWalk M js mm wd ((firstLine :: rest).getLast (List.cons_ne_nil _ _))
                  (firstLine :: rest).dropLast.reverse).destPath
              ++ [PathOp.lineTo
                  (rightWalk M js mm wd ((firstLine :: rest).getLast (List.cons_ne_nil _ _))
                    (firstLine :: rest).dropLast.reverse).lastX2
                  (rightWalk M js mm wd ((firstLine :: rest).getLast (List.cons_ne_nil _ _))
                    (firstLine :: rest).dropLast.reverse).lastY2])
          ++ [PathOp.closeSubPath]) := by
  simp only [addSubPath, Bool.false_eq_true, if_false, leftWalk_eq, rightWalk_eq,
    EdgeWalk.prepend, Path.startNewSubPath, Path.closeSubPath, Path.lineTo]
  rw [addLineEnd_append M (d ++ [_]), addLineEnd_append M (_ ++ [_])]
  simp [List.append_assoc]

theorem closedBlocks_nil : ClosedBlocks ([] : Path F) :=
  ⟨[], by simp, by simp⟩

theorem ClosedBlocks.append_block {p b : Path F} (hp : ClosedBlocks p) (hb : ClosedBlock b) :
    ClosedBlocks (p ++ b) := by
  obtain ⟨blocks, rfl, hblocks⟩ := hp
  refine ⟨blocks ++ [b], by simp, ?_⟩
  intro c hc
  rcases List.mem_append.mp hc with h | h
  · exact hblocks c h
  · rw [List.mem_singleton.mp h]
    exact hb

/-- The block that `addSubPath` appends for a closed sub-path consists of two
closed output sub-paths, whose inner operations are all `lineTo`. -/
theorem addSubPath_closed_shape [FloorRing F] (M : FloatMath F)
    (firstLine : LineSection F) (rest : List (LineSection F)) (wd mm : F)
    (js : JointStyle) (es : EndCapStyle) :
    ∃ (px py qx qy : F) (b1 b2 : Path F),
      (∀ o ∈ b1, o.isLineTo = true) ∧ (∀ o ∈ b2, o.isLineTo = true) ∧
      ∀ d : Path F, addSubPath M d (firstLine :: rest) true wd mm js es
        = d ++ (PathOp.startNewSubPath px py :: b1 ++ [PathOp.closeSubPath])
            ++ (PathOp.startNewSubPath qx qy :: b2 ++ [PathOp.closeSubPath]) := by
  refine ⟨_, _, _, _, _, _, ?_, ?_, fun d => addSubPath_closed_eq M d firstLine rest wd mm js es⟩
  · intro o ho
    rcases List.mem_append.mp ho with h | h
    · exact leftWalk_isLineTo M js mm wd _ _ o h
    · exact addEdgeAndJoint_isLineTo M _ _ _ _ _ _ _ _ _ _ _ _ _ o h
  · intro o ho
    rcases List.mem_append.mp ho with h | h
    · exact rightWalk_isLineTo M js mm wd _ _ o h
    · exact addEdgeAndJoint_isLineTo M _ _ _ _ _ _ _ _ _ _ _ _ _ o h

/-- The block that `addSubPath` appends for an open sub-path is one closed
output sub-path. -/
theorem addSubPath_open_shape [FloorRing F] (M : FloatMath F)
    (firstLine : LineSection F) (rest : List (LineSection F)) (wd mm : F)
    (js : JointStyle) (es : EndCapStyle) :
    ∃ (px py : F) (b : Path F),
      (∀ o ∈ b, o.isDraw = true) ∧
      ∀ d : Path F, addSubPath M d (firstLine :: rest) false wd mm js es
        = d ++ (PathOp.startNewSubPath px py :: b ++ [PathOp.closeSubPath]) := by
  refine ⟨_, _, _, ?_, fun d => addSubPath_open_eq M d firstLine rest wd mm js es⟩
  intro o ho
  simp only [List.mem_append, List.mem_singleton] at ho
  rcases ho with ((((h | h) | h) | h) | h) | h
  · exact addLineEnd_isDraw M _ _ _ _ _ _ o h
  · exact isDraw_of_isLineTo (leftWalk_isLineTo M js mm wd _ _ o h)
  · rw [h]; rfl
  · exact addLineEnd_isDraw M _ _ _ _ _ _ o h
  · exact isDraw_of_isLineTo (rightWalk_isLineTo M js mm wd _ _ o h)
  · rw [h]; rfl

theorem closedBlocks_addSubPath [FloorRing F] (M : FloatMath F) (d : Path F)
    (subPath : List (LineSection F)) (isClosed : Bool) (wd mm : F)
    (js : JointStyle) (es : EndCapStyle) (hd : ClosedBlocks d) :
    ClosedBlocks (addSubPath M d subPath isClosed wd mm js es) := by
  cases subPath with
  | nil => simpa [addSubPath] using hd
  | cons firstLine rest =>
    cases isClosed with
    | true =>
      obtain ⟨px, py, qx, qy, b1, b2, h1, h2, heq⟩ :=
        addSubPath_closed_shape M firstLine rest wd mm js es
      rw [heq d]
      refine (hd.append_block ⟨px, py, b1, rfl, ?_⟩).append_block ⟨qx, qy, b2, rfl, ?_⟩
      · exact fun o ho => isDraw_of_isLineTo (h1 o ho)
      · exact fun o ho => isDraw_of_isLineTo (h2 o ho)
    | false =>
      obtain ⟨px, py, b, h1, heq⟩ := addSubPath_open_shape M firstLine rest wd mm js es
      rw [heq d]
      exact hd.append_block ⟨px, py, b, rfl, h1⟩

theorem closedBlocks_strokeStep [FloorRing F] (M : FloatMath F) (js : JointStyle)
    (es : EndCapStyle) (wd mm minLen : F) (st : StrokeState F) (it : FlatSegment F)
    (hd : ClosedBlocks st.destPath) :
    ClosedBlocks (strokeStep M js es wd mm minLen st it).destPath := by
  have hb : ClosedBlocks (strokeBegin M js es wd mm st it).destPath := by
    unfold strokeBegin
    split_ifs
    · exact closedBlocks_addSubPath M _ _ _ _ _ _ _ hd
    · exact hd
    · exact hd
  unfold strokeStep strokeKeep
  simp only
  split_ifs
  · exact closedBlocks_addSubPath M _ _ _ _ _ _ _ hb
  · exact hb
  · exact hb

theorem closedBlocks_foldl_strokeStep [FloorRing F] (M : FloatMath F) (js : JointStyle)
    (es : EndCapStyle) (wd mm minLen : F) (segments : List (FlatSegment F)) :
    ∀ st : StrokeState F, ClosedBlocks st.destPath →
      ClosedBlocks (segments.foldl (strokeStep M js es wd mm minLen) st).destPath := by
  induction segments with
  | nil => intro st h; exact h
  | cons s segs ih =>
    intro st h
    exact ih _ (closedBlocks_strokeStep M js es wd mm minLen st s h)

theorem closedBlocks_strokeSegments [FloorRing F] (M : FloatMath F) (style : PathStrokeType F)
    (segments : List (FlatSegment F)) (extraAccuracy : F) :
    ClosedBlocks (strokeSegments M style segments extraAccuracy) := by
  unfold strokeSegments
  simp only
  have h := closedBlocks_foldl_strokeStep M style.jointStyle style.endStyle
    (1 / 2 * style.thickness) (9 * style.thickness * style.thickness)
    (2 / (extraAccuracy * extraAccuracy)) segments ⟨[], [], 0, 0⟩ closedBlocks_nil
  split_ifs
  · exact closedBlocks_addSubPath M _ _ _ _ _ _ _ h
  · exact h

/-- C1: with a thickness above 0, whatever stream the flattener yields and
whatever the style, the operations `createStrokedPath` leaves in the destination
form a concatenation of blocks, each made of one `startNewSubPath`, then only
`lineTo` and `cubicTo` operations, then a `closeSubPath`: every output
sub-path is explicitly closed. -/
theorem C1_createStrokedPath_closed_blocks [FloorRing F] (M : FloatMath F) (fl : Flattener F)
    (style : PathStrokeType F) (destPath source : Path F) (transform : fl.Transform)
    (extraAccuracy : F) (hT : 0 < style.thickness) :
    ClosedBlocks (createStrokedPath M fl style destPath source transform extraAccuracy) := by
  unfold createStrokedPath
  rw [if_neg (not_le.mpr hT)]
  exact closedBlocks_strokeSegments M style _ extraAccuracy

/-- C1 at a concrete input: an open polyline of two segments stroked with
thickness 10, mitered joints and square caps into a destination that held an
operation; the output is not empty and is made of closed blocks. -/
theorem C1_createStrokedPath_closed_blocks_witness :
    (0 : ℚ) < 10 ∧
    createStrokedPath ratMath polylineFlattener ⟨10, JointStyle.mitered, EndCapStyle.square⟩
        [PathOp.lineTo 7 7]
        [PathOp.startNewSubPath 0 0, PathOp.lineTo 100 0, PathOp.lineTo 100 50] () 1 ≠ [] ∧
    ClosedBlocks
      (createStrokedPath ratMath polylineFlattener ⟨10, JointStyle.mitered, EndCapStyle.square⟩
        [PathOp.lineTo 7 7]
        [PathOp.startNewSubPath 0 0, PathOp.lineTo 100 0, PathOp.lineTo 100 50] () 1) :=
  ⟨by norm_num, by decide!,
    C1_createStrokedPath_closed_blocks ratMath polylineFlattener
      ⟨10, JointStyle.mitered, EndCapStyle.square⟩ [PathOp.lineTo 7 7]
      [PathOp.startNewSubPath 0 0, PathOp.lineTo 100 0, PathOp.lineTo 100 50] () 1
      (by norm_num)⟩

/-- C2: with a thickness of 0 or below, `createStrokedPath` leaves the
destination empty, whatever the source path, the transform, the accuracy and
the previous content of the destination. -/
theorem C2_createStrokedPath_nonpositive_thickness [FloorRing F] (M : FloatMath F)
    (fl : Flattener F) (style : PathStrokeType F) (destPath source : Path F)
    (transform : fl.Transform) (extraAccuracy : F) (hT : style.thickness ≤ 0) :
    createStrokedPath M fl style destPath source transform extraAccuracy = [] := by
  unfold createStrokedPath
  rw [if_pos hT]
  rfl

/-- C2 at a concrete input: thickness -3 and a destination that held two
operations. -/
theorem C2_createStrokedPath_nonpositive_thickness_witness :
    (-3 : ℚ) ≤ 0 ∧
    createStrokedPath ratMath polylineFlattener ⟨-3, JointStyle.curved, EndCapStyle.rounded⟩
        [PathOp.startNewSubPath 1 1, PathOp.lineTo 7 7]
        [PathOp.startNewSubPath 0 0, PathOp.lineTo 100 0, PathOp.lineTo 100 50] () 1 = [] :=
  ⟨by norm_num,
    C2_createStrokedPath_nonpositive_thickness ratMath polylineFlattener
      ⟨-3, JointStyle.curved, EndCapStyle.rounded⟩
      [PathOp.startNewSubPath 1 1, PathOp.lineTo 7 7]
      [PathOp.startNewSubPath 0 0, PathOp.lineTo 100 0, PathOp.lineTo 100 50] () 1
      (by norm_num)⟩

/-- A pass of the stroker loop over a segment that neither closes its sub-path
nor flushes a pending one leaves the destination alone and does not depend on
the cap style. -/
theorem strokeStep_quiet [FloorRing F] (M : FloatMath F) (js : JointStyle) (es : EndCapStyle)
    (wd mm minLen : F) (st : StrokeState F) (s : FlatSegment F)
    (hc : s.closesSubPath = false) (hi : s.subPathIndex ≠ 0 ∨ st.subPath = []) :
    strokeStep M js es wd mm minLen st s = strokeStep M js EndCapStyle.butt wd mm minLen st s
    ∧ (strokeStep M js es wd mm minLen st s).destPath = st.destPath := by
  unfold strokeStep strokeBegin strokeKeep
  rcases hi with hi | hi
  · simp only [if_neg hi, hc, Bool.false_eq_true, false_or, if_false]
    split_ifs <;> simp
  · simp only [hi, List.length_nil, gt_iff_lt, lt_self_iff_false, if_false, hc,
      Bool.false_eq_true, false_or]
    split_ifs <;> simp

theorem foldl_strokeStep_quiet [FloorRing F] (M : FloatMath F) (js : JointStyle)
    (es : EndCapStyle) (wd mm minLen : F) (segs : List (FlatSegment F)) :
    ∀ st : StrokeState F,
      (∀ s ∈ segs, s.closesSubPath = false) → (∀ s ∈ segs, s.subPathIndex ≠ 0) →
      segs.foldl (strokeStep M js es wd mm minLen) st
          = segs.foldl (strokeStep M js EndCapStyle.butt wd mm minLen) st
        ∧ (segs.foldl (strokeStep M js es wd mm minLen) st).destPath = st.destPath := by
  induction segs with
  | nil => intro st _ _; exact ⟨rfl, rfl⟩
  | cons s segs ih =>
    intro st hc hi
    have h1 := strokeStep_quiet M js es wd mm minLen st s (hc s (List.mem_cons_self _ _))
      (Or.inl (hi s (List.mem_cons_self _ _)))
    have h2 := ih (strokeStep M js es wd mm minLen st s)
      (fun x hx => hc x (List.mem_cons_of_mem _ hx))
      (fun x hx => hi x (List.mem_cons_of_mem _ hx))
    simp only [List.foldl_cons]
    refine ⟨?_, ?_⟩
    · rw [h2.1, h1.1]
    · rw [h2.2, h1.2]

/-- The loop of the stroker over the segments of one sub-path that come before
its closing segment: nothing is written, whatever the cap style. -/
theorem foldl_strokeStep_run [FloorRing F] (M : FloatMath F) (js : JointStyle)
    (es : EndCapStyle) (wd mm minLen : F) (segs : List (FlatSegment F))
    (hc : ∀ s ∈ segs, s.closesSubPath = false) (hi : ∀ s ∈ segs.tail, s.subPathIndex ≠ 0) :
    segs.foldl (strokeStep M js es wd mm minLen) ⟨[], [], 0, 0⟩
        = segs.foldl (strokeStep M js EndCapStyle.butt wd mm minLen) ⟨[], [], 0, 0⟩
      ∧ (segs.foldl (strokeStep M js es wd mm minLen) ⟨[], [], 0, 0⟩).destPath = [] := by
  cases segs with
  | nil => exact ⟨rfl, rfl⟩
  | cons s segs =>
    have h1 := strokeStep_quiet M js es wd mm minLen ⟨[], [], 0, 0⟩ s
      (hc s (List.mem_cons_self _ _)) (Or.inr rfl)
    have h2 := foldl_strokeStep_quiet M js es wd mm minLen segs
      (strokeStep M js es wd mm minLen ⟨[], [], 0, 0⟩ s)
      (fun x hx => hc x (List.mem_cons_of_mem _ hx)) (fun x hx => hi x hx)
    simp only [List.foldl_cons]
    refine ⟨?_, ?_⟩
    · rw [h2.1, h1.1]
    · rw [h2.2, h1.2]

/-- A pass of the stroker loop over a closing segment that does not flush a
pending open sub-path: the working list, with the closing section added, is
flushed as a closed sub-path. -/
theorem strokeStep_closing [FloorRing F] (M : FloatMath F) (js : JointStyle) (es : EndCapStyle)
    (wd mm minLen : F) (st : StrokeState F) (s : FlatSegment F)
    (hc : s.closesSubPath = true) (hi : s.subPathIndex ≠ 0 ∨ st.subPath = []) :
    ∃ sec : LineSection F,
      sec.x2 = s.x2 ∧ sec.y2 = s.y2 ∧
      ∀ es : EndCapStyle,
        (strokeStep M js es wd mm minLen st s).destPath
            = addSubPath M st.destPath (st.subPath ++ [sec]) true wd mm js es
          ∧ (strokeStep M js es wd mm minLen st s).subPath = [] := by
  unfold strokeStep strokeBegin strokeKeep
  by_cases h0 : s.subPathIndex = 0
  · have hsub : st.subPath = [] := hi.resolve_left (fun h => h h0)
    refine ⟨makeSection M wd s.x1 s.y1 s.x2 s.y2, ?_, ?_, fun es => ?_⟩
    · unfold makeSection; simp only; split_ifs <;> rfl
    · unfold makeSection; simp only; split_ifs <;> rfl
    · simp [h0, hsub, hc]
  · refine ⟨makeSection M wd st.lx1 st.ly1 s.x2 s.y2, ?_, ?_, fun es => ?_⟩
    · unfold makeSection; simp only; split_ifs <;> rfl
    · unfold makeSection; simp only; split_ifs <;> rfl
    · simp [h0, hc]

/-- The output of the stroker for a stream that forms one closed sub-path is
a single closed flush of a non-empty working list, the same list for every
cap style. -/
theorem strokeSegments_closed_stream [FloorRing F] (M : FloatMath F) (T : F) (js : JointStyle)
    (extraAccuracy : F) (segs : List (FlatSegment F)) (last : FlatSegment F)
    (hlast : last.closesSubPath = true)
    (hopen : ∀ s ∈ segs, s.closesSubPath = false)
    (hidx : ∀ s ∈ (segs ++ [last]).tail, s.subPathIndex ≠ 0) :
    ∃ (firstLine : LineSection F) (rest : List (LineSection F)),
      ((firstLine :: rest).getLast (List.cons_ne_nil _ _)).x2 = last.x2 ∧
      ((firstLine :: rest).getLast (List.cons_ne_nil _ _)).y2 = last.y2 ∧
      ∀ es : EndCapStyle,
        strokeSegments M ⟨T, js, es⟩ (segs ++ [last]) extraAccuracy
          = addSubPath M [] (firstLine :: rest) true (1 / 2 * T) (9 * T * T) js es := by
  have hi : ∀ s ∈ segs.tail, s.subPathIndex ≠ 0 := by
    intro s hs
    apply hidx
    cases segs with
    | nil => simp at hs
    | cons a l => simpa using Or.inl hs
  have hrun := fun es => foldl_strokeStep_run M js es (1 / 2 * T) (9 * T * T)
    (2 / (extraAccuracy * extraAccuracy)) segs hopen hi
  have hli : last.subPathIndex ≠ 0 ∨
      (segs.foldl (strokeStep M js EndCapStyle.butt (1 / 2 * T) (9 * T * T)
        (2 / (extraAccuracy * extraAccuracy))) ⟨[], [], 0, 0⟩).subPath = [] := by
    cases segs with
    | nil => exact Or.inr rfl
    | cons a l => exact Or.inl (hidx last (by simp))
  obtain ⟨sec, hx, hy, hsec⟩ := strokeStep_closing M js EndCapStyle.butt (1 / 2 * T) (9 * T * T)
    (2 / (extraAccuracy * extraAccuracy)) _ last hlast hli
  set st0 := segs.foldl (strokeStep M js EndCapStyle.butt (1 / 2 * T) (9 * T * T)
        (2 / (extraAccuracy * extraAccuracy))) ⟨[], [], 0, 0⟩ with hst0
  have hd0 : st0.destPath = [] := by
    have := (hrun EndCapStyle.butt).2
    rwa [← hst0] at this
  obtain ⟨firstLine, rest, hfr⟩ : ∃ f r, st0.subPath ++ [sec] = f :: r := by
    cases st0.subPath with
    | nil => exact ⟨sec, [], rfl⟩
    | cons a l => exact ⟨a, l ++ [sec], rfl⟩
  refine ⟨firstLine, rest, ?_, ?_, fun es => ?_⟩
  · have : (firstLine :: rest).getLast (List.cons_ne_nil _ _) = sec := by
      simp only [← hfr]; simp
    rw [this, hx]
  · have : (firstLine :: rest).getLast (List.cons_ne_nil _ _) = sec := by
      simp only [← hfr]; simp
    rw [this, hy]
  · unfold strokeSegments
    simp only [List.foldl_append, List.foldl_cons, List.foldl_nil]
    rw [(hrun es).1, (hsec es).2]
    simp only [List.length_nil, gt_iff_lt, lt_self_iff_false, if_false]
    rw [(hsec es).1, hd0, hfr]

/-- C4: for a stream that forms one closed sub-path (its last segment is
flagged `closesSubPath`, no other one is, and no segment after the first
starts a sub-path), any thickness above 0, any joint style and any cap style,
`createStrokedPath` leaves exactly two closed sub-paths in the destination:
a `startNewSubPath`, `lineTo` operations, a `closeSubPath`, and the same
again.  There are exactly two `startNewSubPath` and two `closeSubPath`
operations, no `cubicTo`, and the output is the same for every cap style: no
cap is emitted. -/
theorem C4_closed_subpath_two_rings [FloorRing F] (M : FloatMath F) (fl : Flattener F)
    (T : F) (js : JointStyle) (es : EndCapStyle) (destPath source : Path F)
    (transform : fl.Transform) (extraAccuracy : F)
    (segs : List (FlatSegment F)) (last : FlatSegment F)
    (hT : 0 < T)
    (hsrc : fl.segments source transform (9 / extraAccuracy) = segs ++ [last])
    (hlast : last.closesSubPath = true)
    (hopen : ∀ s ∈ segs, s.closesSubPath = false)
    (hidx : ∀ s ∈ (segs ++ [last]).tail, s.subPathIndex ≠ 0) :
    (∃ (px py qx qy : F) (b1 b2 : Path F),
      (∀ o ∈ b1, o.isLineTo = true) ∧ (∀ o ∈ b2, o.isLineTo = true) ∧
      createStrokedPath M fl ⟨T, js, es⟩ destPath source transform extraAccuracy
        = (PathOp.startNewSubPath px py :: b1 ++ [PathOp.closeSubPath])
            ++ (PathOp.startNewSubPath qx qy :: b2 ++ [PathOp.closeSubPath]))
    ∧ (createStrokedPath M fl ⟨T, js, es⟩ destPath source transform extraAccuracy).countP
        PathOp.isStart = 2
    ∧ (createStrokedPath M fl ⟨T, js, es⟩ destPath source transform extraAccuracy).countP
        PathOp.isClose = 2
    ∧ (∀ o ∈ createStrokedPath M fl ⟨T, js, es⟩ destPath source transform extraAccuracy,
        o.isCubic = false)
    ∧ ∀ es2 : EndCapStyle,
        createStrokedPath M fl ⟨T, js, es2⟩ destPath source transform extraAccuracy
          = createStrokedPath M fl ⟨T, js, es⟩ destPath source transform extraAccuracy := by
  obtain ⟨firstLine, rest, -, -, hout⟩ :=
    strokeSegments_closed_stream M T js extraAccuracy segs last hlast hopen hidx
  obtain ⟨px, py, qx, qy, b1, b2, h1, h2, hshape⟩ :=
    addSubPath_closed_shape M firstLine rest (1 / 2 * T) (9 * T * T) js es
  have hcs : ∀ e : EndCapStyle,
      createStrokedPath M fl ⟨T, js, e⟩ destPath source transform extraAccuracy
        = addSubPath M [] (firstLine :: rest) true (1 / 2 * T) (9 * T * T) js e := by
    intro e
    unfold createStrokedPath
    rw [if_neg (not_le.mpr hT), hsrc]
    exact hout e
  have hes : ∀ e : EndCapStyle,
      addSubPath M [] (firstLine :: rest) true (1 / 2 * T) (9 * T * T) js e
        = addSubPath M [] (firstLine :: rest) true (1 / 2 * T) (9 * T * T) js es := by
    intro e
    rw [addSubPath_closed_eq, addSubPath_closed_eq]
  have hn1 : ∀ b : Path F, (∀ o ∈ b, o.isLineTo = true) →
      b.countP PathOp.isStart = 0 ∧ b.countP PathOp.isClose = 0 := by
    intro b hb
    constructor <;>
    · rw [List.countP_eq_zero]
      intro o ho
      have := hb o ho
      cases o <;> simp_all [PathOp.isLineTo, PathOp.isStart, PathOp.isClose]
  have hfinal : createStrokedPath M fl ⟨T, js, es⟩ destPath source transform extraAccuracy
      = (PathOp.startNewSubPath px py :: b1 ++ [PathOp.closeSubPath])
          ++ (PathOp.startNewSubPath qx qy :: b2 ++ [PathOp.closeSubPath]) := by
    rw [hcs es, hshape []]
    simp
  refine ⟨⟨px, py, qx, qy, b1, b2, h1, h2, hfinal⟩, ?_, ?_, ?_, ?_⟩
  · rw [hfinal]
    simp [List.countP_append, List.countP_cons, PathOp.isStart, (hn1 b1 h1).1, (hn1 b2 h2).1]
  · rw [hfinal]
    simp [List.countP_append, List.countP_cons, PathOp.isClose, (hn1 b1 h1).2, (hn1 b2 h2).2]
  · rw [hfinal]
    intro o ho
    have hl : ∀ o ∈ b1 ++ b2, o.isCubic = false := by
      intro o ho
      have : o.isLineTo = true := (List.mem_append.mp ho).elim (h1 o) (h2 o)
      cases o <;> simp_all [PathOp.isLineTo, PathOp.isCubic]
    simp only [List.cons_append, List.mem_append, List.mem_cons, List.mem_singleton,
      List.not_mem_nil, or_false] at ho
    rcases ho with rfl | ((ho | rfl) | (rfl | (ho | rfl)))
    · rfl
    · exact hl o (List.mem_append.mpr (Or.inl ho))
    · rfl
    · rfl
    · exact hl o (List.mem_append.mpr (Or.inr ho))
    · rfl
  · intro es2
    rw [hcs es2, hcs es, hes es2]

/-- C4 at the closed triangle `(0,0)`, `(4,0)`, `(4,3)` with thickness 2,
mitered joints and square caps: two `startNewSubPath`, two `closeSubPath`. -/
theorem C4_closed_subpath_two_rings_witness :
    (createStrokedPath ratMath
        (fixedFlattener [⟨0, 0, 4, 0, 0, false⟩, ⟨4, 0, 4, 3, 1, false⟩, ⟨4, 3, 0, 0, 2, true⟩])
        ⟨2, JointStyle.mitered, EndCapStyle.square⟩ [] [] () 1).countP PathOp.isStart = 2
    ∧ (createStrokedPath ratMath
        (fixedFlattener [⟨0, 0, 4, 0, 0, false⟩, ⟨4, 0, 4, 3, 1, false⟩, ⟨4, 3, 0, 0, 2, true⟩])
        ⟨2, JointStyle.mitered, EndCapStyle.square⟩ [] [] () 1).countP PathOp.isClose = 2 :=
  let h := C4_closed_subpath_two_rings ratMath
    (fixedFlattener [⟨0, 0, 4, 0, 0, false⟩, ⟨4, 0, 4, 3, 1, false⟩, ⟨4, 3, 0, 0, 2, true⟩])
    2 JointStyle.mitered EndCapStyle.square [] [] () 1
    [⟨0, 0, 4, 0, 0, false⟩, ⟨4, 0, 4, 3, 1, false⟩] ⟨4, 3, 0, 0, 2, true⟩
    (by norm_num) rfl rfl (by simp) (by simp)
  ⟨h.2.1, h.2.2.1⟩


/-- C5, counterexample: the segment `(0,0)-(10,0)` has length `1 * (6 + 4)`,
and the dashed path built for the pattern `[6, 4]` has two sub-paths, not one:
the dash `(0,0)-(6,0)` and a second sub-path of length zero at `(10,0)`. -/
theorem C5_counterexample :
    dashedPath ratMath [6, 4] 2 3 [⟨0, 0, 10, 0, 0, false⟩]
      = some [PathOp.startNewSubPath 0 0, PathOp.lineTo 6 0,
          PathOp.startNewSubPath 10 0, PathOp.lineTo 10 0]
    ∧ ¬ ∃ p : Path ℚ, dashedPath ratMath [6, 4] 2 3 [⟨0, 0, 10, 0, 0, false⟩] = some p
        ∧ p.countP PathOp.isStart = 1 := by
  have h : dashedPath ratMath [6, 4] 2 3 [⟨0, 0, 10, 0, 0, false⟩]
      = some [PathOp.startNewSubPath 0 0, PathOp.lineTo 6 0,
          PathOp.startNewSubPath 10 0, PathOp.lineTo 10 0] := by decide!
  refine ⟨h, ?_⟩
  rintro ⟨p, hp, hcount⟩
  rw [h] at hp
  cases hp
  simp [PathOp.isStart] at hcount

/-- C6, the code at the failing input: with thickness 0 `createDashedStroke`
returns at once and the destination keeps its two operations; it is not
emptied. -/
theorem C6_dashed_nonpositive_thickness_keeps_destination :
    createDashedStroke ratMath polylineFlattener ⟨0, JointStyle.mitered, EndCapStyle.butt⟩
        [PathOp.startNewSubPath 0 0, PathOp.lineTo 1 1]
        [PathOp.startNewSubPath 0 0, PathOp.lineTo 10 0] [6, 4] 2 () 1 0
      = some (DashResult.returned [PathOp.startNewSubPath 0 0, PathOp.lineTo 1 1])
    ∧ createStrokedPath ratMath polylineFlattener ⟨0, JointStyle.mitered, EndCapStyle.butt⟩
        [PathOp.startNewSubPath 0 0, PathOp.lineTo 1 1]
        [PathOp.startNewSubPath 0 0, PathOp.lineTo 10 0] () 1 = [] := by
  constructor <;> decide!

/-- C7, the code at the failing input: for a stream of two sub-paths,
`(0,0)-(10,0)` and `(0,100)-(10,100)`, and the pattern `[100, 1]`, the dashed
path contains the line from `(0,0)` to `(0,100)`, which joins the two
sub-paths; its midpoint `(0,50)` lies on neither source segment. -/
theorem C7_dashed_path_joins_subpaths :
    dashedPath ratMath [100, 1] 2 1 [⟨0, 0, 10, 0, 0, false⟩, ⟨0, 100, 10, 100, 0, false⟩]
      = some [PathOp.startNewSubPath 0 0, PathOp.lineTo 0 100, PathOp.lineTo 10 100]
    ∧ ∀ s ∈ [(⟨0, 0, 10, 0, 0, false⟩ : FlatSegment ℚ), ⟨0, 100, 10, 100, 0, false⟩],
        pointOnSegment s 0 50 = false := by
  constructor
  · decide!
  · decide!


theorem lastSeen_congr {consumed : List (FlatSegment F)} {st st2 : DashState F}
    (h : LastSeen consumed st) (h1 : st2.first = st.first) (h2 : st2.itX2 = st.itX2)
    (h3 : st2.itY2 = st.itY2) : LastSeen consumed st2 := by
  unfold LastSeen at h ⊢
  rw [h1, h2, h3]
  exact h

theorem lastSeen_dashInit (segs : List (FlatSegment F)) :
    LastSeen [] (dashInit segs) :=
  ⟨fun _ => rfl, fun s hs => by simp at hs⟩

/-- C10, counterexample: for the open sub-path `(0,0)-(10,0)`, `(10,0)-(10.5,0)`
stroked with accuracy 1 (minimum squared length 2) the final segment, of
squared length 0.25, is not in the working list when the loop ends: the list
holds the one section that ends at `(10,0)`, and the outline that is flushed
stops at `x = 10`. -/
theorem C10_counterexample :
    (([⟨0, 0, 10, 0, 0, false⟩, ⟨10, 0, 21 / 2, 0, 1, false⟩] : List (FlatSegment ℚ)).foldl
        (strokeStep ratMath JointStyle.mitered EndCapStyle.butt 1 36 2) ⟨[], [], 0, 0⟩).subPath.map
        (fun l => (l.x2, l.y2)) = [(10, 0)]
    ∧ strokeSegments ratMath ⟨2, JointStyle.mitered, EndCapStyle.butt⟩
        [⟨0, 0, 10, 0, 0, false⟩, ⟨10, 0, 21 / 2, 0, 1, false⟩] 1
      = [PathOp.startNewSubPath 0 1, PathOp.lineTo 0 (-1), PathOp.lineTo 10 (-1),
         PathOp.lineTo 10 1, PathOp.lineTo 0 1, PathOp.closeSubPath] := by
  constructor <;> decide!

/-- C10, as the code has it: a segment flagged `closesSubPath` is added to the
working list whatever its length, and the list that is flushed as a closed
sub-path ends with the section that reaches the end point of that segment.
A segment that is not flagged is added only when its squared length from the
running start point exceeds the minimum; otherwise the working list and the
running start point are left as they are. -/
theorem C10_closing_segment_always_kept [FloorRing F] (M : FloatMath F) (js : JointStyle)
    (es : EndCapStyle) (wd mm minLen : F) (st : StrokeState F) (s : FlatSegment F) :
    (s.closesSubPath = true →
      ∃ sec : LineSection F, sec.x2 = s.x2 ∧ sec.y2 = s.y2
        ∧ (strokeStep M js es wd mm minLen st s).destPath
            = addSubPath M (strokeBegin M js es wd mm st s).destPath
                ((strokeBegin M js es wd mm st s).subPath ++ [sec]) true wd mm js es)
    ∧ (s.closesSubPath = false →
        (s.x2 - (strokeBegin M js es wd mm st s).lx1)
            * (s.x2 - (strokeBegin M js es wd mm st s).lx1)
          + (s.y2 - (strokeBegin M js es wd mm st s).ly1)
            * (s.y2 - (strokeBegin M js es wd mm st s).ly1) ≤ minLen →
        strokeStep M js es wd mm minLen st s = strokeBegin M js es wd mm st s)
    ∧ (s.closesSubPath = false →
        minLen < (s.x2 - (strokeBegin M js es wd mm st s).lx1)
            * (s.x2 - (strokeBegin M js es wd mm st s).lx1)
          + (s.y2 - (strokeBegin M js es wd mm st s).ly1)
            * (s.y2 - (strokeBegin M js es wd mm st s).ly1) →
        ∃ sec : LineSection F, sec.x2 = s.x2 ∧ sec.y2 = s.y2
          ∧ (strokeStep M js es wd mm minLen st s).subPath
              = (strokeBegin M js es wd mm st s).subPath ++ [sec]) := by
  have hsec : ∀ a b : F, (makeSection M wd a b s.x2 s.y2).x2 = s.x2
      ∧ (makeSection M wd a b s.x2 s.y2).y2 = s.y2 := by
    intro a b
    unfold makeSection
    simp only
    split_ifs <;> exact ⟨rfl, rfl⟩
  refine ⟨fun hc => ?_, fun hc hshort => ?_, fun hc hlong => ?_⟩
  · refine ⟨makeSection M wd (strokeBegin M js es wd mm st s).lx1
      (strokeBegin M js es wd mm st s).ly1 s.x2 s.y2, (hsec _ _).1, (hsec _ _).2, ?_⟩
    simp [strokeStep, strokeKeep, hc]
  · simp [strokeStep, strokeKeep, hc, not_lt.mpr hshort]
  · refine ⟨makeSection M wd (strokeBegin M js es wd mm st s).lx1
      (strokeBegin M js es wd mm st s).ly1 s.x2 s.y2, (hsec _ _).1, (hsec _ _).2, ?_⟩
    simp [strokeStep, strokeKeep, hc, hlong]

/-- C10 at the closing segment `(10,0)-(10.5,0)` of squared length 0.25 with
the minimum 2, after the section `(0,0)-(10,0)`: the list flushed as a closed
sub-path ends with a section that reaches `(10.5, 0)`. -/
theorem C10_closing_segment_always_kept_witness :
    ∃ sec : LineSection ℚ, sec.x2 = 21 / 2 ∧ sec.y2 = 0
      ∧ (strokeStep ratMath JointStyle.mitered EndCapStyle.butt 1 36 2
            ⟨[], [makeSection ratMath 1 0 0 10 0], 10, 0⟩
            ⟨10, 0, 21 / 2, 0, 1, true⟩).destPath
          = addSubPath ratMath
              (strokeBegin ratMath JointStyle.mitered EndCapStyle.butt 1 36
                ⟨[], [makeSection ratMath 1 0 0 10 0], 10, 0⟩
                ⟨10, 0, 21 / 2, 0, 1, true⟩).destPath
              ((strokeBegin ratMath JointStyle.mitered EndCapStyle.butt 1 36
                ⟨[], [makeSection ratMath 1 0 0 10 0], 10, 0⟩
                ⟨10, 0, 21 / 2, 0, 1, true⟩).subPath ++ [sec])
              true 1 36 JointStyle.mitered EndCapStyle.butt :=
  (C10_closing_segment_always_kept ratMath JointStyle.mitered EndCapStyle.butt 1 36 2
    ⟨[], [makeSection ratMath 1 0 0 10 0], 10, 0⟩ ⟨10, 0, 21 / 2, 0, 1, true⟩).1 rfl

/-- The shortcut of `lineIntersection` for edges that share the end point
`(x2, y2) = (x3, y3)`. -/
theorem lineIntersection_shared (x1 y1 x2 y2 x4 y4 : F) :
    lineIntersection x1 y1 x2 y2 x2 y2 x4 y4 = ⟨true, x2, y2, 0⟩ := by
  unfold lineIntersection
  simp

/-- With a zero determinant `lineIntersection` returns the midpoint of
`(x2, y2)` and `(x3, y3)`: no axis-aligned branch can be taken. -/
theorem lineIntersection_parallel (x1 y1 x2 y2 x3 y3 x4 y4 : F)
    (hne : x2 ≠ x3 ∨ y2 ≠ y3)
    (hdiv : lineIntersection.divisor x1 y1 x2 y2 x3 y3 x4 y4 = 0) :
    lineIntersection x1 y1 x2 y2 x3 y3 x4 y4
      = ⟨false, (1 / 2) * (x2 + x3), (1 / 2) * (y2 + y3), 0⟩ := by
  unfold lineIntersection.divisor at hdiv
  unfold lineIntersection
  simp only [if_pos hne, hdiv, if_true]
  by_cases hg : (x2 - x1 = 0 ∧ y2 - y1 = 0) ∨ (x4 - x3 = 0 ∧ y4 - y3 = 0)
  · simp only [hg, not_true_eq_false, if_false]
  · have hA : ¬ (y2 - y1 = 0 ∧ y4 - y3 ≠ 0) := by
      rintro ⟨h, h2⟩
      apply hg
      left
      refine ⟨?_, h⟩
      rw [h, mul_zero, sub_zero] at hdiv
      exact (mul_eq_zero.mp hdiv).resolve_right h2
    have hB : ¬ (y4 - y3 = 0 ∧ y2 - y1 ≠ 0) := by
      rintro ⟨h, h2⟩
      apply hg
      right
      refine ⟨?_, h⟩
      rw [h, mul_zero, zero_sub, neg_eq_zero] at hdiv
      exact (mul_eq_zero.mp hdiv).resolve_right h2
    have hC : ¬ (x2 - x1 = 0 ∧ x4 - x3 ≠ 0) := by
      rintro ⟨h, h2⟩
      apply hg
      left
      refine ⟨h, ?_⟩
      rw [h, zero_mul, zero_sub, neg_eq_zero] at hdiv
      exact (mul_eq_zero.mp hdiv).resolve_left h2
    have hD : ¬ (x4 - x3 = 0 ∧ x2 - x1 ≠ 0) := by
      rintro ⟨h, h2⟩
      apply hg
      right
      refine ⟨h, ?_⟩
      rw [h, zero_mul, sub_zero] at hdiv
      exact (mul_eq_zero.mp hdiv).resolve_left h2
    simp only [hg, not_false_eq_true, if_true, hA, hB, hC, hD, if_false]

/-- With a non-zero determinant and distinct points `(x2, y2)`, `(x3, y3)`,
`lineIntersection` takes its last branch (source lines 165-191). -/
theorem lineIntersection_crossing (x1 y1 x2 y2 x3 y3 x4 y4 : F)
    (hne : x2 ≠ x3 ∨ y2 ≠ y3)
    (hdiv : lineIntersection.divisor x1 y1 x2 y2 x3 y3 x4 y4 ≠ 0) :
    lineIntersection x1 y1 x2 y2 x3 y3 x4 y4
      = ⟨decide ((lineIntersection.along1 x1 y1 x2 y2 x3 y3 x4 y4 ≥ 0
              ∧ lineIntersection.along1 x1 y1 x2 y2 x3 y3 x4 y4 ≤ 1)
            ∧ (lineIntersection.along2 x1 y1 x2 y2 x3 y3 ≥ 0
              ∧ lineIntersection.along2 x1 y1 x2 y2 x3 y3
                ≤ lineIntersection.divisor x1 y1 x2 y2 x3 y3 x4 y4)),
          x1 + lineIntersection.along1 x1 y1 x2 y2 x3 y3 x4 y4 * (x2 - x1),
          y1 + lineIntersection.along1 x1 y1 x2 y2 x3 y3 x4 y4 * (y2 - y1),
          if (lineIntersection.along1 x1 y1 x2 y2 x3 y3 x4 y4 ≥ 0
              ∧ lineIntersection.along1 x1 y1 x2 y2 x3 y3 x4 y4 ≤ 1)
            ∧ (lineIntersection.along2 x1 y1 x2 y2 x3 y3 ≥ 0
              ∧ lineIntersection.along2 x1 y1 x2 y2 x3 y3
                ≤ lineIntersection.divisor x1 y1 x2 y2 x3 y3 x4 y4) then 0
          else if lineIntersection.along1 x1 y1 x2 y2 x3 y3 x4 y4 < 1 then
            -((lineIntersection.along1 x1 y1 x2 y2 x3 y3 x4 y4 - 1)
              * (lineIntersection.along1 x1 y1 x2 y2 x3 y3 x4 y4 - 1)
              * ((x2 - x1) * (x2 - x1) + (y2 - y1) * (y2 - y1)))
          else
            (lineIntersection.along1 x1 y1 x2 y2 x3 y3 x4 y4 - 1)
              * (lineIntersection.along1 x1 y1 x2 y2 x3 y3 x4 y4 - 1)
              * ((x2 - x1) * (x2 - x1) + (y2 - y1) * (y2 - y1))⟩ := by
  unfold lineIntersection.along1 lineIntersection.along2
  unfold lineIntersection.divisor at hdiv ⊢
  unfold lineIntersection
  simp only [if_pos hne, if_neg hdiv]
  split_ifs <;> simp_all

/-- The three cases of `lineIntersection`. -/
theorem lineIntersection_cases (x1 y1 x2 y2 x3 y3 x4 y4 : F) :
    (x2 = x3 ∧ y2 = y3) ∨
    ((x2 ≠ x3 ∨ y2 ≠ y3) ∧ lineIntersection.divisor x1 y1 x2 y2 x3 y3 x4 y4 = 0) ∨
    ((x2 ≠ x3 ∨ y2 ≠ y3) ∧ lineIntersection.divisor x1 y1 x2 y2 x3 y3 x4 y4 ≠ 0) := by
  by_cases hx : x2 = x3
  · by_cases hy : y2 = y3
    · exact Or.inl ⟨hx, hy⟩
    · by_cases hd : lineIntersection.divisor x1 y1 x2 y2 x3 y3 x4 y4 = 0
      · exact Or.inr (Or.inl ⟨Or.inr hy, hd⟩)
      · exact Or.inr (Or.inr ⟨Or.inr hy, hd⟩)
  · by_cases hd : lineIntersection.divisor x1 y1 x2 y2 x3 y3 x4 y4 = 0
    · exact Or.inr (Or.inl ⟨Or.inl hx, hd⟩)
    · exact Or.inr (Or.inr ⟨Or.inl hx, hd⟩)

/-- C14: whenever `lineIntersection` returns `true`, the returned point lies
on both closed segments: it is `p1 + s (p2 - p1)` and `p3 + t (p4 - p3)` for
parameters `s` and `t` in `[0, 1]` (exact arithmetic, every input). -/
theorem C14_true_only_within_both_segments (x1 y1 x2 y2 x3 y3 x4 y4 : F)
    (h : (lineIntersection x1 y1 x2 y2 x3 y3 x4 y4).intersects = true) :
    ∃ s t : F, 0 ≤ s ∧ s ≤ 1 ∧ 0 ≤ t ∧ t ≤ 1
      ∧ (lineIntersection x1 y1 x2 y2 x3 y3 x4 y4).intersectionX = x1 + s * (x2 - x1)
      ∧ (lineIntersection x1 y1 x2 y2 x3 y3 x4 y4).intersectionY = y1 + s * (y2 - y1)
      ∧ (lineIntersection x1 y1 x2 y2 x3 y3 x4 y4).intersectionX = x3 + t * (x4 - x3)
      ∧ (lineIntersection x1 y1 x2 y2 x3 y3 x4 y4).intersectionY = y3 + t * (y4 - y3) := by
  rcases lineIntersection_cases x1 y1 x2 y2 x3 y3 x4 y4 with ⟨hx, hy⟩ | ⟨hne, hdiv⟩ | ⟨hne, hdiv⟩
  · subst hx hy
    rw [lineIntersection_shared]
    exact ⟨1, 0, zero_le_one, le_refl _, le_refl _, zero_le_one, by simp, by simp, by simp,
      by simp⟩
  · rw [lineIntersection_parallel x1 y1 x2 y2 x3 y3 x4 y4 hne hdiv] at h
    simp at h
  · rw [lineIntersection_crossing x1 y1 x2 y2 x3 y3 x4 y4 hne hdiv] at h ⊢
    simp only [decide_eq_true_eq] at h
    obtain ⟨⟨h1, h2⟩, h3, h4⟩ := h
    have hpos : 0 < lineIntersection.divisor x1 y1 x2 y2 x3 y3 x4 y4 :=
      lt_of_le_of_ne (le_trans h3 h4) (Ne.symm hdiv)
    refine ⟨_, lineIntersection.along2 x1 y1 x2 y2 x3 y3
      / lineIntersection.divisor x1 y1 x2 y2 x3 y3 x4 y4, h1, h2,
      div_nonneg h3 hpos.le, (div_le_one hpos).mpr h4, rfl, rfl, ?_, ?_⟩
    · simp only [lineIntersection.along1, lineIntersection.along2]
      unfold lineIntersection.divisor at hdiv ⊢
      field_simp
      ring
    · simp only [lineIntersection.along1, lineIntersection.along2]
      unfold lineIntersection.divisor at hdiv ⊢
      field_simp
      ring

/-- C14 at the segments `(9,0)-(9,10)` and `(10,1)-(0,1)`, whose determinant
is positive: `lineIntersection` returns `true` and the point `(9,1)`. -/
theorem C14_true_only_within_both_segments_witness :
    lineIntersection (9 : ℚ) 0 9 10 10 1 0 1 = ⟨true, 9, 1, 0⟩
    ∧ ∃ s t : ℚ, 0 ≤ s ∧ s ≤ 1 ∧ 0 ≤ t ∧ t ≤ 1
      ∧ (lineIntersection (9 : ℚ) 0 9 10 10 1 0 1).intersectionX = 9 + s * (9 - 9)
      ∧ (lineIntersection (9 : ℚ) 0 9 10 10 1 0 1).intersectionY = 0 + s * (10 - 0)
      ∧ (lineIntersection (9 : ℚ) 0 9 10 10 1 0 1).intersectionX = 10 + t * (0 - 10)
      ∧ (lineIntersection (9 : ℚ) 0 9 10 10 1 0 1).intersectionY = 1 + t * (1 - 1) :=
  ⟨by decide!, C14_true_only_within_both_segments 9 0 9 10 10 1 0 1 (by decide!)⟩

/-- C18: for every input with a non-zero determinant
`dx1 * dy2 - dx2 * dy1`, the point returned by `lineIntersection` lies on the
line through `(x1, y1)`, `(x2, y2)` and on the line through `(x3, y3)`,
`(x4, y4)`, and it is the only point that lies on both; this holds for the
shortcut that returns the shared end point `(x2, y2)` as well. -/
theorem C18_point_is_the_line_intersection (x1 y1 x2 y2 x3 y3 x4 y4 : F)
    (hdiv : lineIntersection.divisor x1 y1 x2 y2 x3 y3 x4 y4 ≠ 0) :
    ((lineIntersection x1 y1 x2 y2 x3 y3 x4 y4).intersectionX - x1) * (y2 - y1)
        - ((lineIntersection x1 y1 x2 y2 x3 y3 x4 y4).intersectionY - y1) * (x2 - x1) = 0
    ∧ ((lineIntersection x1 y1 x2 y2 x3 y3 x4 y4).intersectionX - x3) * (y4 - y3)
        - ((lineIntersection x1 y1 x2 y2 x3 y3 x4 y4).intersectionY - y3) * (x4 - x3) = 0
    ∧ ∀ px py : F,
        (px - x1) * (y2 - y1) - (py - y1) * (x2 - x1) = 0 →
        (px - x3) * (y4 - y3) - (py - y3) * (x4 - x3) = 0 →
        px = (lineIntersection x1 y1 x2 y2 x3 y3 x4 y4).intersectionX
          ∧ py = (lineIntersection x1 y1 x2 y2 x3 y3 x4 y4).intersectionY := by
  have huniq : ∀ jx jy : F,
      (jx - x1) * (y2 - y1) - (jy - y1) * (x2 - x1) = 0 →
      (jx - x3) * (y4 - y3) - (jy - y3) * (x4 - x3) = 0 →
      ∀ px py : F,
        (px - x1) * (y2 - y1) - (py - y1) * (x2 - x1) = 0 →
        (px - x3) * (y4 - y3) - (py - y3) * (x4 - x3) = 0 →
        px = jx ∧ py = jy := by
    intro jx jy hj1 hj2 px py hp1 hp2
    unfold lineIntersection.divisor at hdiv
    have hu : (px - jx) * ((x2 - x1) * (y4 - y3) - (x4 - x3) * (y2 - y1)) = 0 := by
      linear_combination (x2 - x1) * hp2 - (x4 - x3) * hp1 - (x2 - x1) * hj2
        + (x4 - x3) * hj1
    have hv : (py - jy) * ((x2 - x1) * (y4 - y3) - (x4 - x3) * (y2 - y1)) = 0 := by
      linear_combination (y2 - y1) * hp2 - (y4 - y3) * hp1 - (y2 - y1) * hj2
        + (y4 - y3) * hj1
    exact ⟨sub_eq_zero.mp ((mul_eq_zero.mp hu).resolve_right hdiv),
      sub_eq_zero.mp ((mul_eq_zero.mp hv).resolve_right hdiv)⟩
  have hon : ((lineIntersection x1 y1 x2 y2 x3 y3 x4 y4).intersectionX - x1) * (y2 - y1)
        - ((lineIntersection x1 y1 x2 y2 x3 y3 x4 y4).intersectionY - y1) * (x2 - x1) = 0
      ∧ ((lineIntersection x1 y1 x2 y2 x3 y3 x4 y4).intersectionX - x3) * (y4 - y3)
        - ((lineIntersection x1 y1 x2 y2 x3 y3 x4 y4).intersectionY - y3) * (x4 - x3) = 0 := by
    by_cases hne : x2 ≠ x3 ∨ y2 ≠ y3
    · rw [lineIntersection_crossing x1 y1 x2 y2 x3 y3 x4 y4 hne hdiv]
      simp only [lineIntersection.along1]
      unfold lineIntersection.divisor at hdiv ⊢
      constructor
      · ring
      · field_simp
        ring
    · have hx : x2 = x3 := by
        by_contra hx
        exact hne (Or.inl hx)
      have hy : y2 = y3 := by
        by_contra hy
        exact hne (Or.inr hy)
      subst hx hy
      rw [lineIntersection_shared]
      constructor
      · simp only
        ring
      · simp
  exact ⟨hon.1, hon.2, huniq _ _ hon.1 hon.2⟩

/-- C18 at the lines through `(0,0)`, `(2,0)` and through `(5,-1)`, `(5,3)`:
the returned point is `(5, 0)`, beyond the end of the first segment. -/
theorem C18_point_is_the_line_intersection_witness :
    lineIntersection (0 : ℚ) 0 2 0 5 (-1) 5 3 = ⟨false, 5, 0, 9⟩
    ∧ ((lineIntersection (0 : ℚ) 0 2 0 5 (-1) 5 3).intersectionX - 0) * (0 - 0)
        - ((lineIntersection (0 : ℚ) 0 2 0 5 (-1) 5 3).intersectionY - 0) * (2 - 0) = 0
    ∧ ((lineIntersection (0 : ℚ) 0 2 0 5 (-1) 5 3).intersectionX - 5) * (3 - (-1))
        - ((lineIntersection (0 : ℚ) 0 2 0 5 (-1) 5 3).intersectionY - (-1)) * (5 - 5) = 0 :=
  let h := C18_point_is_the_line_intersection (0 : ℚ) 0 2 0 5 (-1) 5 3
    (by norm_num [lineIntersection.divisor])
  ⟨by decide!, h.1, h.2.1⟩

/-- With a negative determinant and distinct points `(x2, y2)`, `(x3, y3)`,
`lineIntersection` returns `false` wherever the lines cross: the test
`along2 >= 0 && along2 <= divisor` cannot hold. -/
theorem lineIntersection_negative_determinant (x1 y1 x2 y2 x3 y3 x4 y4 : F)
    (hne : x2 ≠ x3 ∨ y2 ≠ y3)
    (hdiv : lineIntersection.divisor x1 y1 x2 y2 x3 y3 x4 y4 < 0) :
    (lineIntersection x1 y1 x2 y2 x3 y3 x4 y4).intersects = false := by
  rw [lineIntersection_crossing x1 y1 x2 y2 x3 y3 x4 y4 hne (ne_of_lt hdiv)]
  simp only [decide_eq_false_iff_not]
  rintro ⟨-, h3, h4⟩
  linarith

/-- When `lineIntersection` returns `true` its overshoot is 0. -/
theorem lineIntersection_true_overshoot (x1 y1 x2 y2 x3 y3 x4 y4 : F)
    (h : (lineIntersection x1 y1 x2 y2 x3 y3 x4 y4).intersects = true) :
    (lineIntersection x1 y1 x2 y2 x3 y3 x4 y4).distanceBeyondLine1EndSquared = 0 := by
  rcases lineIntersection_cases x1 y1 x2 y2 x3 y3 x4 y4 with ⟨hx, hy⟩ | ⟨hne, hdiv⟩ | ⟨hne, hdiv⟩
  · subst hx hy
    rw [lineIntersection_shared]
  · rw [lineIntersection_parallel x1 y1 x2 y2 x3 y3 x4 y4 hne hdiv]
  · rw [lineIntersection_crossing x1 y1 x2 y2 x3 y3 x4 y4 hne hdiv] at h ⊢
    simp only [decide_eq_true_eq] at h
    simp only [if_pos h]

/-- When `lineIntersection` returns `false` for a non-zero determinant, the
returned point is `p2 + t (p2 - p1)` with `t = along1 - 1`, and the overshoot
is `t^2 |p2 - p1|^2` with the sign of `t`. -/
theorem lineIntersection_false_overshoot (x1 y1 x2 y2 x3 y3 x4 y4 : F)
    (hdiv : lineIntersection.divisor x1 y1 x2 y2 x3 y3 x4 y4 ≠ 0)
    (h : (lineIntersection x1 y1 x2 y2 x3 y3 x4 y4).intersects = false) :
    ∃ t : F,
      (lineIntersection x1 y1 x2 y2 x3 y3 x4 y4).intersectionX = x2 + t * (x2 - x1)
      ∧ (lineIntersection x1 y1 x2 y2 x3 y3 x4 y4).intersectionY = y2 + t * (y2 - y1)
      ∧ |(lineIntersection x1 y1 x2 y2 x3 y3 x4 y4).distanceBeyondLine1EndSquared|
          = ((lineIntersection x1 y1 x2 y2 x3 y3 x4 y4).intersectionX - x2)
              * ((lineIntersection x1 y1 x2 y2 x3 y3 x4 y4).intersectionX - x2)
            + ((lineIntersection x1 y1 x2 y2 x3 y3 x4 y4).intersectionY - y2)
              * ((lineIntersection x1 y1 x2 y2 x3 y3 x4 y4).intersectionY - y2)
      ∧ (t < 0 → (lineIntersection x1 y1 x2 y2 x3 y3 x4 y4).distanceBeyondLine1EndSquared < 0)
      ∧ (0 < t → 0 < (lineIntersection x1 y1 x2 y2 x3 y3 x4 y4).distanceBeyondLine1EndSquared)
      ∧ (t = 0 → (lineIntersection x1 y1 x2 y2 x3 y3 x4 y4).distanceBeyondLine1EndSquared = 0)
      := by
  have hne : x2 ≠ x3 ∨ y2 ≠ y3 := by
    by_contra hc
    push_neg at hc
    obtain ⟨hx, hy⟩ := hc
    subst hx hy
    rw [lineIntersection_shared] at h
    simp at h
  have hd1 : 0 < (x2 - x1) * (x2 - x1) + (y2 - y1) * (y2 - y1) := by
    by_contra hc
    have h0 : (x2 - x1) * (x2 - x1) + (y2 - y1) * (y2 - y1) = 0 :=
      le_antisymm (not_lt.mp hc) (add_nonneg (mul_self_nonneg _) (mul_self_nonneg _))
    have hx : x2 - x1 = 0 := by
      have := mul_self_nonneg (y2 - y1)
      have := mul_self_nonneg (x2 - x1)
      exact mul_self_eq_zero.mp (by linarith)
    have hy : y2 - y1 = 0 := by
      have := mul_self_nonneg (y2 - y1)
      have := mul_self_nonneg (x2 - x1)
      exact mul_self_eq_zero.mp (by linarith)
    apply hdiv
    unfold lineIntersection.divisor
    rw [hx, hy]
    ring
  rw [lineIntersection_crossing x1 y1 x2 y2 x3 y3 x4 y4 hne hdiv] at h ⊢
  simp only [decide_eq_false_iff_not] at h
  simp only [if_neg h]
  set a := lineIntersection.along1 x1 y1 x2 y2 x3 y3 x4 y4 with ha
  have hsq : 0 ≤ (a - 1) * (a - 1) * ((x2 - x1) * (x2 - x1) + (y2 - y1) * (y2 - y1)) :=
    mul_nonneg (mul_self_nonneg _) hd1.le
  refine ⟨a - 1, by ring, by ring, ?_, ?_, ?_, ?_⟩
  · split_ifs
    · rw [abs_neg, abs_of_nonneg hsq]
      ring
    · rw [abs_of_nonneg hsq]
      ring
  · intro ht
    have hlt : a < 1 := by linarith
    rw [if_pos hlt]
    have : 0 < (a - 1) * (a - 1) := mul_pos_of_neg_of_neg ht ht
    have := mul_pos this hd1
    linarith
  · intro ht
    have hlt : ¬ a < 1 := by linarith
    rw [if_neg hlt]
    exact mul_pos (mul_pos ht ht) hd1
  · intro ht
    have hlt : ¬ a < 1 := by linarith
    rw [if_neg hlt, ht]
    ring

/-- C19, counterexample: the segments `(9,0)-(9,10)` and `(10,1)-(0,1)` have
the determinant 100 and cross at `(9,1)`; `lineIntersection` returns `true`
with the overshoot 0, although `(9,1)` lies before the end `(9,10)` of the
first segment, at the squared distance 81 from it. -/
theorem C19_counterexample :
    lineIntersection.divisor (9 : ℚ) 0 9 10 10 1 0 1 = 100
    ∧ lineIntersection (9 : ℚ) 0 9 10 10 1 0 1 = ⟨true, 9, 1, 0⟩
    ∧ |(lineIntersection (9 : ℚ) 0 9 10 10 1 0 1).distanceBeyondLine1EndSquared|
        ≠ ((lineIntersection (9 : ℚ) 0 9 10 10 1 0 1).intersectionX - 9)
            * ((lineIntersection (9 : ℚ) 0 9 10 10 1 0 1).intersectionX - 9)
          + ((lineIntersection (9 : ℚ) 0 9 10 10 1 0 1).intersectionY - 10)
            * ((lineIntersection (9 : ℚ) 0 9 10 10 1 0 1).intersectionY - 10)
    ∧ ¬ (lineIntersection (9 : ℚ) 0 9 10 10 1 0 1).distanceBeyondLine1EndSquared < 0 := by
  have h : lineIntersection (9 : ℚ) 0 9 10 10 1 0 1 = ⟨true, 9, 1, 0⟩ := by decide!
  refine ⟨by norm_num [lineIntersection.divisor], h, ?_, ?_⟩
  · rw [h]
    norm_num
  · rw [h]
    norm_num

/-- C19, as the code has it: for every input with a non-zero determinant,
when `lineIntersection` returns `false` the overshoot has an absolute value
equal to the squared distance between the returned point and `(x2, y2)`, is
negative when the point lies before `(x2, y2)` along the first segment and
positive when it lies beyond; when `lineIntersection` returns `true` the
overshoot is 0, wherever the point lies on the first segment. -/
theorem C19_overshoot_is_signed_squared_distance (x1 y1 x2 y2 x3 y3 x4 y4 : F)
    (hdiv : lineIntersection.divisor x1 y1 x2 y2 x3 y3 x4 y4 ≠ 0) :
    ((lineIntersection x1 y1 x2 y2 x3 y3 x4 y4).intersects = true →
      (lineIntersection x1 y1 x2 y2 x3 y3 x4 y4).distanceBeyondLine1EndSquared = 0)
    ∧ ((lineIntersection x1 y1 x2 y2 x3 y3 x4 y4).intersects = false →
      ∃ t : F,
        (lineIntersection x1 y1 x2 y2 x3 y3 x4 y4).intersectionX = x2 + t * (x2 - x1)
        ∧ (lineIntersection x1 y1 x2 y2 x3 y3 x4 y4).intersectionY = y2 + t * (y2 - y1)
        ∧ |(lineIntersection x1 y1 x2 y2 x3 y3 x4 y4).distanceBeyondLine1EndSquared|
            = ((lineIntersection x1 y1 x2 y2 x3 y3 x4 y4).intersectionX - x2)
                * ((lineIntersection x1 y1 x2 y2 x3 y3 x4 y4).intersectionX - x2)
              + ((lineIntersection x1 y1 x2 y2 x3 y3 x4 y4).intersectionY - y2)
                * ((lineIntersection x1 y1 x2 y2 x3 y3 x4 y4).intersectionY - y2)
        ∧ (t < 0 →
            (lineIntersection x1 y1 x2 y2 x3 y3 x4 y4).distanceBeyondLine1EndSquared < 0)
        ∧ (0 < t →
            0 < (lineIntersection x1 y1 x2 y2 x3 y3 x4 y4).distanceBeyondLine1EndSquared)) := by
  refine ⟨lineIntersection_true_overshoot x1 y1 x2 y2 x3 y3 x4 y4, fun h => ?_⟩
  obtain ⟨t, h1, h2, h3, h4, h5, -⟩ :=
    lineIntersection_false_overshoot x1 y1 x2 y2 x3 y3 x4 y4 hdiv h
  exact ⟨t, h1, h2, h3, h4, h5⟩

/-- C19 at the lines through `(0,0)`, `(2,0)` and through `(5,-1)`, `(5,3)`:
the point `(5,0)` lies beyond `(2,0)` and the overshoot is 9. -/
theorem C19_overshoot_is_signed_squared_distance_witness :
    lineIntersection (0 : ℚ) 0 2 0 5 (-1) 5 3 = ⟨false, 5, 0, 9⟩
    ∧ ∃ t : ℚ,
        (lineIntersection (0 : ℚ) 0 2 0 5 (-1) 5 3).intersectionX = 2 + t * (2 - 0)
        ∧ (lineIntersection (0 : ℚ) 0 2 0 5 (-1) 5 3).intersectionY = 0 + t * (0 - 0)
        ∧ |(lineIntersection (0 : ℚ) 0 2 0 5 (-1) 5 3).distanceBeyondLine1EndSquared|
            = ((lineIntersection (0 : ℚ) 0 2 0 5 (-1) 5 3).intersectionX - 2)
                * ((lineIntersection (0 : ℚ) 0 2 0 5 (-1) 5 3).intersectionX - 2)
              + ((lineIntersection (0 : ℚ) 0 2 0 5 (-1) 5 3).intersectionY - 0)
                * ((lineIntersection (0 : ℚ) 0 2 0 5 (-1) 5 3).intersectionY - 0)
        ∧ (t < 0 →
            (lineIntersection (0 : ℚ) 0 2 0 5 (-1) 5 3).distanceBeyondLine1EndSquared < 0)
        ∧ (0 < t →
            0 < (lineIntersection (0 : ℚ) 0 2 0 5 (-1) 5 3).distanceBeyondLine1EndSquared) :=
  ⟨by decide!,
    (C19_overshoot_is_signed_squared_distance (0 : ℚ) 0 2 0 5 (-1) 5 3
      (by norm_num [lineIntersection.divisor])).2 (by decide!)⟩

/-- The operations `addEdgeAndJoint` appends for the mitered style when both
edges have a non-zero length. -/
theorem addEdgeAndJoint_mitered [FloorRing F] (M : FloatMath F) (destPath : Path F)
    (mm width x1 y1 x2 y2 x3 y3 x4 y4 midX midY : F)
    (h1 : ¬ (x1 = x2 ∧ y1 = y2)) (h2 : ¬ (x3 = x4 ∧ y3 = y4)) :
    addEdgeAndJoint M destPath JointStyle.mitered mm width x1 y1 x2 y2 x3 y3 x4 y4 midX midY
      = destPath ++
          (if (lineIntersection x1 y1 x2 y2 x3 y3 x4 y4).intersects = true
              ∨ ((lineIntersection x1 y1 x2 y2 x3 y3 x4 y4).distanceBeyondLine1EndSquared < mm
                ∧ (lineIntersection x1 y1 x2 y2 x3 y3 x4 y4).distanceBeyondLine1EndSquared > 0)
            then
              [PathOp.lineTo (lineIntersection x1 y1 x2 y2 x3 y3 x4 y4).intersectionX
                (lineIntersection x1 y1 x2 y2 x3 y3 x4 y4).intersectionY]
            else [PathOp.lineTo x2 y2, PathOp.lineTo x3 y3]) := by
  unfold addEdgeAndJoint
  have hg : ¬ (JointStyle.mitered = JointStyle.beveled ∨ (x3 = x4 ∧ y3 = y4)
      ∨ (x1 = x2 ∧ y1 = y2)) := by
    rintro (h | h | h)
    · cases h
    · exact h2 h
    · exact h1 h
  simp only [if_neg hg, if_true, Path.lineTo]
  by_cases hi : (lineIntersection x1 y1 x2 y2 x3 y3 x4 y4).intersects = true
  · simp [hi]
  · by_cases hm : (lineIntersection x1 y1 x2 y2 x3 y3 x4 y4).distanceBeyondLine1EndSquared < mm
        ∧ (lineIntersection x1 y1 x2 y2 x3 y3 x4 y4).distanceBeyondLine1EndSquared > 0
    · simp [hi, hm]
    · simp only [hi, if_false, hm, false_or, Bool.false_eq_true]
      simp

/-- The operations `addEdgeAndJoint` appends for the mitered style when both
edges have a non-zero length and `lineIntersection` returns `false`. -/
theorem addEdgeAndJoint_mitered_false [FloorRing F] (M : FloatMath F) (destPath : Path F)
    (mm width x1 y1 x2 y2 x3 y3 x4 y4 midX midY : F)
    (h1 : ¬ (x1 = x2 ∧ y1 = y2)) (h2 : ¬ (x3 = x4 ∧ y3 = y4))
    (hf : (lineIntersection x1 y1 x2 y2 x3 y3 x4 y4).intersects = false) :
    addEdgeAndJoint M destPath JointStyle.mitered mm width x1 y1 x2 y2 x3 y3 x4 y4 midX midY
      = destPath ++
          (if 0 < (lineIntersection x1 y1 x2 y2 x3 y3 x4 y4).distanceBeyondLine1EndSquared
              ∧ (lineIntersection x1 y1 x2 y2 x3 y3 x4 y4).distanceBeyondLine1EndSquared < mm
            then
              [PathOp.lineTo (lineIntersection x1 y1 x2 y2 x3 y3 x4 y4).intersectionX
                (lineIntersection x1 y1 x2 y2 x3 y3 x4 y4).intersectionY]
            else [PathOp.lineTo x2 y2, PathOp.lineTo x3 y3]) := by
  rw [addEdgeAndJoint_mitered M destPath _ _ _ _ _ _ _ _ _ _ _ _ h1 h2]
  simp only [hf, Bool.false_eq_true, false_or, gt_iff_lt]
  congr 1
  by_cases hc : 0 < (lineIntersection x1 y1 x2 y2 x3 y3 x4 y4).distanceBeyondLine1EndSquared
      ∧ (lineIntersection x1 y1 x2 y2 x3 y3 x4 y4).distanceBeyondLine1EndSquared < mm
  · rw [if_pos hc, if_pos ⟨hc.2, hc.1⟩]
  · rw [if_neg hc, if_neg (fun h => hc ⟨h.2, h.1⟩)]

/-- C20: for the mitered style and two edges of non-zero length for which
`lineIntersection` reports no intersection within both segments,
`addEdgeAndJoint` appends exactly one `lineTo`, to the extrapolated
intersection point, when `0 < overshoot < maxMiterExtensionSquared`, and
otherwise exactly `lineTo (x2, y2)` followed by `lineTo (x3, y3)`. -/
theorem C20_mitered_join_without_crossing [FloorRing F] (M : FloatMath F) (destPath : Path F)
    (maxMiterExtensionSquared width x1 y1 x2 y2 x3 y3 x4 y4 midX midY : F)
    (h1 : ¬ (x1 = x2 ∧ y1 = y2)) (h2 : ¬ (x3 = x4 ∧ y3 = y4))
    (hf : (lineIntersection x1 y1 x2 y2 x3 y3 x4 y4).intersects = false) :
    addEdgeAndJoint M destPath JointStyle.mitered maxMiterExtensionSquared width
        x1 y1 x2 y2 x3 y3 x4 y4 midX midY
      = destPath ++
          (if 0 < (lineIntersection x1 y1 x2 y2 x3 y3 x4 y4).distanceBeyondLine1EndSquared
              ∧ (lineIntersection x1 y1 x2 y2 x3 y3 x4 y4).distanceBeyondLine1EndSquared
                < maxMiterExtensionSquared
            then
              [PathOp.lineTo (lineIntersection x1 y1 x2 y2 x3 y3 x4 y4).intersectionX
                (lineIntersection x1 y1 x2 y2 x3 y3 x4 y4).intersectionY]
            else [PathOp.lineTo x2 y2, PathOp.lineTo x3 y3]) := by
  exact addEdgeAndJoint_mitered_false M destPath maxMiterExtensionSquared width
    x1 y1 x2 y2 x3 y3 x4 y4 midX midY h1 h2 hf

/-- C20 at the left edges `(0,-1)-(10,-1)` and `(11,0)-(11,10)` of a right
angle stroked with thickness 2: the overshoot is 1, below the limit 36, and
the miter point `(11,-1)` is appended. -/
theorem C20_mitered_join_without_crossing_witness :
    lineIntersection (0 : ℚ) (-1) 10 (-1) 11 0 11 10 = ⟨false, 11, -1, 1⟩
    ∧ addEdgeAndJoint ratMath [PathOp.startNewSubPath 0 (-1)] JointStyle.mitered 36 1
        0 (-1) 10 (-1) 11 0 11 10 10 0
      = [PathOp.startNewSubPath 0 (-1), PathOp.lineTo 11 (-1)] := by
  have h := C20_mitered_join_without_crossing ratMath [PathOp.startNewSubPath 0 (-1)] 36 1
    0 (-1) 10 (-1) 11 0 11 10 10 0 (by norm_num) (by norm_num) (by decide!)
  have hr : lineIntersection (0 : ℚ) (-1) 10 (-1) 11 0 11 10 = ⟨false, 11, -1, 1⟩ := by
    decide!
  rw [hr] at h
  refine ⟨hr, ?_⟩
  rw [h]
  norm_num

/-- C13, the code at the failing input: the edges `(9,10)-(9,0)` and
`(10,1)-(0,1)` cross at `(9,1)`, a point of both segments, but their
determinant is -100 and `lineIntersection` returns `false` (with the point
`(9,1)` and the overshoot -1); for the mitered style `addEdgeAndJoint` then
appends the two bevel operations `lineTo (9,0)`, `lineTo (10,1)`. -/
theorem C13_crossing_missed_for_negative_determinant :
    lineIntersection.divisor (9 : ℚ) 10 9 0 10 1 0 1 = -100
    ∧ pointOnSegment ⟨9, 10, 9, 0, 0, false⟩ (9 : ℚ) 1 = true
    ∧ pointOnSegment ⟨10, 1, 0, 1, 0, false⟩ (9 : ℚ) 1 = true
    ∧ lineIntersection (9 : ℚ) 10 9 0 10 1 0 1 = ⟨false, 9, 1, -1⟩
    ∧ addEdgeAndJoint ratMath [] JointStyle.mitered 36 1 9 10 9 0 10 1 0 1 10 0
      = [PathOp.lineTo 9 0, PathOp.lineTo 10 1] := by
  refine ⟨by norm_num [lineIntersection.divisor], by decide!, by decide!, by decide!, ?_⟩
  decide!

/-- C11: for a mitered join with the limit `9 * T * T` that `createStrokedPath`
passes, `T > 0`: when the join appends the single vertex `(jx, jy)` and
`lineIntersection` did not report a crossing (the vertex is the extrapolated
intersection), the vertex lies beyond the end `(x2, y2)` of the first edge,
on its line, and its squared distance from `(x2, y2)` is above 0 and below
`9 * T * T`; and when the overshoot returned by `lineIntersection` is at least
`9 * T * T`, the join appends exactly `lineTo (x2, y2)`, `lineTo (x3, y3)`. -/
theorem C11_miter_limit [FloorRing F] (M : FloatMath F)
    (T width x1 y1 x2 y2 x3 y3 x4 y4 midX midY : F) (hT : 0 < T) :
    (∀ jx jy : F,
      addEdgeAndJoint M [] JointStyle.mitered (9 * T * T) width
          x1 y1 x2 y2 x3 y3 x4 y4 midX midY = [PathOp.lineTo jx jy] →
      (lineIntersection x1 y1 x2 y2 x3 y3 x4 y4).intersects = false →
      (∃ t : F, 0 < t ∧ jx = x2 + t * (x2 - x1) ∧ jy = y2 + t * (y2 - y1))
      ∧ 0 < (jx - x2) * (jx - x2) + (jy - y2) * (jy - y2)
      ∧ (jx - x2) * (jx - x2) + (jy - y2) * (jy - y2) < 9 * T * T)
    ∧ (9 * T * T ≤ (lineIntersection x1 y1 x2 y2 x3 y3 x4 y4).distanceBeyondLine1EndSquared →
        addEdgeAndJoint M [] JointStyle.mitered (9 * T * T) width
            x1 y1 x2 y2 x3 y3 x4 y4 midX midY
          = [PathOp.lineTo x2 y2, PathOp.lineTo x3 y3]) := by
  have hmm : 0 < 9 * T * T := by positivity
  constructor
  · intro jx jy hout hf
    by_cases hdeg : (x1 = x2 ∧ y1 = y2) ∨ (x3 = x4 ∧ y3 = y4)
    · exfalso
      unfold addEdgeAndJoint at hout
      have hg : JointStyle.mitered = JointStyle.beveled ∨ (x3 = x4 ∧ y3 = y4)
          ∨ (x1 = x2 ∧ y1 = y2) := by
        rcases hdeg with h | h
        · exact Or.inr (Or.inr h)
        · exact Or.inr (Or.inl h)
      rw [if_pos hg] at hout
      simp [Path.lineTo] at hout
    · push_neg at hdeg
      have h1 : ¬ (x1 = x2 ∧ y1 = y2) := fun h => hdeg.1 h.1 h.2
      have h2 : ¬ (x3 = x4 ∧ y3 = y4) := fun h => hdeg.2 h.1 h.2
      rw [addEdgeAndJoint_mitered_false M [] (9 * T * T) width x1 y1 x2 y2 x3 y3 x4 y4 midX midY h1 h2 hf] at hout
      by_cases hc : 0 < (lineIntersection x1 y1 x2 y2 x3 y3 x4 y4).distanceBeyondLine1EndSquared
          ∧ (lineIntersection x1 y1 x2 y2 x3 y3 x4 y4).distanceBeyondLine1EndSquared
            < 9 * T * T
      · rw [if_pos hc] at hout
        simp only [List.nil_append, List.cons.injEq, PathOp.lineTo.injEq, and_true] at hout
        obtain ⟨hjx, hjy⟩ := hout
        have hdiv : lineIntersection.divisor x1 y1 x2 y2 x3 y3 x4 y4 ≠ 0 := by
          intro hd
          rcases lineIntersection_cases x1 y1 x2 y2 x3 y3 x4 y4 with
            ⟨hx, hy⟩ | ⟨hne, -⟩ | ⟨-, hd2⟩
          · subst hx hy
            rw [lineIntersection_shared] at hf
            simp at hf
          · rw [lineIntersection_parallel x1 y1 x2 y2 x3 y3 x4 y4 hne hd] at hc
            simp at hc
          · exact hd2 hd
        obtain ⟨t, htx, hty, habs, hneg, hpos, hzero⟩ :=
          lineIntersection_false_overshoot x1 y1 x2 y2 x3 y3 x4 y4 hdiv hf
        have ht : 0 < t := by
          rcases lt_trichotomy t 0 with h | h | h
          · have := hneg h
            linarith [hc.1]
          · have := hzero h
            linarith [hc.1]
          · exact h
        rw [abs_of_pos hc.1] at habs
        rw [← hjx, ← hjy]
        refine ⟨⟨t, ht, htx, hty⟩, ?_, ?_⟩
        · rw [← habs]; exact hc.1
        · rw [← habs]; exact hc.2
      · rw [if_neg hc] at hout
        simp at hout
  · intro hbig
    have hf : (lineIntersection x1 y1 x2 y2 x3 y3 x4 y4).intersects = false := by
      by_contra hc
      have ht : (lineIntersection x1 y1 x2 y2 x3 y3 x4 y4).intersects = true := by
        simpa using hc
      have := lineIntersection_true_overshoot x1 y1 x2 y2 x3 y3 x4 y4 ht
      linarith
    by_cases hdeg : (x1 = x2 ∧ y1 = y2) ∨ (x3 = x4 ∧ y3 = y4)
    · unfold addEdgeAndJoint
      have hg : JointStyle.mitered = JointStyle.beveled ∨ (x3 = x4 ∧ y3 = y4)
          ∨ (x1 = x2 ∧ y1 = y2) := by
        rcases hdeg with h | h
        · exact Or.inr (Or.inr h)
        · exact Or.inr (Or.inl h)
      rw [if_pos hg]
      simp [Path.lineTo]
    · push_neg at hdeg
      have h1 : ¬ (x1 = x2 ∧ y1 = y2) := fun h => hdeg.1 h.1 h.2
      have h2 : ¬ (x3 = x4 ∧ y3 = y4) := fun h => hdeg.2 h.1 h.2
      rw [addEdgeAndJoint_mitered_false M [] (9 * T * T) width x1 y1 x2 y2 x3 y3 x4 y4 midX midY h1 h2 hf]
      rw [if_neg (fun h => absurd h.2 (not_lt.mpr hbig))]
      simp

/-- C11 at the left edges `(0,-1)-(10,-1)` and `(11,0)-(11,10)` of a right
angle stroked with thickness 2: the miter point `(11,-1)` is appended, at the
squared distance 1 from `(10,-1)`, below the limit 36. -/
theorem C11_miter_limit_witness :
    addEdgeAndJoint ratMath [] JointStyle.mitered (9 * 2 * 2) 1
        0 (-1) 10 (-1) 11 0 11 10 10 0 = [PathOp.lineTo 11 (-1)]
    ∧ (∃ t : ℚ, 0 < t ∧ 11 = 10 + t * (10 - 0) ∧ -1 = -1 + t * (-1 - -1))
    ∧ (0 : ℚ) < (11 - 10) * (11 - 10) + (-1 - -1) * (-1 - -1)
    ∧ ((11 : ℚ) - 10) * (11 - 10) + (-1 - -1) * (-1 - -1) < 9 * 2 * 2 :=
  ⟨by decide!,
    (C11_miter_limit ratMath 2 1 0 (-1) 10 (-1) 11 0 11 10 10 0 (by norm_num)).1
      11 (-1) (by decide!) (by decide!)⟩

/-- The vertices that the stepping loop of the curved joint appends: `n` of
them, at the angles `angle - k / 10` for `k < n`, all above `angle2`, where
the loop stops at the first angle that is not above `angle2`. -/
theorem arcSteps_eq_map [FloorRing F] (M : FloatMath F) (midX midY width : F) :
    ∀ angle angle2 : F, ∃ n : Nat,
      arcSteps M [] midX midY width angle angle2
        = (List.range n).map (fun k : Nat =>
            PathOp.lineTo (midX + width * M.sinf (angle - k * (1 / 10)))
              (midY + width * M.cosf (angle - k * (1 / 10))))
      ∧ (∀ k : Nat, k < n → angle2 < angle - k * (1 / 10))
      ∧ angle - n * (1 / 10) ≤ angle2 := by
  suffices h : ∀ (d : Path F) (mx my w a a2 : F), ∃ n : Nat,
      arcSteps M [] mx my w a a2
        = (List.range n).map (fun k : Nat =>
            PathOp.lineTo (mx + w * M.sinf (a - k * (1 / 10)))
              (my + w * M.cosf (a - k * (1 / 10))))
      ∧ (∀ k : Nat, k < n → a2 < a - k * (1 / 10))
      ∧ a - n * (1 / 10) ≤ a2 from fun angle angle2 => h [] midX midY width angle angle2
  intro d mx my w a a2
  induction d, mx, my, w, a, a2 using arcSteps.induct M with
  | case1 d mx my w a a2 hgt ih =>
    obtain ⟨n, hn, hk, hexit⟩ := ih
    refine ⟨n + 1, ?_, ?_, ?_⟩
    · rw [arcSteps, if_pos hgt, arcSteps_append, hn, List.range_succ_eq_map]
      simp only [Path.lineTo, List.nil_append, List.map_cons, List.map_map, List.singleton_append,
        Nat.cast_zero, zero_mul, sub_zero, List.cons.injEq, true_and]
      apply List.map_congr_left
      intro k _
      have key : a - 1 / 10 - (k : F) * (1 / 10) = a - ((k : F) + 1) * (1 / 10) := by ring
      simp only [Function.comp, Nat.cast_succ, key]
    · intro k hkn
      cases k with
      | zero => simpa using hgt
      | succ k =>
        have := hk k (by omega)
        push_cast
        linarith
    · push_cast
      linarith
  | case2 d mx my w a a2 hgt =>
    refine ⟨0, ?_, ?_, ?_⟩
    · rw [arcSteps, if_neg hgt]
      rfl
    · intro k hk
      omega
    · simpa using not_lt.mp hgt

/-- C12: for a joint that is neither beveled nor mitered, between edges of
non-zero length that `lineIntersection` does not report as crossing,
`addEdgeAndJoint` appends `lineTo (x2, y2)`, then `n` vertices
`(midX + width * sin a_k, midY + width * cos a_k)`, then `lineTo (x3, y3)`.
The angles are `a_k = a_0 - k / 10` with `a_0` the angle of `(x2, y2)` seen
from the pivot, each one above the unwrapped end angle, and the loop stops
at the first angle that is not above it.  With a sine and cosine that
satisfy `sin^2 + cos^2 = 1`, every such vertex is at the squared distance
`width^2` from the pivot. -/
theorem C12_curved_joint_vertices [FloorRing F] (M : FloatMath F) (style : JointStyle)
    (mm width x1 y1 x2 y2 x3 y3 x4 y4 midX midY : F)
    (hs1 : style ≠ JointStyle.beveled) (hs2 : style ≠ JointStyle.mitered)
    (h1 : ¬ (x1 = x2 ∧ y1 = y2)) (h2 : ¬ (x3 = x4 ∧ y3 = y4))
    (hf : (lineIntersection x1 y1 x2 y2 x3 y3 x4 y4).intersects = false)
    (hcirc : ∀ a : F, M.sinf a * M.sinf a + M.cosf a * M.cosf a = 1) :
    ∃ n : Nat,
      addEdgeAndJoint M [] style mm width x1 y1 x2 y2 x3 y3 x4 y4 midX midY
        = [PathOp.lineTo x2 y2]
          ++ (List.range n).map (fun k : Nat =>
              PathOp.lineTo
                (midX + width * M.sinf (M.atan2f (x2 - midX) (y2 - midY) - k * (1 / 10)))
                (midY + width * M.cosf (M.atan2f (x2 - midX) (y2 - midY) - k * (1 / 10))))
          ++ [PathOp.lineTo x3 y3]
      ∧ (∀ k : Nat, k < n →
          unwrapAngle M (M.atan2f (x2 - midX) (y2 - midY)) (M.atan2f (x3 - midX) (y3 - midY))
            < M.atan2f (x2 - midX) (y2 - midY) - k * (1 / 10))
      ∧ M.atan2f (x2 - midX) (y2 - midY) - n * (1 / 10)
          ≤ unwrapAngle M (M.atan2f (x2 - midX) (y2 - midY))
              (M.atan2f (x3 - midX) (y3 - midY))
      ∧ ∀ a : F,
          ((midX + width * M.sinf a) - midX) * ((midX + width * M.sinf a) - midX)
            + ((midY + width * M.cosf a) - midY) * ((midY + width * M.cosf a) - midY)
          = width * width := by
  obtain ⟨n, hn, hk, hexit⟩ := arcSteps_eq_map M midX midY width
    (M.atan2f (x2 - midX) (y2 - midY))
    (unwrapAngle M (M.atan2f (x2 - midX) (y2 - midY)) (M.atan2f (x3 - midX) (y3 - midY)))
  refine ⟨n, ?_, hk, hexit, ?_⟩
  · unfold addEdgeAndJoint
    have hg : ¬ (style = JointStyle.beveled ∨ (x3 = x4 ∧ y3 = y4) ∨ (x1 = x2 ∧ y1 = y2)) := by
      rintro (h | h | h)
      · exact hs1 h
      · exact h2 h
      · exact h1 h
    simp only [if_neg hg, hf, Bool.false_eq_true, if_false, if_neg hs2, Path.lineTo,
      List.nil_append]
    rw [arcSteps_append, hn]
  · intro a
    have := hcirc a
    linear_combination (width * width) * this

/-- C12 at the left edges `(0,-1)-(10,-1)` and `(11,0)-(11,10)` of a right
angle with the pivot `(10,0)` and the width 1, curved style. -/
theorem C12_curved_joint_vertices_witness :
    ∃ n : Nat,
      addEdgeAndJoint unitCircleMath [] JointStyle.curved 36 1 0 (-1) 10 (-1) 11 0 11 10 10 0
        = [PathOp.lineTo 10 (-1)]
          ++ (List.range n).map (fun k : Nat =>
              PathOp.lineTo
                (10 + 1 * unitCircleMath.sinf
                  (unitCircleMath.atan2f (10 - 10) (-1 - 0) - k * (1 / 10)))
                (0 + 1 * unitCircleMath.cosf
                  (unitCircleMath.atan2f (10 - 10) (-1 - 0) - k * (1 / 10))))
          ++ [PathOp.lineTo 11 0]
      ∧ (∀ k : Nat, k < n →
          unwrapAngle unitCircleMath (unitCircleMath.atan2f (10 - 10) (-1 - 0))
              (unitCircleMath.atan2f (11 - 10) (0 - 0))
            < unitCircleMath.atan2f (10 - 10) (-1 - 0) - k * (1 / 10))
      ∧ unitCircleMath.atan2f (10 - 10) (-1 - 0) - n * (1 / 10)
          ≤ unwrapAngle unitCircleMath (unitCircleMath.atan2f (10 - 10) (-1 - 0))
              (unitCircleMath.atan2f (11 - 10) (0 - 0))
      ∧ ∀ a : ℚ,
          ((10 + 1 * unitCircleMath.sinf a) - 10) * ((10 + 1 * unitCircleMath.sinf a) - 10)
            + ((0 + 1 * unitCircleMath.cosf a) - 0) * ((0 + 1 * unitCircleMath.cosf a) - 0)
          = 1 * 1 :=
  C12_curved_joint_vertices unitCircleMath JointStyle.curved 36 1 0 (-1) 10 (-1) 11 0 11 10 10 0
    (by decide) (by decide) (by norm_num) (by norm_num) (by decide!)
    (by
      intro a
      have h : (4 + a * a) ≠ 0 := by nlinarith [mul_self_nonneg a]
      show 4 * a / (4 + a * a) * (4 * a / (4 + a * a))
        + (4 - a * a) / (4 + a * a) * ((4 - a * a) / (4 + a * a)) = 1
      field_simp
      ring)

/-- The loop `dashLoop` makes the passes `dashStep`. -/
theorem dashLoop_succ (M : FloatMath F) (dashLengths : List F) (numDashLengths fuel : Nat)
    (st : DashState F) :
    dashLoop M dashLengths numDashLengths (fuel + 1) st
      = match dashStep M dashLengths numDashLengths st with
        | Sum.inl o => some o
        | Sum.inr st2 => dashLoop M dashLengths numDashLengths fuel st2 := by
  rw [dashLoop]
  unfold dashStep dashRead
  by_cases hn : numDashLengths = 0
  · simp [hn]
  · simp only [if_neg hn]
    cases hd : dashLengths[st.dashNum % numDashLengths]? with
    | none => rfl
    | some dashLen =>
      simp only
      by_cases hle : dashLen ≤ 0
      · simp only [if_pos hle]
      · simp only [if_neg hle]
        rcases hc : consumeSegments M (decide (st.dashNum % 2 = 0))
          { st with dashNum := st.dashNum + 1, pos := st.pos + dashLen } st.pending with
          ⟨flag, st2⟩
        cases flag <;> rfl

/-- C16: `operator==` holds exactly when thickness, joint style and end style
are all equal, that is when the two objects are the same value;
`operator!=` is its negation; and the object made by the copy constructor or
by an assignment compares equal to the original (exact arithmetic: every
thickness is equal to itself). -/
theorem C16_equality_is_structural (a b c : PathStrokeType F) :
    (a.operatorEq b = true
      ↔ a.thickness = b.thickness ∧ a.jointStyle = b.jointStyle ∧ a.endStyle = b.endStyle)
    ∧ (a.operatorEq b = true ↔ a = b)
    ∧ a.operatorNe b = ! a.operatorEq b
    ∧ (PathStrokeType.copy a).operatorEq a = true
    ∧ (c.assign a).operatorEq a = true := by
  refine ⟨?_, ?_, rfl, ?_, ?_⟩
  · simp [PathStrokeType.operatorEq, and_assoc]
  · cases a
    cases b
    simp [PathStrokeType.operatorEq, and_assoc]
  · simp [PathStrokeType.operatorEq, PathStrokeType.copy]
  · simp [PathStrokeType.operatorEq, PathStrokeType.assign]

theorem strokeSegments_eq_strokeEnd [FloorRing F] (M : FloatMath F) (style : PathStrokeType F)
    (segments : List (FlatSegment F)) (extraAccuracy : F) :
    strokeSegments M style segments extraAccuracy
      = strokeEnd M style.jointStyle style.endStyle ((1 / 2) * style.thickness)
          (9 * style.thickness * style.thickness)
          (segments.foldl
            (strokeStep M style.jointStyle style.endStyle ((1 / 2) * style.thickness)
              (9 * style.thickness * style.thickness) (2 / (extraAccuracy * extraAccuracy)))
            ⟨[], [], 0, 0⟩) := rfl

/-- The operations of `addSubPath` do not depend on what the destination
holds. -/
theorem addSubPath_append [FloorRing F] (M : FloatMath F) (pre d : Path F)
    (subPath : List (LineSection F)) (isClosed : Bool) (wd mm : F)
    (js : JointStyle) (es : EndCapStyle) :
    addSubPath M (pre ++ d) subPath isClosed wd mm js es
      = pre ++ addSubPath M d subPath isClosed wd mm js es := by
  cases subPath with
  | nil => simp [addSubPath]
  | cons firstLine rest =>
    cases isClosed with
    | true =>
      rw [addSubPath_closed_eq M (pre ++ d), addSubPath_closed_eq M d]
      simp only [List.append_assoc]
    | false =>
      rw [addSubPath_open_eq M (pre ++ d), addSubPath_open_eq M d]
      simp only [List.append_assoc]

theorem strokeBegin_prepend [FloorRing F] (M : FloatMath F) (js : JointStyle) (es : EndCapStyle)
    (wd mm : F) (pre : Path F) (st : StrokeState F) (s : FlatSegment F) :
    strokeBegin M js es wd mm (st.prepend pre) s
      = (strokeBegin M js es wd mm st s).prepend pre := by
  unfold strokeBegin StrokeState.prepend
  simp only
  split_ifs
  · simp only [addSubPath_append]
  · rfl
  · rfl

theorem strokeKeep_prepend [FloorRing F] (M : FloatMath F) (js : JointStyle) (es : EndCapStyle)
    (wd mm minLen : F) (pre : Path F) (st : StrokeState F) (s : FlatSegment F) :
    strokeKeep M js es wd mm minLen (st.prepend pre) s
      = (strokeKeep M js es wd mm minLen st s).prepend pre := by
  unfold strokeKeep StrokeState.prepend
  simp only
  split_ifs
  · simp only [addSubPath_append]
  · rfl
  · rfl

theorem strokeStep_prepend [FloorRing F] (M : FloatMath F) (js : JointStyle) (es : EndCapStyle)
    (wd mm minLen : F) (pre : Path F) (st : StrokeState F) (s : FlatSegment F) :
    strokeStep M js es wd mm minLen (st.prepend pre) s
      = (strokeStep M js es wd mm minLen st s).prepend pre := by
  unfold strokeStep
  rw [strokeBegin_prepend, strokeKeep_prepend]

theorem foldl_strokeStep_prepend [FloorRing F] (M : FloatMath F) (js : JointStyle)
    (es : EndCapStyle) (wd mm minLen : F) (pre : Path F) (segs : List (FlatSegment F)) :
    ∀ st : StrokeState F,
      segs.foldl (strokeStep M js es wd mm minLen) (st.prepend pre)
        = (segs.foldl (strokeStep M js es wd mm minLen) st).prepend pre := by
  induction segs with
  | nil => intro st; rfl
  | cons s segs ih =>
    intro st
    simp only [List.foldl_cons]
    rw [strokeStep_prepend, ih]

theorem strokeEnd_prepend [FloorRing F] (M : FloatMath F) (js : JointStyle) (es : EndCapStyle)
    (wd mm : F) (pre : Path F) (st : StrokeState F) :
    strokeEnd M js es wd mm (st.prepend pre) = pre ++ strokeEnd M js es wd mm st := by
  unfold strokeEnd StrokeState.prepend
  simp only
  split_ifs
  · rw [addSubPath_append]
  · rfl

/-- A segment that starts a sub-path turns the state of the loop into the
one reached from the initial state, with the output so far, flushed, in
front. -/
theorem strokeBegin_start [FloorRing F] (M : FloatMath F) (js : JointStyle) (es : EndCapStyle)
    (wd mm : F) (st : StrokeState F) (s : FlatSegment F) (h0 : s.subPathIndex = 0) :
    strokeBegin M js es wd mm st s
      = (strokeBegin M js es wd mm ⟨[], [], 0, 0⟩ s).prepend (strokeEnd M js es wd mm st) := by
  unfold strokeBegin strokeEnd StrokeState.prepend
  simp only [if_pos h0, List.length_nil, gt_iff_lt, lt_self_iff_false, if_false,
    List.append_nil]
  split_ifs with h
  · rfl
  · have hs : st.subPath = [] := by
      cases hsub : st.subPath with
      | nil => rfl
      | cons a l => rw [hsub] at h; simp at h
    rw [hs]

/-- The stroker is compositional over sub-paths. -/
theorem strokeSegments_append [FloorRing F] (M : FloatMath F) (style : PathStrokeType F)
    (S1 S2 : List (FlatSegment F)) (extraAccuracy : F)
    (h : ∀ s, S2.head? = some s → s.subPathIndex = 0) :
    strokeSegments M style (S1 ++ S2) extraAccuracy
      = strokeSegments M style S1 extraAccuracy ++ strokeSegments M style S2 extraAccuracy := by
  cases S2 with
  | nil =>
    rw [List.append_nil]
    have : strokeSegments M style [] extraAccuracy = [] := by
      simp [strokeSegments]
    rw [this, List.append_nil]
  | cons s S2 =>
    have h0 : s.subPathIndex = 0 := h s rfl
    simp only [strokeSegments_eq_strokeEnd, List.foldl_append, List.foldl_cons]
    rw [strokeStep, strokeBegin_start M _ _ _ _ _ s h0, strokeKeep_prepend,
      foldl_strokeStep_prepend, strokeEnd_prepend]
    rfl

/-- A sub-path none of whose segments is kept: every segment is open and ends
within the minimum squared length of the start of the sub-path.  The loop
leaves the initial state with the start point moved. -/
theorem foldl_strokeStep_all_skipped [FloorRing F] (M : FloatMath F) (js : JointStyle)
    (es : EndCapStyle) (wd mm minLen ax ay : F) (segs : List (FlatSegment F))
    (hidx : ∀ s ∈ segs, s.subPathIndex ≠ 0)
    (hopen : ∀ s ∈ segs, s.closesSubPath = false)
    (hshort : ∀ s ∈ segs, (s.x2 - ax) * (s.x2 - ax) + (s.y2 - ay) * (s.y2 - ay) ≤ minLen) :
    segs.foldl (strokeStep M js es wd mm minLen) ⟨[], [], ax, ay⟩ = ⟨[], [], ax, ay⟩ := by
  induction segs with
  | nil => rfl
  | cons s segs ih =>
    have hstep : strokeStep M js es wd mm minLen ⟨[], [], ax, ay⟩ s = ⟨[], [], ax, ay⟩ := by
      unfold strokeStep strokeBegin strokeKeep
      simp [hidx s (List.mem_cons_self _ _), hopen s (List.mem_cons_self _ _),
        not_lt.mpr (hshort s (List.mem_cons_self _ _))]
    simp only [List.foldl_cons, hstep]
    exact ih (fun x hx => hidx x (List.mem_cons_of_mem _ hx))
      (fun x hx => hopen x (List.mem_cons_of_mem _ hx))
      (fun x hx => hshort x (List.mem_cons_of_mem _ hx))

/-- C17: the stroker is compositional over sub-paths.  For a stream `S1`
followed by a stream `S2` whose first segment starts a sub-path
(`subPathIndex = 0`), the operations for `S1 ++ S2` are the operations for
`S1` followed by the operations for `S2`.  A pending open sub-path is
flushed, as an open one, by the first part of the loop body when a segment
starts a sub-path and at the end of the stream, and nowhere else; when
nothing is pending nothing is flushed.  A sub-path all of whose segments are
open and end within the minimum squared length of its start contributes no
operation. -/
theorem C17_stroke_is_compositional [FloorRing F] (M : FloatMath F) (style : PathStrokeType F)
    (S1 S2 : List (FlatSegment F)) (extraAccuracy : F)
    (h : ∀ s, S2.head? = some s → s.subPathIndex = 0) :
    strokeSegments M style (S1 ++ S2) extraAccuracy
      = strokeSegments M style S1 extraAccuracy ++ strokeSegments M style S2 extraAccuracy
    ∧ (∀ (wd mm : F) (st : StrokeState F) (s : FlatSegment F),
        s.subPathIndex = 0 → st.subPath ≠ [] →
        strokeBegin M style.jointStyle style.endStyle wd mm st s
          = ⟨addSubPath M st.destPath st.subPath false wd mm style.jointStyle style.endStyle,
              [], s.x1, s.y1⟩)
    ∧ (∀ (wd mm : F) (st : StrokeState F) (s : FlatSegment F),
        s.subPathIndex ≠ 0 ∨ st.subPath = [] →
        (strokeBegin M style.jointStyle style.endStyle wd mm st s).destPath = st.destPath
        ∧ (strokeBegin M style.jointStyle style.endStyle wd mm st s).subPath = st.subPath)
    ∧ (∀ (wd mm minLen : F) (st : StrokeState F) (s : FlatSegment F),
        s.closesSubPath = false →
        (strokeKeep M style.jointStyle style.endStyle wd mm minLen st s).destPath = st.destPath)
    ∧ (∀ (wd mm : F) (st : StrokeState F),
        strokeEnd M style.jointStyle style.endStyle wd mm st
          = if st.subPath = [] then st.destPath
            else addSubPath M st.destPath st.subPath false wd mm style.jointStyle
              style.endStyle)
    ∧ (∀ (first : FlatSegment F) (rest : List (FlatSegment F)),
        first.subPathIndex = 0 →
        (∀ s ∈ rest, s.subPathIndex ≠ 0) →
        (∀ s ∈ first :: rest, s.closesSubPath = false) →
        (∀ s ∈ first :: rest,
          (s.x2 - first.x1) * (s.x2 - first.x1) + (s.y2 - first.y1) * (s.y2 - first.y1)
            ≤ 2 / (extraAccuracy * extraAccuracy)) →
        strokeSegments M style (first :: rest) extraAccuracy = []) := by
  refine ⟨strokeSegments_append M style S1 S2 extraAccuracy h, ?_, ?_, ?_, ?_, ?_⟩
  · intro wd mm st s h0 hne
    unfold strokeBegin
    have hlen : st.subPath.length > 0 := List.length_pos.mpr hne
    rw [if_pos h0, if_pos hlen]
  · intro wd mm st s hor
    unfold strokeBegin
    rcases hor with hi | hs
    · rw [if_neg hi]
      exact ⟨rfl, rfl⟩
    · split_ifs with h0 hlen
      · rw [hs] at hlen
        simp at hlen
      · exact ⟨rfl, rfl⟩
      · exact ⟨rfl, rfl⟩
  · intro wd mm minLen st s hc
    unfold strokeKeep
    simp only [hc, Bool.false_eq_true, false_or, if_false]
    split_ifs <;> rfl
  · intro wd mm st
    unfold strokeEnd
    cases hsub : st.subPath with
    | nil => simp
    | cons a l => simp
  · intro first rest h0 hidx hopen hshort
    rw [strokeSegments_eq_strokeEnd]
    simp only [List.foldl_cons]
    have hfirst : strokeStep M style.jointStyle style.endStyle (1 / 2 * style.thickness)
        (9 * style.thickness * style.thickness) (2 / (extraAccuracy * extraAccuracy))
        ⟨[], [], 0, 0⟩ first = ⟨[], [], first.x1, first.y1⟩ := by
      unfold strokeStep strokeBegin strokeKeep
      simp [h0, hopen first (List.mem_cons_self _ _),
        not_lt.mpr (hshort first (List.mem_cons_self _ _))]
    rw [hfirst, foldl_strokeStep_all_skipped M _ _ _ _ _ _ _ rest hidx
      (fun x hx => hopen x (List.mem_cons_of_mem _ hx))
      (fun x hx => hshort x (List.mem_cons_of_mem _ hx))]
    simp [strokeEnd]

/-- C17 at the two open sub-paths `(0,0)-(10,0)` and `(0,5)-(10,5)` stroked
with thickness 2 and butt caps: the output is the rectangle of the first
followed by the rectangle of the second. -/
theorem C17_stroke_is_compositional_witness :
    strokeSegments ratMath ⟨2, JointStyle.mitered, EndCapStyle.butt⟩
        ([⟨0, 0, 10, 0, 0, false⟩] ++ [⟨0, 5, 10, 5, 0, false⟩]) 1
      = strokeSegments ratMath ⟨2, JointStyle.mitered, EndCapStyle.butt⟩
          [⟨0, 0, 10, 0, 0, false⟩] 1
        ++ strokeSegments ratMath ⟨2, JointStyle.mitered, EndCapStyle.butt⟩
          [⟨0, 5, 10, 5, 0, false⟩] 1
    ∧ strokeSegments ratMath ⟨2, JointStyle.mitered, EndCapStyle.butt⟩
        ([⟨0, 0, 10, 0, 0, false⟩] ++ [⟨0, 5, 10, 5, 0, false⟩]) 1
      = [PathOp.startNewSubPath 0 1, PathOp.lineTo 0 (-1), PathOp.lineTo 10 (-1),
         PathOp.lineTo 10 1, PathOp.lineTo 0 1, PathOp.closeSubPath,
         PathOp.startNewSubPath 0 6, PathOp.lineTo 0 4, PathOp.lineTo 10 4,
         PathOp.lineTo 10 6, PathOp.lineTo 0 6, PathOp.closeSubPath] :=
  ⟨(C17_stroke_is_compositional ratMath ⟨2, JointStyle.mitered, EndCapStyle.butt⟩
      [⟨0, 0, 10, 0, 0, false⟩] [⟨0, 5, 10, 5, 0, false⟩] 1
      (by intro s hs; simp at hs; rw [← hs])).1,
    by decide!⟩

/-- C21: when the joint style is beveled, or the first edge has zero length,
or the second edge has zero length, `addEdgeAndJoint` appends exactly the two
operations `lineTo (x2, y2)` and `lineTo (x3, y3)`, whatever the miter limit,
the width, the pivot and the library functions are. -/
theorem C21_bevel_or_degenerate_join [FloorRing F] (M : FloatMath F) (destPath : Path F)
    (style : JointStyle)
    (maxMiterExtensionSquared width x1 y1 x2 y2 x3 y3 x4 y4 midX midY : F)
    (h : style = JointStyle.beveled ∨ (x1 = x2 ∧ y1 = y2) ∨ (x3 = x4 ∧ y3 = y4)) :
    addEdgeAndJoint M destPath style maxMiterExtensionSquared width
        x1 y1 x2 y2 x3 y3 x4 y4 midX midY
      = destPath ++ [PathOp.lineTo x2 y2, PathOp.lineTo x3 y3] := by
  have hg : style = JointStyle.beveled ∨ (x3 = x4 ∧ y3 = y4) ∨ (x1 = x2 ∧ y1 = y2) := by
    rcases h with h | h | h
    · exact Or.inl h
    · exact Or.inr (Or.inr h)
    · exact Or.inr (Or.inl h)
  unfold addEdgeAndJoint
  rw [if_pos hg]
  simp [Path.lineTo]

/-- C21 at three joints onto the path `[startNewSubPath 0 0]`: a beveled joint
of two proper edges, a curved joint whose first edge is the point `(1,1)`, and
a mitered joint whose second edge is the point `(5,5)`. -/
theorem C21_bevel_or_degenerate_join_witness :
    addEdgeAndJoint ratMath [PathOp.startNewSubPath 0 0] JointStyle.beveled 36 1
        0 0 10 0 10 1 10 11 9 1
      = [PathOp.startNewSubPath 0 0, PathOp.lineTo 10 0, PathOp.lineTo 10 1]
    ∧ addEdgeAndJoint ratMath [PathOp.startNewSubPath 0 0] JointStyle.curved 36 1
        1 1 1 1 3 4 7 8 2 2
      = [PathOp.startNewSubPath 0 0, PathOp.lineTo 1 1, PathOp.lineTo 3 4]
    ∧ addEdgeAndJoint ratMath [PathOp.startNewSubPath 0 0] JointStyle.mitered 36 1
        0 0 10 0 5 5 5 5 9 1
      = [PathOp.startNewSubPath 0 0, PathOp.lineTo 10 0, PathOp.lineTo 5 5] :=
  ⟨C21_bevel_or_degenerate_join ratMath [PathOp.startNewSubPath 0 0] JointStyle.beveled 36 1
      0 0 10 0 10 1 10 11 9 1 (Or.inl rfl),
    C21_bevel_or_degenerate_join ratMath [PathOp.startNewSubPath 0 0] JointStyle.curved 36 1
      1 1 1 1 3 4 7 8 2 2 (Or.inr (Or.inl ⟨rfl, rfl⟩)),
    C21_bevel_or_degenerate_join ratMath [PathOp.startNewSubPath 0 0] JointStyle.mitered 36 1
      0 0 10 0 5 5 5 5 9 1 (Or.inr (Or.inr ⟨rfl, rfl⟩))⟩

/-- C22, counterexample: both direction vectors have zero length, all four
points being `(1,1)`, and `lineIntersection` returns `true`, not `false`; the
same happens at the points `(3,7)`. -/
theorem C22_counterexample :
    (lineIntersection (1 : ℚ) 1 1 1 1 1 1 1) = ⟨true, 1, 1, 0⟩
    ∧ (lineIntersection (3 : ℚ) 7 3 7 3 7 3 7).intersects = true := by
  constructor
  · decide!
  · decide!

/-- C22, amended: when both direction vectors have zero length,
`lineIntersection` returns the midpoint of `(x2, y2)` and `(x3, y3)`, the
overshoot 0 and `false` if these two points differ, and the point itself, the
overshoot 0 and `true` if they coincide. -/
theorem C22_both_edges_zero_length (x1 y1 x2 y2 x3 y3 x4 y4 : F)
    (h1 : x1 = x2 ∧ y1 = y2) (h2 : x3 = x4 ∧ y3 = y4) :
    ((x2 ≠ x3 ∨ y2 ≠ y3) →
      lineIntersection x1 y1 x2 y2 x3 y3 x4 y4
        = ⟨false, (1 / 2) * (x2 + x3), (1 / 2) * (y2 + y3), 0⟩)
    ∧ ((x2 = x3 ∧ y2 = y3) →
      lineIntersection x1 y1 x2 y2 x3 y3 x4 y4 = ⟨true, x2, y2, 0⟩
      ∧ x2 = (1 / 2) * (x2 + x3) ∧ y2 = (1 / 2) * (y2 + y3)) := by
  obtain ⟨hx1, hy1⟩ := h1
  obtain ⟨hx2, hy2⟩ := h2
  subst hx1 hy1 hx2 hy2
  constructor
  · intro hne
    exact lineIntersection_parallel _ _ _ _ _ _ _ _ hne
      (by unfold lineIntersection.divisor; ring)
  · rintro ⟨hx, hy⟩
    subst hx hy
    refine ⟨lineIntersection_shared _ _ _ _ _ _, ?_, ?_⟩ <;> ring

/-- C22, amended, at the points `(1,1)` and `(3,5)`: the midpoint `(2,3)` is
returned with `false`. -/
theorem C22_both_edges_zero_length_witness :
    lineIntersection (1 : ℚ) 1 1 1 3 5 3 5 = ⟨false, (1 / 2) * (1 + 3), (1 / 2) * (1 + 5), 0⟩ :=
  (C22_both_edges_zero_length (1 : ℚ) 1 1 1 3 5 3 5 ⟨rfl, rfl⟩ ⟨rfl, rfl⟩).1
    (Or.inl (by norm_num))

/-- C23: with distinct points `(x2, y2)`, `(x3, y3)` and a zero determinant,
`lineIntersection` returns the midpoint of the two points, the overshoot 0
and `false`.  None of the four axis-aligned branches (source lines 104-156)
is taken: together with the zero determinant, the guard of each of them makes
one of the two direction vectors zero, which the guard of source line 102
excludes. -/
theorem C23_zero_determinant_gives_midpoint (x1 y1 x2 y2 x3 y3 x4 y4 : F)
    (hne : x2 ≠ x3 ∨ y2 ≠ y3)
    (hdiv : (x2 - x1) * (y4 - y3) - (x4 - x3) * (y2 - y1) = 0) :
    lineIntersection x1 y1 x2 y2 x3 y3 x4 y4
        = ⟨false, (1 / 2) * (x2 + x3), (1 / 2) * (y2 + y3), 0⟩
    ∧ ((y2 - y1 = 0 ∧ y4 - y3 ≠ 0) → (x2 - x1 = 0 ∧ y2 - y1 = 0))
    ∧ ((y4 - y3 = 0 ∧ y2 - y1 ≠ 0) → (x4 - x3 = 0 ∧ y4 - y3 = 0))
    ∧ ((x2 - x1 = 0 ∧ x4 - x3 ≠ 0) → (x2 - x1 = 0 ∧ y2 - y1 = 0))
    ∧ ((x4 - x3 = 0 ∧ x2 - x1 ≠ 0) → (x4 - x3 = 0 ∧ y4 - y3 = 0)) := by
  refine ⟨lineIntersection_parallel _ _ _ _ _ _ _ _ hne hdiv, ?_, ?_, ?_, ?_⟩
  · rintro ⟨h, h2⟩
    refine ⟨?_, h⟩
    rw [h, mul_zero, sub_zero] at hdiv
    exact (mul_eq_zero.mp hdiv).resolve_right h2
  · rintro ⟨h, h2⟩
    refine ⟨?_, h⟩
    rw [h, mul_zero, zero_sub, neg_eq_zero] at hdiv
    exact (mul_eq_zero.mp hdiv).resolve_right h2
  · rintro ⟨h, h2⟩
    refine ⟨h, ?_⟩
    rw [h, zero_mul, zero_sub, neg_eq_zero] at hdiv
    exact (mul_eq_zero.mp hdiv).resolve_left h2
  · rintro ⟨h, h2⟩
    refine ⟨h, ?_⟩
    rw [h, zero_mul, sub_zero] at hdiv
    exact (mul_eq_zero.mp hdiv).resolve_left h2

/-- C23 at the parallel horizontal edges `(0,0)-(10,0)` and `(20,4)-(30,4)`:
the midpoint `(15,2)` of `(10,0)` and `(20,4)` is returned with `false`,
although the guard `dy1 == 0` of the first axis-aligned branch holds. -/
theorem C23_zero_determinant_gives_midpoint_witness :
    lineIntersection (0 : ℚ) 0 10 0 20 4 30 4
      = ⟨false, (1 / 2) * (10 + 20), (1 / 2) * (0 + 4), 0⟩ :=
  (C23_zero_determinant_gives_midpoint (0 : ℚ) 0 10 0 20 4 30 4
    (Or.inl (by norm_num)) (by norm_num)).1

/-- C25: the offset edges of a kept section, for a thickness `T > 0` and a
square root that is exact on the squared length (`L` is the length of the
segment).  For a section of non-zero length the left edge is the segment
moved by `o = (T/2) * (u_y, -u_x)`, `u = (p2 - p1) / L`, and the right edge is
the segment moved by `-o` and reversed; `o` is perpendicular to the segment
and has length `T/2`.  For a section of zero length the eight offset
coordinates are those of `(x1, y1)`. -/
theorem C25_offset_edges (M : FloatMath F) (T x1 y1 x2 y2 L : F) (hT : 0 < T)
    (hL : M.sqrtf ((x2 - x1) * (x2 - x1) + (y2 - y1) * (y2 - y1)) = L)
    (hLsq : L * L = (x2 - x1) * (x2 - x1) + (y2 - y1) * (y2 - y1)) :
    (L ≠ 0 →
      makeSection M ((1 / 2) * T) x1 y1 x2 y2
        = { x1 := x1, y1 := y1, x2 := x2, y2 := y2
            lx1 := x1 + T / 2 * ((y2 - y1) / L), ly1 := y1 + T / 2 * (-((x2 - x1) / L))
            lx2 := x2 + T / 2 * ((y2 - y1) / L), ly2 := y2 + T / 2 * (-((x2 - x1) / L))
            rx1 := x2 - T / 2 * ((y2 - y1) / L), ry1 := y2 - T / 2 * (-((x2 - x1) / L))
            rx2 := x1 - T / 2 * ((y2 - y1) / L), ry2 := y1 - T / 2 * (-((x2 - x1) / L)) }
      ∧ (T / 2 * ((y2 - y1) / L)) * (x2 - x1) + (T / 2 * (-((x2 - x1) / L))) * (y2 - y1) = 0
      ∧ (T / 2 * ((y2 - y1) / L)) * (T / 2 * ((y2 - y1) / L))
          + (T / 2 * (-((x2 - x1) / L))) * (T / 2 * (-((x2 - x1) / L))) = (T / 2) * (T / 2)
      ∧ 0 < T / 2)
    ∧ ((x1 = x2 ∧ y1 = y2) →
      makeSection M ((1 / 2) * T) x1 y1 x2 y2
        = { x1 := x1, y1 := y1, x2 := x2, y2 := y2
            lx1 := x1, ly1 := y1, lx2 := x1, ly2 := y1
            rx1 := x1, ry1 := y1, rx2 := x1, ry2 := y1 }) := by
  constructor
  · intro hL0
    refine ⟨?_, ?_, ?_, by positivity⟩
    · unfold makeSection
      simp only [hL, if_neg hL0, LineSection.mk.injEq, true_and]
      refine ⟨?_, ?_, ?_, ?_, ?_, ?_, ?_, ?_⟩ <;> field_simp <;> ring
    · field_simp
      ring
    · field_simp
      linear_combination (-4 * T * T) * hLsq
  · rintro ⟨hx, hy⟩
    subst hx hy
    have hL0 : L = 0 := by
      have : L * L = 0 := by rw [hLsq]; ring
      exact mul_self_eq_zero.mp this
    unfold makeSection
    simp only [hL, hL0, if_true]

/-- C25 at the segment `(0,0)-(3,4)` of length 5 with thickness 10: the
offset is `o = (4,-3)`. -/
theorem C25_offset_edges_witness :
    makeSection ratMath ((1 / 2) * 10) 0 0 3 4
      = { x1 := 0, y1 := 0, x2 := 3, y2 := 4
          lx1 := 0 + 10 / 2 * ((4 - 0) / 5), ly1 := 0 + 10 / 2 * (-((3 - 0) / 5))
          lx2 := 3 + 10 / 2 * ((4 - 0) / 5), ly2 := 4 + 10 / 2 * (-((3 - 0) / 5))
          rx1 := 3 - 10 / 2 * ((4 - 0) / 5), ry1 := 4 - 10 / 2 * (-((3 - 0) / 5))
          rx2 := 0 - 10 / 2 * ((4 - 0) / 5), ry2 := 0 - 10 / 2 * (-((3 - 0) / 5)) } :=
  ((C25_offset_edges ratMath 10 0 0 3 4 5 (by norm_num) (by decide!) (by norm_num)).1
    (by norm_num)).1

/-- C28: the square cap from `p1 = (x1, y1)` to `p2 = (x2, y2)`, `p1 ≠ p2`,
for a `juce_hypotf` that is exact on `p2 - p1` (`L` is its value).
`addLineEnd` appends exactly `lineTo (p1 + v)`, `lineTo (p2 + v)`,
`lineTo p2` with `v = width * (d_y, -d_x) / L`, `d = p2 - p1`; `v` is
perpendicular to `d` and its length is `|width|`, and the side from `p1 + v`
to `p2 + v` is `d`, so that `p1`, `p1 + v`, `p2 + v`, `p2` are the corners of
a rectangle. -/
theorem C28_square_cap (M : FloatMath F) (destPath : Path F) (x1 y1 x2 y2 width L : F)
    (hne : x1 ≠ x2 ∨ y1 ≠ y2)
    (hL : M.hypotf (x2 - x1) (y2 - y1) = L)
    (hLsq : L * L = (x2 - x1) * (x2 - x1) + (y2 - y1) * (y2 - y1)) :
    addLineEnd M destPath EndCapStyle.square x1 y1 x2 y2 width
      = destPath ++
        [PathOp.lineTo (x1 + width * (y2 - y1) / L) (y1 + width * (-(x2 - x1)) / L),
         PathOp.lineTo (x2 + width * (y2 - y1) / L) (y2 + width * (-(x2 - x1)) / L),
         PathOp.lineTo x2 y2]
    ∧ (width * (y2 - y1) / L) * (x2 - x1) + (width * (-(x2 - x1)) / L) * (y2 - y1) = 0
    ∧ (width * (y2 - y1) / L) * (width * (y2 - y1) / L)
        + (width * (-(x2 - x1)) / L) * (width * (-(x2 - x1)) / L) = |width| * |width|
    ∧ (x2 + width * (y2 - y1) / L) - (x1 + width * (y2 - y1) / L) = x2 - x1
    ∧ (y2 + width * (-(x2 - x1)) / L) - (y1 + width * (-(x2 - x1)) / L) = y2 - y1 := by
  have hpos : 0 < (x2 - x1) * (x2 - x1) + (y2 - y1) * (y2 - y1) := by
    rcases hne with h | h
    · have : x2 - x1 ≠ 0 := sub_ne_zero.mpr (Ne.symm h)
      nlinarith [mul_self_pos.mpr this, mul_self_nonneg (y2 - y1)]
    · have : y2 - y1 ≠ 0 := sub_ne_zero.mpr (Ne.symm h)
      nlinarith [mul_self_pos.mpr this, mul_self_nonneg (x2 - x1)]
  have hL0 : L ≠ 0 := by
    intro h
    rw [h, mul_zero] at hLsq
    rw [← hLsq] at hpos
    exact lt_irrefl _ hpos
  refine ⟨?_, ?_, ?_, by ring, by ring⟩
  · unfold addLineEnd
    simp only [if_neg (show ¬ EndCapStyle.square = EndCapStyle.butt by decide), hL, if_neg hL0,
      if_true, Path.lineTo, List.append_assoc, List.singleton_append, List.cons_append,
      List.nil_append, List.cons.injEq, List.append_cancel_left_eq, PathOp.lineTo.injEq, and_true]
    refine ⟨⟨?_, ?_⟩, ⟨?_, ?_⟩⟩ <;> field_simp <;> ring
  · field_simp
    ring
  · rw [abs_mul_abs_self]
    field_simp
    linear_combination (-(width * width)) * hLsq

/-- C28 at the cap from `(0,0)` to `(3,4)` with width 5: `v = (4,-3)`. -/
theorem C28_square_cap_witness :
    addLineEnd ratMath [PathOp.startNewSubPath 0 0] EndCapStyle.square 0 0 3 4 5
      = [PathOp.startNewSubPath 0 0] ++
        [PathOp.lineTo (0 + 5 * (4 - 0) / 5) (0 + 5 * (-(3 - 0)) / 5),
         PathOp.lineTo (3 + 5 * (4 - 0) / 5) (4 + 5 * (-(3 - 0)) / 5),
         PathOp.lineTo 3 4] :=
  (C28_square_cap ratMath [PathOp.startNewSubPath 0 0] 0 0 3 4 5 5
    (Or.inl (by norm_num)) (by decide!) (by norm_num)).1

/-- The forward walk of `addSubPath` over `b :: rest` is the join from the
first section to `b` followed by the walk over `rest` started on `b`. -/
theorem leftWalk_cons [FloorRing F] (M : FloatMath F) (js : JointStyle) (mm wd : F)
    (a b : LineSection F) (rest : List (LineSection F)) :
    leftWalk M js mm wd a (b :: rest)
      = (leftWalk M js mm wd b rest).prepend (leftJoin M js mm wd a b) := by
  rw [← leftWalk_eq]
  rfl

theorem rightWalk_cons [FloorRing F] (M : FloatMath F) (js : JointStyle) (mm wd : F)
    (a b : LineSection F) (ls : List (LineSection F)) :
    rightWalk M js mm wd a (b :: ls)
      = (rightWalk M js mm wd b ls).prepend (rightJoin M js mm wd a b) := by
  rw [← rightWalk_eq]
  rfl

/-- The forward walk of `addSubPath`, join by join: the joins run from the
section of index `k` to the section of index `k + 1`, and the walk ends on
the left edge of the last section. -/
theorem leftWalk_range [FloorRing F] (M : FloatMath F) (js : JointStyle) (mm wd : F)
    (d : LineSection F) :
    ∀ (a : LineSection F) (rest : List (LineSection F)),
      (leftWalk M js mm wd a rest).destPath
          = ((List.range rest.length).map (fun k =>
              leftJoin M js mm wd ((a :: rest).getD k d) ((a :: rest).getD (k + 1) d))).flatten
        ∧ (leftWalk M js mm wd a rest).lastX1 = ((a :: rest).getD rest.length d).lx1
        ∧ (leftWalk M js mm wd a rest).lastY1 = ((a :: rest).getD rest.length d).ly1
        ∧ (leftWalk M js mm wd a rest).lastX2 = ((a :: rest).getD rest.length d).lx2
        ∧ (leftWalk M js mm wd a rest).lastY2 = ((a :: rest).getD rest.length d).ly2 := by
  intro a rest
  induction rest generalizing a with
  | nil => exact ⟨rfl, rfl, rfl, rfl, rfl⟩
  | cons b rest ih =>
    obtain ⟨h1, h2, h3, h4, h5⟩ := ih b
    rw [leftWalk_cons]
    refine ⟨?_, ?_, ?_, ?_, ?_⟩
    · simp only [EdgeWalk.prepend, h1, List.length_cons, List.range_succ_eq_map, List.map_cons,
        List.map_map, List.flatten_cons]
      rfl
    · simpa [EdgeWalk.prepend] using h2
    · simpa [EdgeWalk.prepend] using h3
    · simpa [EdgeWalk.prepend] using h4
    · simpa [EdgeWalk.prepend] using h5

/-- The backward walk of `addSubPath`, join by join, over the list `c :: ls`
of the sections in the order in which they are visited. -/
theorem rightWalk_range [FloorRing F] (M : FloatMath F) (js : JointStyle) (mm wd : F)
    (d : LineSection F) :
    ∀ (c : LineSection F) (ls : List (LineSection F)),
      (rightWalk M js mm wd c ls).destPath
          = ((List.range ls.length).map (fun k =>
              rightJoin M js mm wd ((c :: ls).getD k d) ((c :: ls).getD (k + 1) d))).flatten
        ∧ (rightWalk M js mm wd c ls).lastX1 = ((c :: ls).getD ls.length d).rx1
        ∧ (rightWalk M js mm wd c ls).lastY1 = ((c :: ls).getD ls.length d).ry1
        ∧ (rightWalk M js mm wd c ls).lastX2 = ((c :: ls).getD ls.length d).rx2
        ∧ (rightWalk M js mm wd c ls).lastY2 = ((c :: ls).getD ls.length d).ry2 := by
  intro c ls
  induction ls generalizing c with
  | nil => exact ⟨rfl, rfl, rfl, rfl, rfl⟩
  | cons b ls ih =>
    obtain ⟨h1, h2, h3, h4, h5⟩ := ih b
    rw [rightWalk_cons]
    refine ⟨?_, ?_, ?_, ?_, ?_⟩
    · simp only [EdgeWalk.prepend, h1, List.length_cons, List.range_succ_eq_map, List.map_cons,
        List.map_map, List.flatten_cons]
      rfl
    · simpa [EdgeWalk.prepend] using h2
    · simpa [EdgeWalk.prepend] using h3
    · simpa [EdgeWalk.prepend] using h4
    · simpa [EdgeWalk.prepend] using h5

theorem getD_reverse_of_lt {α : Type} (l : List α) (d : α) (k : Nat) (h : k < l.length) :
    l.reverse.getD k d = l.getD (l.length - 1 - k) d := by
  rw [List.getD_eq_getElem _ _ (by simpa using h), List.getD_eq_getElem _ _ (by omega),
    List.getElem_reverse]

theorem getLast_eq_getD {α : Type} (a : α) (l : List α) (d : α) :
    (a :: l).getLast (List.cons_ne_nil a l) = (a :: l).getD l.length d := by
  rw [List.getLast_eq_getElem, List.getD_eq_getElem _ _ (by simp)]
  simp

theorem reverse_eq_getLast_cons {α : Type} (a : α) (l : List α) :
    (a :: l).reverse = (a :: l).getLast (List.cons_ne_nil a l) :: (a :: l).dropLast.reverse := by
  conv_lhs => rw [← List.dropLast_append_getLast (List.cons_ne_nil a l)]
  simp

theorem map_reverse_range {α : Type} (m : Nat) (g : Nat → α) :
    (List.range m).reverse.map g = (List.range m).map (fun k => g (m - 1 - k)) := by
  have h : (List.range m).reverse = (List.range m).map (fun k => m - 1 - k) := by
    conv_lhs => rw [List.range_eq_range', List.reverse_range']
    simp
  rw [h, List.map_map]
  rfl

/-- The backward walk of `addSubPath` over a sub-path with the sections
`firstLine :: rest`: its joins are those of `openRightJoinsSpec`, and it ends
on the right edge of the first section. -/
theorem rightWalk_sections [FloorRing F] (M : FloatMath F) (js : JointStyle) (mm wd : F)
    (firstLine : LineSection F) (rest : List (LineSection F)) :
    (rightWalk M js mm wd ((firstLine :: rest).getLast (List.cons_ne_nil _ _))
        (firstLine :: rest).dropLast.reverse).destPath
      = (openRightJoinsSpec M js mm wd firstLine rest).flatten
    ∧ (rightWalk M js mm wd ((firstLine :: rest).getLast (List.cons_ne_nil _ _))
        (firstLine :: rest).dropLast.reverse).lastX1 = firstLine.rx1
    ∧ (rightWalk M js mm wd ((firstLine :: rest).getLast (List.cons_ne_nil _ _))
        (firstLine :: rest).dropLast.reverse).lastY1 = firstLine.ry1
    ∧ (rightWalk M js mm wd ((firstLine :: rest).getLast (List.cons_ne_nil _ _))
        (firstLine :: rest).dropLast.reverse).lastX2 = firstLine.rx2
    ∧ (rightWalk M js mm wd ((firstLine :: rest).getLast (List.cons_ne_nil _ _))
        (firstLine :: rest).dropLast.reverse).lastY2 = firstLine.ry2 := by
  have hlen : (firstLine :: rest).dropLast.reverse.length = rest.length := by simp
  have h := rightWalk_range M js mm wd firstLine
    ((firstLine :: rest).getLast (List.cons_ne_nil _ _)) (firstLine :: rest).dropLast.reverse
  rw [← reverse_eq_getLast_cons, hlen] at h
  obtain ⟨h1, h2, h3, h4, h5⟩ := h
  have hlast : (firstLine :: rest).reverse.getD rest.length firstLine = firstLine := by
    rw [getD_reverse_of_lt _ _ _ (by simp)]
    simp
  rw [hlast] at h2 h3 h4 h5
  refine ⟨?_, h2, h3, h4, h5⟩
  rw [h1, openRightJoinsSpec, map_reverse_range]
  congr 1
  apply List.map_congr_left
  intro k hk
  have hk2 : k < rest.length := List.mem_range.mp hk
  rw [getD_reverse_of_lt _ _ _ (by simp; omega), getD_reverse_of_lt _ _ _ (by simp; omega)]
  simp only [List.length_cons]
  rw [show rest.length + 1 - 1 - k = rest.length - 1 - k + 1 by omega,
    show rest.length + 1 - 1 - (k + 1) = rest.length - 1 - k by omega]

/-- C26: the operations `addSubPath` appends for an open sub-path with the
`n >= 1` sections `firstLine :: rest`, for every joint style and cap style:
`startNewSubPath` at the `(rx2, ry2)` of the first section, the start cap
from there to its `(lx1, ly1)`, the `n - 1` joins along the left edges from
section `k` to section `k + 1` with the pivot `(x1, y1)` of section `k + 1`,
a `lineTo` the `(lx2, ly2)` of the last section, the end cap from there to its
`(rx1, ry1)`, the `n - 1` joins along the right edges from section `i + 1` to
section `i` for `i = n-2 .. 0` with the pivot `(x2, y2)` of section `i`, a
`lineTo` the point where the sub-path was started, and `closeSubPath`.  There
are two caps and `2 (n - 1)` joins. -/
theorem C26_open_subpath_outline [FloorRing F] (M : FloatMath F) (destPath : Path F)
    (firstLine : LineSection F) (rest : List (LineSection F)) (width maxMiterExtensionSquared : F)
    (jointStyle : JointStyle) (endStyle : EndCapStyle) :
    addSubPath M destPath (firstLine :: rest) false width maxMiterExtensionSquared
        jointStyle endStyle
      = destPath
        ++ openOutlineSpec M jointStyle endStyle maxMiterExtensionSquared width firstLine rest
    ∧ (openLeftJoinsSpec M jointStyle maxMiterExtensionSquared width firstLine rest).length
        = (firstLine :: rest).length - 1
    ∧ (openRightJoinsSpec M jointStyle maxMiterExtensionSquared width firstLine rest).length
        = (firstLine :: rest).length - 1 := by
  refine ⟨?_, by simp [openLeftJoinsSpec], by simp [openRightJoinsSpec]⟩
  obtain ⟨l1, -, -, l4, l5⟩ :=
    leftWalk_range M jointStyle maxMiterExtensionSquared width firstLine firstLine rest
  obtain ⟨r1, -, -, r4, r5⟩ :=
    rightWalk_sections M jointStyle maxMiterExtensionSquared width firstLine rest
  rw [addSubPath_open_eq, r1, r4, r5, l1, l4, l5, getLast_eq_getD firstLine rest firstLine]
  simp [openOutlineSpec, openLeftJoinsSpec, List.append_assoc]

/-- C26 at the two sections of the polyline `(0,0)-(10,0)-(10,10)` with
width 1, beveled joints and butt caps: the outline runs through `(0,1)`,
`(0,-1)`, `(10,-1)`, `(11,0)`, `(11,10)`, `(9,10)`, `(9,0)`, `(10,1)` and
back to `(0,1)`. -/
theorem C26_open_subpath_outline_witness :
    addSubPath ratMath [] [makeSection ratMath 1 0 0 10 0, makeSection ratMath 1 10 0 10 10]
        false 1 36 JointStyle.beveled EndCapStyle.butt
      = [PathOp.startNewSubPath 0 1, PathOp.lineTo 0 (-1), PathOp.lineTo 10 (-1),
         PathOp.lineTo 11 0, PathOp.lineTo 11 10, PathOp.lineTo 9 10, PathOp.lineTo 9 0,
         PathOp.lineTo 10 1, PathOp.lineTo 0 1, PathOp.closeSubPath] := by
  rw [(C26_open_subpath_outline ratMath [] (makeSection ratMath 1 0 0 10 0)
    [makeSection ratMath 1 10 0 10 10] 1 36 JointStyle.beveled EndCapStyle.butt).1]
  decide!

theorem length_flatten_pairs {α β : Type} (l : List α) (f : α → List β)
    (h : ∀ a, (f a).length = 2) : ((l.map f).flatten).length = 2 * l.length := by
  induction l with
  | nil => rfl
  | cons a l ih =>
    simp only [List.map_cons, List.flatten_cons, List.length_append, List.length_cons, h, ih]
    omega

/-- A beveled joint is the two lines to the end of the first edge and to the
start of the second edge. -/
theorem addEdgeAndJoint_beveled [FloorRing F] (M : FloatMath F) (d : Path F)
    (mm wd x1 y1 x2 y2 x3 y3 x4 y4 midX midY : F) :
    addEdgeAndJoint M d JointStyle.beveled mm wd x1 y1 x2 y2 x3 y3 x4 y4 midX midY
      = d ++ [PathOp.lineTo x2 y2, PathOp.lineTo x3 y3] := by
  unfold addEdgeAndJoint
  simp [Path.lineTo]

/-- The left ring of the specification, the wraparound join taken apart. -/
theorem bevel_left_ring (firstLine : LineSection F) (rest : List (LineSection F)) :
    (List.range (rest.length + 1)).flatMap (fun i =>
        [PathOp.lineTo ((firstLine :: rest).getD i firstLine).lx2
            ((firstLine :: rest).getD i firstLine).ly2,
         PathOp.lineTo ((firstLine :: rest).getD ((i + 1) % (rest.length + 1)) firstLine).lx1
            ((firstLine :: rest).getD ((i + 1) % (rest.length + 1)) firstLine).ly1])
      = ((List.range rest.length).map (fun k =>
          [PathOp.lineTo ((firstLine :: rest).getD k firstLine).lx2
              ((firstLine :: rest).getD k firstLine).ly2,
           PathOp.lineTo ((firstLine :: rest).getD (k + 1) firstLine).lx1
              ((firstLine :: rest).getD (k + 1) firstLine).ly1])).flatten
        ++ [PathOp.lineTo ((firstLine :: rest).getD rest.length firstLine).lx2
              ((firstLine :: rest).getD rest.length firstLine).ly2,
            PathOp.lineTo firstLine.lx1 firstLine.ly1] := by
  rw [List.range_succ, List.flatMap_append, List.flatMap_singleton, Nat.mod_self]
  congr 1
  rw [List.flatMap_def]
  congr 1
  apply List.map_congr_left
  intro k hk
  have hk2 : k < rest.length := List.mem_range.mp hk
  rw [Nat.mod_eq_of_lt (by omega)]

/-- The right ring of the specification, the wraparound join taken apart. -/
theorem bevel_right_ring (firstLine : LineSection F) (rest : List (LineSection F)) :
    (List.range (rest.length + 1)).reverse.flatMap (fun i =>
        [PathOp.lineTo ((firstLine :: rest).getD i firstLine).rx2
            ((firstLine :: rest).getD i firstLine).ry2,
         PathOp.lineTo
            ((firstLine :: rest).getD ((i + (rest.length + 1) - 1) % (rest.length + 1))
              firstLine).rx1
            ((firstLine :: rest).getD ((i + (rest.length + 1) - 1) % (rest.length + 1))
              firstLine).ry1])
      = ((List.range rest.length).reverse.map (fun i =>
          [PathOp.lineTo ((firstLine :: rest).getD (i + 1) firstLine).rx2
              ((firstLine :: rest).getD (i + 1) firstLine).ry2,
           PathOp.lineTo ((firstLine :: rest).getD i firstLine).rx1
              ((firstLine :: rest).getD i firstLine).ry1])).flatten
        ++ [PathOp.lineTo firstLine.rx2 firstLine.ry2,
            PathOp.lineTo ((firstLine :: rest).getD rest.length firstLine).rx1
              ((firstLine :: rest).getD rest.length firstLine).ry1] := by
  rw [List.range_succ_eq_map, List.reverse_cons, List.flatMap_append, List.flatMap_singleton,
    ← List.map_reverse, List.flatMap_def, List.map_map]
  congr 1
  · congr 1
    apply List.map_congr_left
    intro i hi
    have hi2 : i < rest.length := List.mem_range.mp (List.mem_reverse.mp hi)
    simp only [Function.comp, Nat.succ_eq_add_one]
    rw [show i + 1 + (rest.length + 1) - 1 = i + (rest.length + 1) by omega,
      Nat.add_mod_right, Nat.mod_eq_of_lt (by omega)]
  · simp only [Nat.zero_add, Nat.add_sub_cancel, List.getD_cons_zero]
    rw [Nat.mod_eq_of_lt (by omega)]

/-- C27: the operations `addSubPath` appends for a closed sub-path with
beveled joints and the `n >= 1` sections `firstLine :: rest`:
`startNewSubPath (lx1[0])`, for `i = 0 .. n-1` the lines to `lx2[i]` and
`lx1[(i+1) mod n]`, `closeSubPath`, `startNewSubPath (rx1[n-1])`, for
`i = n-1` down to `0` the lines to `rx2[i]` and `rx1[(i-1) mod n]`,
`closeSubPath`.  Each ring has `2 n` lines, the `n` joins, and its last line
goes to the point where the ring was started. -/
theorem C27_closed_bevel_rings [FloorRing F] (M : FloatMath F) (destPath : Path F)
    (firstLine : LineSection F) (rest : List (LineSection F)) (width maxMiterExtensionSquared : F)
    (endStyle : EndCapStyle) :
    addSubPath M destPath (firstLine :: rest) true width maxMiterExtensionSquared
        JointStyle.beveled endStyle
      = destPath ++ closedBevelRingsSpec firstLine rest
    ∧ ∃ body1 body2 : Path F,
        closedBevelRingsSpec firstLine rest
          = [PathOp.startNewSubPath firstLine.lx1 firstLine.ly1]
            ++ body1
            ++ [PathOp.lineTo firstLine.lx1 firstLine.ly1, PathOp.closeSubPath,
                PathOp.startNewSubPath ((firstLine :: rest).getD rest.length firstLine).rx1
                  ((firstLine :: rest).getD rest.length firstLine).ry1]
            ++ body2
            ++ [PathOp.lineTo ((firstLine :: rest).getD rest.length firstLine).rx1
                  ((firstLine :: rest).getD rest.length firstLine).ry1,
                PathOp.closeSubPath]
        ∧ body1.length + 1 = 2 * (firstLine :: rest).length
        ∧ body2.length + 1 = 2 * (firstLine :: rest).length
        ∧ (∀ o ∈ body1, o.isLineTo = true) ∧ (∀ o ∈ body2, o.isLineTo = true) := by
  constructor
  · obtain ⟨l1, l2, l3, l4, l5⟩ :=
      leftWalk_range M JointStyle.beveled maxMiterExtensionSquared width firstLine firstLine rest
    obtain ⟨r1, r2, r3, r4, r5⟩ :=
      rightWalk_sections M JointStyle.beveled maxMiterExtensionSquared width firstLine rest
    rw [addSubPath_closed_eq, r1, r2, r3, r4, r5, l1, l2, l3, l4, l5,
      getLast_eq_getD firstLine rest firstLine]
    simp only [closedBevelRingsSpec, bevel_left_ring, bevel_right_ring, openRightJoinsSpec,
      leftJoin, rightJoin, addEdgeAndJoint_beveled, List.nil_append]
    simp [List.append_assoc]
  · refine ⟨((List.range rest.length).map (fun k =>
          [PathOp.lineTo ((firstLine :: rest).getD k firstLine).lx2
              ((firstLine :: rest).getD k firstLine).ly2,
           PathOp.lineTo ((firstLine :: rest).getD (k + 1) firstLine).lx1
              ((firstLine :: rest).getD (k + 1) firstLine).ly1])).flatten
        ++ [PathOp.lineTo ((firstLine :: rest).getD rest.length firstLine).lx2
              ((firstLine :: rest).getD rest.length firstLine).ly2],
      ((List.range rest.length).reverse.map (fun i =>
          [PathOp.lineTo ((firstLine :: rest).getD (i + 1) firstLine).rx2
              ((firstLine :: rest).getD (i + 1) firstLine).ry2,
           PathOp.lineTo ((firstLine :: rest).getD i firstLine).rx1
              ((firstLine :: rest).getD i firstLine).ry1])).flatten
        ++ [PathOp.lineTo firstLine.rx2 firstLine.ry2], ?_, ?_, ?_, ?_, ?_⟩
    · simp only [closedBevelRingsSpec, bevel_left_ring, bevel_right_ring]
      simp [List.append_assoc]
    · rw [List.length_append, length_flatten_pairs]
      · simp only [List.length_range, List.length_singleton, List.length_cons, List.length_nil]
        omega
      · intro a
        rfl
    · rw [List.length_append, length_flatten_pairs]
      · simp only [List.length_range, List.length_reverse, List.length_singleton,
          List.length_cons, List.length_nil]
        omega
      · intro a
        rfl
    · intro o ho
      simp only [List.mem_append, List.mem_flatten, List.mem_map, List.mem_singleton] at ho
      rcases ho with ⟨l, ⟨k, -, rfl⟩, ho⟩ | rfl
      · simp only [List.mem_cons, List.mem_singleton, List.not_mem_nil, or_false] at ho
        rcases ho with rfl | rfl <;> rfl
      · rfl
    · intro o ho
      simp only [List.mem_append, List.mem_flatten, List.mem_map, List.mem_singleton] at ho
      rcases ho with ⟨l, ⟨k, -, rfl⟩, ho⟩ | rfl
      · simp only [List.mem_cons, List.mem_singleton, List.not_mem_nil, or_false] at ho
        rcases ho with rfl | rfl <;> rfl
      · rfl

/-- C27 at the three sections `(0,0)-(10,0)`, `(10,0)-(10,10)`,
`(10,10)-(0,10)` flushed as a closed sub-path, width 1: the left ring runs through `(0,-1)`, `(10,-1)`, `(11,0)`,
`(11,10)`, `(10,11)`, `(0,11)` and back to `(0,-1)`, the right ring through
`(0,9)`, `(10,9)`, `(9,10)`, `(9,0)`, `(10,1)`, `(0,1)` and back to `(0,9)`. -/
theorem C27_closed_bevel_rings_witness :
    addSubPath ratMath []
        [makeSection ratMath 1 0 0 10 0, makeSection ratMath 1 10 0 10 10,
          makeSection ratMath 1 10 10 0 10]
        true 1 36 JointStyle.beveled EndCapStyle.butt
      = [PathOp.startNewSubPath 0 (-1), PathOp.lineTo 10 (-1), PathOp.lineTo 11 0,
         PathOp.lineTo 11 10, PathOp.lineTo 10 11, PathOp.lineTo 0 11, PathOp.lineTo 0 (-1),
         PathOp.closeSubPath,
         PathOp.startNewSubPath 0 9, PathOp.lineTo 10 9, PathOp.lineTo 9 10, PathOp.lineTo 9 0,
         PathOp.lineTo 10 1, PathOp.lineTo 0 1, PathOp.lineTo 0 9, PathOp.closeSubPath] := by
  rw [(C27_closed_bevel_rings ratMath [] (makeSection ratMath 1 0 0 10 0)
    [makeSection ratMath 1 10 0 10 10, makeSection ratMath 1 10 10 0 10] 1 36
    EndCapStyle.butt).1]
  decide!

/-- A point between `a` and `b`. -/
theorem lerp_between (a b t : F) (h0 : 0 ≤ t) (h1 : t ≤ 1) :
    min a b ≤ a + (b - a) * t ∧ a + (b - a) * t ≤ max a b := by
  rcases le_total a b with h | h
  · rw [min_eq_left h, max_eq_right h]
    constructor
    · nlinarith [mul_nonneg (sub_nonneg.mpr h) h0]
    · nlinarith [mul_nonneg (sub_nonneg.mpr h) (sub_nonneg.mpr h1)]
  · rw [min_eq_right h, max_eq_left h]
    constructor
    · nlinarith [mul_nonneg (sub_nonneg.mpr h) (sub_nonneg.mpr h1)]
    · nlinarith [mul_nonneg (sub_nonneg.mpr h) h0]

/-- The point at the parameter `t` in `[0, 1]` of a segment lies on it. -/
theorem pointOnSegment_lerp (s : FlatSegment F) (t : F) (h0 : 0 ≤ t) (h1 : t ≤ 1) :
    pointOnSegment s (s.x1 + (s.x2 - s.x1) * t) (s.y1 + (s.y2 - s.y1) * t) = true := by
  unfold pointOnSegment
  rw [decide_eq_true_eq]
  refine ⟨by ring, (lerp_between _ _ t h0 h1).1, (lerp_between _ _ t h0 h1).2,
    (lerp_between _ _ t h0 h1).1, (lerp_between _ _ t h0 h1).2⟩

/-- The inner loop of the dasher keeps `pos` after the start of the current
segment, and stops with `pos` not after its end. -/
theorem consumeSegments_cut (M : FloatMath F) (isSolid : Bool)
    (segments : List (FlatSegment F)) :
    ∀ (pend : List (FlatSegment F)) (st : DashState F),
      (∀ s ∈ pend, s ∈ segments) →
      st.lineEndPos - st.lineLen < st.pos →
      (st.lineLen ≠ 0 → ∃ s ∈ segments, AtSegment M s st) →
      (consumeSegments M isSolid st pend).2.lineEndPos
          - (consumeSegments M isSolid st pend).2.lineLen
        < (consumeSegments M isSolid st pend).2.pos
      ∧ ((consumeSegments M isSolid st pend).2.lineLen ≠ 0 →
          ∃ s ∈ segments, AtSegment M s (consumeSegments M isSolid st pend).2)
      ∧ (∀ s ∈ (consumeSegments M isSolid st pend).2.pending, s ∈ segments)
      ∧ ((consumeSegments M isSolid st pend).1 = false →
          (consumeSegments M isSolid st pend).2.pos
            ≤ (consumeSegments M isSolid st pend).2.lineEndPos) := by
  intro pend
  induction pend with
  | nil =>
    intro st hp hlt hseg
    unfold consumeSegments
    by_cases hgt : st.pos > st.lineEndPos
    · rw [if_pos hgt]
      exact ⟨hlt, hseg, fun s hs => by simp at hs, fun h => by simp at h⟩
    · rw [if_neg hgt]
      exact ⟨hlt, hseg, fun s hs => by simp at hs, fun _ => not_lt.mp hgt⟩
  | cons s rest ih =>
    intro st hp hlt hseg
    unfold consumeSegments
    by_cases hgt : st.pos > st.lineEndPos
    · rw [if_pos hgt]
      apply ih
      · exact fun x hx => hp x (List.mem_cons_of_mem _ hx)
      · simp only
        linarith
      · intro _
        exact ⟨s, hp s (List.mem_cons_self _ _), rfl, rfl, rfl, rfl, rfl, rfl, rfl⟩
    · rw [if_neg hgt]
      exact ⟨hlt, hseg, hp, fun _ => not_lt.mp hgt⟩

/-- What holds in the state in which a cut point is interpolated. -/
theorem dashCut_spec (M : FloatMath F) (dashLengths : List F) (numDashLengths : Nat)
    (segments : List (FlatSegment F)) (st st2 : DashState F)
    (hinv : DashInv M segments st)
    (hcut : dashCut M dashLengths numDashLengths st = some st2) :
    st2.lineEndPos - st2.lineLen < st2.pos ∧ st2.pos ≤ st2.lineEndPos
    ∧ (∃ s ∈ segments, AtSegment M s st2)
    ∧ (∀ s ∈ st2.pending, s ∈ segments) := by
  obtain ⟨h1, h2, h3⟩ := hinv
  unfold dashCut at hcut
  by_cases hn : numDashLengths = 0
  · simp [hn] at hcut
  · simp only [if_neg hn] at hcut
    cases hd : dashLengths[(dashRead numDashLengths st).1]? with
    | none => simp [hd] at hcut
    | some dashLen =>
      simp only [hd] at hcut
      by_cases hle : dashLen ≤ 0
      · simp [hle] at hcut
      · simp only [if_neg hle] at hcut
        obtain ⟨c1, c2, c3, c4⟩ := consumeSegments_cut M (dashRead numDashLengths st).2 segments
          st.pending { st with dashNum := st.dashNum + 1, pos := st.pos + dashLen } h3
          (by
            simp only
            linarith [not_le.mp hle])
          h2
        rcases hc : consumeSegments M (dashRead numDashLengths st).2
          { st with dashNum := st.dashNum + 1, pos := st.pos + dashLen } st.pending with
          ⟨flag, st3⟩
        rw [hc] at hcut c1 c2 c3 c4
        cases flag with
        | true => simp at hcut
        | false =>
          simp only [Option.some.injEq] at hcut
          subst hcut
          simp only at c1 c2 c3 c4
          have hle2 := c4 trivial
          refine ⟨c1, hle2, c2 ?_, c3⟩
          intro h0
          rw [h0, sub_zero] at c1
          exact absurd hle2 (not_le.mpr c1)

/-- A pass of the loop of the dasher that goes on to a next pass is a pass
that interpolates a cut point, and the next pass starts in the state of the
interpolation with the cut point added to the dashed path. -/
theorem dashStep_eq_cut (M : FloatMath F) (dashLengths : List F) (numDashLengths : Nat)
    (st : DashState F) :
    dashStep M dashLengths numDashLengths st
      = match dashCut M dashLengths numDashLengths st with
        | some st2 =>
          Sum.inr
            { st2 with
              newDestPath :=
                if (dashRead numDashLengths st).2 = true then
                  st2.newDestPath.lineTo (st2.itX1 + st2.dx * dashAlpha st2)
                    (st2.itY1 + st2.dy * dashAlpha st2)
                else
                  st2.newDestPath.startNewSubPath (st2.itX1 + st2.dx * dashAlpha st2)
                    (st2.itY1 + st2.dy * dashAlpha st2) }
        | none => dashStep M dashLengths numDashLengths st := by
  cases hcut : dashCut M dashLengths numDashLengths st with
  | none => rfl
  | some st2 =>
    simp only
    unfold dashCut at hcut
    unfold dashStep
    by_cases hn : numDashLengths = 0
    · simp [hn] at hcut
    · simp only [if_neg hn] at hcut ⊢
      cases hd : dashLengths[(dashRead numDashLengths st).1]? with
      | none => simp [hd] at hcut
      | some dashLen =>
        simp only [hd] at hcut ⊢
        by_cases hle : dashLen ≤ 0
        · simp [hle] at hcut
        · simp only [if_neg hle] at hcut ⊢
          rcases hc : consumeSegments M (dashRead numDashLengths st).2
            { st with dashNum := st.dashNum + 1, pos := st.pos + dashLen } st.pending with
            ⟨flag, st3⟩
          rw [hc] at hcut
          cases flag with
          | true => simp at hcut
          | false =>
            simp only [Option.some.injEq] at hcut
            subst hcut
            rfl

/-- A pass that goes on to a next pass interpolates a cut point. -/
theorem dashCut_of_dashStep (M : FloatMath F) (dashLengths : List F) (numDashLengths : Nat)
    (st st3 : DashState F) (h : dashStep M dashLengths numDashLengths st = Sum.inr st3) :
    ∃ st2, dashCut M dashLengths numDashLengths st = some st2
      ∧ st3.pos = st2.pos ∧ st3.lineEndPos = st2.lineEndPos ∧ st3.lineLen = st2.lineLen
      ∧ st3.pending = st2.pending
      ∧ st3.itX1 = st2.itX1 ∧ st3.itY1 = st2.itY1 ∧ st3.itX2 = st2.itX2 ∧ st3.itY2 = st2.itY2
      ∧ st3.dx = st2.dx ∧ st3.dy = st2.dy := by
  unfold dashStep at h
  unfold dashCut
  by_cases hn : numDashLengths = 0
  · simp [hn] at h
  · simp only [if_neg hn] at h ⊢
    cases hd : dashLengths[(dashRead numDashLengths st).1]? with
    | none => simp [hd] at h
    | some dashLen =>
      simp only [hd] at h ⊢
      by_cases hle : dashLen ≤ 0
      · simp [hle] at h
      · simp only [if_neg hle] at h ⊢
        rcases hc : consumeSegments M (dashRead numDashLengths st).2
          { st with dashNum := st.dashNum + 1, pos := st.pos + dashLen } st.pending with
          ⟨flag, st4⟩
        rw [hc] at h
        cases flag with
        | true => simp at h
        | false =>
          simp only [Sum.inr.injEq] at h
          subst h
          exact ⟨st4, rfl, rfl, rfl, rfl, rfl, rfl, rfl, rfl, rfl, rfl, rfl⟩

/-- Every pass of the loop of the dasher starts in a state that satisfies
`DashInv`. -/
theorem dashStateAt_inv (M : FloatMath F) (dashLengths : List F) (numDashLengths : Nat)
    (segments : List (FlatSegment F)) :
    ∀ (k : Nat) (st : DashState F),
      dashStateAt M dashLengths numDashLengths segments k = some st →
      DashInv M segments st := by
  intro k
  induction k with
  | zero =>
    intro st h
    simp only [dashStateAt, Option.some.injEq] at h
    subst h
    exact ⟨by simp [dashInit], fun h => absurd rfl h, fun s hs => hs⟩
  | succ k ih =>
    intro st h
    simp only [dashStateAt] at h
    cases hk : dashStateAt M dashLengths numDashLengths segments k with
    | none => simp [hk] at h
    | some st1 =>
      simp only [hk] at h
      cases hs : dashStep M dashLengths numDashLengths st1 with
      | inl o => simp [hs] at h
      | inr st3 =>
        simp only [hs, Option.some.injEq] at h
        subst h
        obtain ⟨st2, hcut, e1, e2, e3, e4, e5, e6, e7, e8, e9, e10⟩ :=
          dashCut_of_dashStep M dashLengths numDashLengths st1 st3 hs
        obtain ⟨c1, c2, ⟨s, hs1, hs2⟩, c4⟩ :=
          dashCut_spec M dashLengths numDashLengths segments st1 st2 (ih st1 hk) hcut
        refine ⟨?_, fun _ => ⟨s, hs1, ?_⟩, ?_⟩
        · rw [e1, e2, e3]
          exact le_of_lt c1
        · unfold AtSegment at hs2 ⊢
          rw [e3, e5, e6, e7, e8, e9, e10]
          exact hs2
        · rw [e4]
          exact c4

/-- C29: the interpolation of a cut point in `createDashedStroke` (source line
613), in exact arithmetic, for every dash table, every stream `segments` and
every pass `k` of the main loop that gets to that line; `st2` is the state in
which the interpolation is made.  The length `lineLen` is that of a segment
`s` of the stream, the one the iterator yielded last, and it is strictly
positive, so that the division is defined and a segment of length 0 is never
the current one; `alpha` satisfies `0 < alpha <= 1`; and the cut point
`(it.x1 + dx * alpha, it.y1 + dy * alpha)`, which the pass appends to the
dashed path, lies on `s`. -/
theorem C29_cut_point_on_current_segment (M : FloatMath F) (dashLengths : List F)
    (numDashLengths : Nat) (segments : List (FlatSegment F)) (k : Nat) (st st2 : DashState F)
    (hk : dashStateAt M dashLengths numDashLengths segments k = some st)
    (hcut : dashCut M dashLengths numDashLengths st = some st2) :
    0 < st2.lineLen
    ∧ 0 < dashAlpha st2 ∧ dashAlpha st2 ≤ 1
    ∧ (∃ s ∈ segments, AtSegment M s st2
        ∧ 0 < M.hypotf (s.x2 - s.x1) (s.y2 - s.y1)
        ∧ pointOnSegment s (st2.itX1 + st2.dx * dashAlpha st2)
            (st2.itY1 + st2.dy * dashAlpha st2) = true)
    ∧ dashStep M dashLengths numDashLengths st
        = Sum.inr
            { st2 with
              newDestPath :=
                if (dashRead numDashLengths st).2 = true then
                  st2.newDestPath.lineTo (st2.itX1 + st2.dx * dashAlpha st2)
                    (st2.itY1 + st2.dy * dashAlpha st2)
                else
                  st2.newDestPath.startNewSubPath (st2.itX1 + st2.dx * dashAlpha st2)
                    (st2.itY1 + st2.dy * dashAlpha st2) } := by
  obtain ⟨c1, c2, ⟨s, hs, hat⟩, -⟩ := dashCut_spec M dashLengths numDashLengths segments st st2
    (dashStateAt_inv M dashLengths numDashLengths segments k st hk) hcut
  have hlen : 0 < st2.lineLen := by linarith
  have ha0 : 0 < dashAlpha st2 := div_pos (by linarith) hlen
  have ha1 : dashAlpha st2 ≤ 1 := by
    unfold dashAlpha
    rw [div_le_one hlen]
    linarith
  refine ⟨hlen, ha0, ha1, ⟨s, hs, hat, ?_, ?_⟩, ?_⟩
  · rw [← hat.2.2.2.2.2.2]
    exact hlen
  · obtain ⟨e1, e2, e3, e4, e5, e6, e7⟩ := hat
    rw [e1, e2, e5, e6]
    exact pointOnSegment_lerp s _ (le_of_lt ha0) ha1
  · rw [dashStep_eq_cut, hcut]

/-- C29 at the segment `(0,0)-(10,0)` with the table `[6, 4]`, in the first
pass: the cut is made at `pos = 6` on the segment of length 10, with
`alpha = 3/5`, at the point `(6, 0)`. -/
theorem C29_cut_point_on_current_segment_witness :
    dashCut ratMath [6, 4] 2 (dashInit [⟨0, 0, 10, 0, 0, false⟩])
      = some ⟨[PathOp.startNewSubPath 0 0], [], 0, 0, 10, 0, false, 1, 6, 10, 10, 10, 0⟩
    ∧ dashAlpha (⟨[PathOp.startNewSubPath 0 0], [], 0, 0, 10, 0, false, 1, 6, 10, 10, 10, 0⟩ :
        DashState ℚ) = 3 / 5
    ∧ (0 : ℚ) < 10
    ∧ 0 < dashAlpha (⟨[PathOp.startNewSubPath 0 0], [], 0, 0, 10, 0, false, 1, 6, 10, 10, 10, 0⟩ :
        DashState ℚ)
    ∧ dashAlpha (⟨[PathOp.startNewSubPath 0 0], [], 0, 0, 10, 0, false, 1, 6, 10, 10, 10, 0⟩ :
        DashState ℚ) ≤ 1 :=
  have h := C29_cut_point_on_current_segment ratMath [6, 4] 2 [⟨0, 0, 10, 0, 0, false⟩] 0
    (dashInit [⟨0, 0, 10, 0, 0, false⟩])
    ⟨[PathOp.startNewSubPath 0 0], [], 0, 0, 10, 0, false, 1, 6, 10, 10, 10, 0⟩ rfl
    (by with_unfolding_all rfl)
  ⟨by with_unfolding_all rfl, by norm_num [dashAlpha], h.1, h.2.1, h.2.2.1⟩

theorem dashStateAt_succ_some (M : FloatMath F) (dashLengths : List F) (numDashLengths : Nat)
    (segments : List (FlatSegment F)) (k : Nat) (st2 : DashState F)
    (h : dashStateAt M dashLengths numDashLengths segments (k + 1) = some st2) :
    ∃ st1, dashStateAt M dashLengths numDashLengths segments k = some st1
      ∧ dashStep M dashLengths numDashLengths st1 = Sum.inr st2 := by
  simp only [dashStateAt] at h
  cases hk : dashStateAt M dashLengths numDashLengths segments k with
  | none => simp [hk] at h
  | some st1 =>
    simp only [hk] at h
    cases hs : dashStep M dashLengths numDashLengths st1 with
    | inl o => simp [hs] at h
    | inr st3 =>
      simp only [hs, Option.some.injEq] at h
      subst h
      exact ⟨st1, rfl, hs⟩

/-- The three caps of `addLineEnd`, written with the offset points. -/
theorem addLineEnd_eq (M : FloatMath F) (destPath : Path F) (x1 y1 x2 y2 width : F) :
    addLineEnd M destPath EndCapStyle.butt x1 y1 x2 y2 width = destPath ++ [PathOp.lineTo x2 y2]
    ∧ addLineEnd M destPath EndCapStyle.square x1 y1 x2 y2 width
      = destPath ++
        [PathOp.lineTo (capOffsets M x1 y1 x2 y2 width).1 (capOffsets M x1 y1 x2 y2 width).2.1,
         PathOp.lineTo (capOffsets M x1 y1 x2 y2 width).2.2.1
           (capOffsets M x1 y1 x2 y2 width).2.2.2,
         PathOp.lineTo x2 y2]
    ∧ addLineEnd M destPath EndCapStyle.rounded x1 y1 x2 y2 width
      = destPath ++
        [PathOp.cubicTo
           (x1 + ((capOffsets M x1 y1 x2 y2 width).1 - x1) * (55 / 100))
           (y1 + ((capOffsets M x1 y1 x2 y2 width).2.1 - y1) * (55 / 100))
           ((capOffsets M x1 y1 x2 y2 width).1
             + (((capOffsets M x1 y1 x2 y2 width).1 + (capOffsets M x1 y1 x2 y2 width).2.2.1)
                 * (1 / 2) - (capOffsets M x1 y1 x2 y2 width).1) * (45 / 100))
           ((capOffsets M x1 y1 x2 y2 width).2.1
             + (((capOffsets M x1 y1 x2 y2 width).2.1 + (capOffsets M x1 y1 x2 y2 width).2.2.2)
                 * (1 / 2) - (capOffsets M x1 y1 x2 y2 width).2.1) * (45 / 100))
           (((capOffsets M x1 y1 x2 y2 width).1 + (capOffsets M x1 y1 x2 y2 width).2.2.1)
             * (1 / 2))
           (((capOffsets M x1 y1 x2 y2 width).2.1 + (capOffsets M x1 y1 x2 y2 width).2.2.2)
             * (1 / 2)),
         PathOp.cubicTo
           (((capOffsets M x1 y1 x2 y2 width).1 + (capOffsets M x1 y1 x2 y2 width).2.2.1)
               * (1 / 2)
             + ((capOffsets M x1 y1 x2 y2 width).2.2.1
                 - ((capOffsets M x1 y1 x2 y2 width).1 + (capOffsets M x1 y1 x2 y2 width).2.2.1)
                   * (1 / 2)) * (55 / 100))
           (((capOffsets M x1 y1 x2 y2 width).2.1 + (capOffsets M x1 y1 x2 y2 width).2.2.2)
               * (1 / 2)
             + ((capOffsets M x1 y1 x2 y2 width).2.2.2
                 - ((capOffsets M x1 y1 x2 y2 width).2.1 + (capOffsets M x1 y1 x2 y2 width).2.2.2)
                   * (1 / 2)) * (55 / 100))
           ((capOffsets M x1 y1 x2 y2 width).2.2.1
             + (x2 - (capOffsets M x1 y1 x2 y2 width).2.2.1) * (45 / 100))
           ((capOffsets M x1 y1 x2 y2 width).2.2.2
             + (y2 - (capOffsets M x1 y1 x2 y2 width).2.2.2) * (45 / 100))
           x2 y2] := by
  refine ⟨?_, ?_, ?_⟩
  · simp [addLineEnd, Path.lineTo]
  · simp [addLineEnd, capOffsets, Path.lineTo]
  · simp [addLineEnd, capOffsets, Path.cubicTo]

/-- C36: what `addLineEnd` appends, for every input.  A butt cap is the one
operation `lineTo (x2, y2)`; a square cap is three `lineTo` operations, to the
two offset points and then to `(x2, y2)`; a round cap is two `cubicTo`
operations, the first of which ends at the midpoint of the two offset points
and the second at `(x2, y2)`.  For every cap style the last operation appended
ends at `(x2, y2)`. -/
theorem C36_cap_ends_at_p2 (M : FloatMath F) (destPath : Path F) (x1 y1 x2 y2 width : F) :
    addLineEnd M destPath EndCapStyle.butt x1 y1 x2 y2 width = destPath ++ [PathOp.lineTo x2 y2]
    ∧ addLineEnd M destPath EndCapStyle.square x1 y1 x2 y2 width
      = destPath ++
        [PathOp.lineTo (capOffsets M x1 y1 x2 y2 width).1 (capOffsets M x1 y1 x2 y2 width).2.1,
         PathOp.lineTo (capOffsets M x1 y1 x2 y2 width).2.2.1
           (capOffsets M x1 y1 x2 y2 width).2.2.2,
         PathOp.lineTo x2 y2]
    ∧ (∃ c1x c1y c2x c2y c3x c3y c4x c4y : F,
        addLineEnd M destPath EndCapStyle.rounded x1 y1 x2 y2 width
          = destPath ++
            [PathOp.cubicTo c1x c1y c2x c2y
               (((capOffsets M x1 y1 x2 y2 width).1 + (capOffsets M x1 y1 x2 y2 width).2.2.1)
                 * (1 / 2))
               (((capOffsets M x1 y1 x2 y2 width).2.1 + (capOffsets M x1 y1 x2 y2 width).2.2.2)
                 * (1 / 2)),
             PathOp.cubicTo c3x c3y c4x c4y x2 y2])
    ∧ (∀ style : EndCapStyle, ∃ (ops : Path F) (op : PathOp F),
        addLineEnd M destPath style x1 y1 x2 y2 width = destPath ++ ops ++ [op]
        ∧ op.endPoint = some (x2, y2)
        ∧ ops.length + 1
            = match style with
              | EndCapStyle.butt => 1
              | EndCapStyle.square => 3
              | EndCapStyle.rounded => 2) := by
  obtain ⟨hb, hs, hr⟩ := addLineEnd_eq M destPath x1 y1 x2 y2 width
  refine ⟨hb, hs, ⟨_, _, _, _, _, _, _, _, hr⟩, ?_⟩
  intro style
  cases style with
  | butt =>
    refine ⟨[], PathOp.lineTo x2 y2, ?_, rfl, rfl⟩
    rw [hb, List.append_nil]
  | square =>
    rw [hs]
    refine ⟨[?c1, ?c2], ?c3, ?h, ?e, ?n⟩
    case h => exact (List.append_assoc destPath [_, _] [_]).symm
    case e => rfl
    case n => rfl
  | rounded =>
    rw [hr]
    refine ⟨[?r1], ?r2, ?hh, ?ee, ?nn⟩
    case hh => exact (List.append_assoc destPath [_] [_]).symm
    case ee => rfl
    case nn => rfl

/-- C37: a cap between coinciding points `p1 = p2`, for a `juce_hypotf` that
is 0 at `(0, 0)`.  The branch `len == 0` is taken, in which nothing is
divided: both offset points are `p1`, whatever the width; a square cap is
three `lineTo` operations to `p1`, and a round cap two `cubicTo` operations
whose control points and end points are all `p1`. -/
theorem C37_cap_of_zero_length (M : FloatMath F) (destPath : Path F) (x1 y1 width : F)
    (h0 : M.hypotf 0 0 = 0) :
    capOffsets M x1 y1 x1 y1 width = (x1, y1, x1, y1)
    ∧ addLineEnd M destPath EndCapStyle.square x1 y1 x1 y1 width
      = destPath ++ [PathOp.lineTo x1 y1, PathOp.lineTo x1 y1, PathOp.lineTo x1 y1]
    ∧ addLineEnd M destPath EndCapStyle.rounded x1 y1 x1 y1 width
      = destPath ++ [PathOp.cubicTo x1 y1 x1 y1 x1 y1, PathOp.cubicTo x1 y1 x1 y1 x1 y1] := by
  have hoff : capOffsets M x1 y1 x1 y1 width = (x1, y1, x1, y1) := by
    simp [capOffsets, h0]
  obtain ⟨-, hs, hr⟩ := addLineEnd_eq M destPath x1 y1 x1 y1 width
  refine ⟨hoff, ?_, ?_⟩
  · rw [hs, hoff]
  · rw [hr, hoff]
    simp only [List.append_cancel_left_eq, List.cons.injEq, PathOp.cubicTo.injEq, and_true]
    refine ⟨⟨?_, ?_, ?_, ?_, ?_, ?_⟩, ⟨?_, ?_, ?_, ?_⟩⟩ <;> ring

/-- C37 at the point `(5, 5)` with width 7: the square cap and the round cap
onto the path `[startNewSubPath 5 5]`. -/
theorem C37_cap_of_zero_length_witness :
    addLineEnd ratMath [PathOp.startNewSubPath 5 5] EndCapStyle.square 5 5 5 5 7
      = [PathOp.startNewSubPath 5 5] ++
        [PathOp.lineTo 5 5, PathOp.lineTo 5 5, PathOp.lineTo 5 5]
    ∧ addLineEnd ratMath [PathOp.startNewSubPath 5 5] EndCapStyle.rounded 5 5 5 5 7
      = [PathOp.startNewSubPath 5 5] ++
        [PathOp.cubicTo 5 5 5 5 5 5, PathOp.cubicTo 5 5 5 5 5 5] :=
  (C37_cap_of_zero_length ratMath [PathOp.startNewSubPath 5 5] 5 5 7 (by decide!)).2

/-- The loop of the dasher run from the start is, after `k` passes, the loop
run from the state in which pass `k` starts. -/
theorem dashLoop_of_dashStateAt (M : FloatMath F) (dashLengths : List F)
    (numDashLengths : Nat) (segments : List (FlatSegment F)) :
    ∀ (k : Nat) (st : DashState F),
      dashStateAt M dashLengths numDashLengths segments k = some st →
      ∀ j : Nat, dashLoop M dashLengths numDashLengths (k + j) (dashInit segments)
        = dashLoop M dashLengths numDashLengths j st := by
  intro k
  induction k with
  | zero =>
    intro st h j
    simp only [dashStateAt, Option.some.injEq] at h
    subst h
    rw [Nat.zero_add]
  | succ k ih =>
    intro st h j
    obtain ⟨st1, h1, hstep⟩ := dashStateAt_succ_some M dashLengths numDashLengths segments k st h
    rw [show k + 1 + j = k + (j + 1) by omega, ih st1 h1 (j + 1), dashLoop_succ, hstep]

/-- A pass that reads a dash length `<= 0` leaves the loop at once. -/
theorem dashStep_invalid (M : FloatMath F) (dashLengths : List F) (numDashLengths : Nat)
    (st : DashState F) (dashLen : F) (hn : numDashLengths ≠ 0)
    (hread : dashLengths[(dashRead numDashLengths st).1]? = some dashLen) (hle : dashLen ≤ 0) :
    dashStep M dashLengths numDashLengths st
      = Sum.inl (DashOutcome.invalidDash { st with dashNum := st.dashNum + 1 }) := by
  unfold dashStep
  simp only [if_neg hn, hread, if_pos hle]

/-- C31: with a thickness above 0, when a pass `k` of the loop of
`createDashedStroke` is reached (the iterator has not run out before) and
reads a dash length `<= 0`, the loop is left through the `break` of source
line 582 and the function returns with the destination exactly as it was
before the call: the stroker is not called and the dashed path built so far
is dropped. -/
theorem C31_nonpositive_dash_length_aborts [FloorRing F] (M : FloatMath F) (fl : Flattener F)
    (style : PathStrokeType F) (destPath sourcePath : Path F) (dashLengths : List F)
    (numDashLengths : Nat) (transform : fl.Transform) (extraAccuracy : F)
    (k : Nat) (st : DashState F) (dashLen : F)
    (hT : 0 < style.thickness) (hn : numDashLengths ≠ 0)
    (hk : dashStateAt M dashLengths numDashLengths
        (fl.segments sourcePath transform (9 / extraAccuracy)) k = some st)
    (hread : dashLengths[(dashRead numDashLengths st).1]? = some dashLen)
    (hle : dashLen ≤ 0) :
    ∀ extra : Nat,
      dashLoop M dashLengths numDashLengths (k + (extra + 1))
          (dashInit (fl.segments sourcePath transform (9 / extraAccuracy)))
        = some (DashOutcome.invalidDash { st with dashNum := st.dashNum + 1 })
      ∧ createDashedStroke M fl style destPath sourcePath dashLengths numDashLengths
          transform extraAccuracy (k + (extra + 1))
        = some (DashResult.returned destPath) := by
  intro extra
  have hloop : dashLoop M dashLengths numDashLengths (k + (extra + 1))
      (dashInit (fl.segments sourcePath transform (9 / extraAccuracy)))
      = some (DashOutcome.invalidDash { st with dashNum := st.dashNum + 1 }) := by
    rw [dashLoop_of_dashStateAt M dashLengths numDashLengths _ k st hk (extra + 1),
      dashLoop_succ, dashStep_invalid M dashLengths numDashLengths st dashLen hn hread hle]
  refine ⟨hloop, ?_⟩
  unfold createDashedStroke
  rw [if_neg (not_le.mpr hT), hloop]

/-- C31 at the segment `(0,0)-(10,0)` with the table `[6, 0]`, thickness 2
and a destination that holds two operations: pass 1 reads the length 0, and
the destination comes back unchanged although the dashed path already held
`startNewSubPath (0,0)`, `lineTo (6,0)`. -/
theorem C31_nonpositive_dash_length_aborts_witness :
    dashStateAt ratMath [6, 0] 2 [⟨0, 0, 10, 0, 0, false⟩] 1
      = some ⟨[PathOp.startNewSubPath 0 0, PathOp.lineTo 6 0], [], 0, 0, 10, 0, false, 1, 6,
          10, 10, 10, 0⟩
    ∧ createDashedStroke ratMath (fixedFlattener [⟨0, 0, 10, 0, 0, false⟩])
        ⟨2, JointStyle.mitered, EndCapStyle.butt⟩
        [PathOp.startNewSubPath 1 1, PathOp.lineTo 7 7] [] [6, 0] 2 () 1 (1 + (0 + 1))
      = some (DashResult.returned [PathOp.startNewSubPath 1 1, PathOp.lineTo 7 7]) :=
  ⟨by with_unfolding_all rfl,
    (C31_nonpositive_dash_length_aborts ratMath (fixedFlattener [⟨0, 0, 10, 0, 0, false⟩])
      ⟨2, JointStyle.mitered, EndCapStyle.butt⟩
      [PathOp.startNewSubPath 1 1, PathOp.lineTo 7 7] [] [6, 0] 2 () 1 1
      ⟨[PathOp.startNewSubPath 0 0, PathOp.lineTo 6 0], [], 0, 0, 10, 0, false, 1, 6,
        10, 10, 10, 0⟩ 0
      (by norm_num) (by decide) (by with_unfolding_all rfl) (by with_unfolding_all rfl)
      (le_refl 0) 0).2⟩

/-- For angles in `[-float_Pi, float_Pi]` the unwrapping loop of the curved
joint makes no pass or one pass. -/
theorem unwrapAngle_once [FloorRing F] (M : FloatMath F) (angle angle2 : F)
    (ha : -M.float_Pi ≤ angle) (ha2 : angle2 ≤ M.float_Pi) :
    unwrapAngle M angle angle2
      = if angle < angle2 - 1 / 100 then angle2 - M.float_Pi * 2 else angle2 := by
  rw [unwrapAngle]
  by_cases h : angle < angle2 - 1 / 100
  · rw [if_pos h, if_pos h, unwrapAngle]
    have : ¬ angle < angle2 - M.float_Pi * 2 - 1 / 100 := by
      rw [not_lt]
      linarith
    rw [if_neg this]
  · rw [if_neg h, if_neg h]

/-- The number of passes of the stepping loop of the curved joint over a
swept angle of at most `63 / 10`. -/
theorem arcSteps_length_le [FloorRing F] (M : FloatMath F) (midX midY width angle angle2 : F)
    (hsweep : angle - angle2 ≤ 63 / 10) :
    (arcSteps M [] midX midY width angle angle2).length ≤ 63 := by
  obtain ⟨n, hn, hk, -⟩ := arcSteps_eq_map M midX midY width angle angle2
  rw [hn, List.length_map, List.length_range]
  by_contra hgt
  have h64 : 63 < n := by omega
  have := hk 63 h64
  have hc : ((63 : Nat) : F) = 63 := by norm_num
  rw [hc] at this
  linarith

/-- C34: the two loops of the curved joint of `addEdgeAndJoint`, for a start
angle and an end angle in `[-float_Pi, float_Pi]` and `float_Pi <= 3.15`.
The unwrapping loop makes at most one pass: its result is the end angle, or
the end angle less `2 * float_Pi`.  After it the swept angle is at most
`2 * float_Pi`.  The stepping loop (a well-founded recursion, hence
terminating) appends at most 63 vertices.  In the curved branch
`addEdgeAndJoint` appends `lineTo (x2, y2)`, these vertices and
`lineTo (x3, y3)`. -/
theorem C34_arc_loops_bounded [FloorRing F] (M : FloatMath F) (destPath : Path F)
    (style : JointStyle) (mm width x1 y1 x2 y2 x3 y3 x4 y4 midX midY : F)
    (hpi : M.float_Pi ≤ 63 / 20)
    (hat1 : -M.float_Pi ≤ M.atan2f (x2 - midX) (y2 - midY)
      ∧ M.atan2f (x2 - midX) (y2 - midY) ≤ M.float_Pi)
    (hat2 : -M.float_Pi ≤ M.atan2f (x3 - midX) (y3 - midY)
      ∧ M.atan2f (x3 - midX) (y3 - midY) ≤ M.float_Pi) :
    unwrapAngle M (M.atan2f (x2 - midX) (y2 - midY)) (M.atan2f (x3 - midX) (y3 - midY))
      = (if M.atan2f (x2 - midX) (y2 - midY) < M.atan2f (x3 - midX) (y3 - midY) - 1 / 100 then
          M.atan2f (x3 - midX) (y3 - midY) - M.float_Pi * 2
        else M.atan2f (x3 - midX) (y3 - midY))
    ∧ M.atan2f (x2 - midX) (y2 - midY)
        - unwrapAngle M (M.atan2f (x2 - midX) (y2 - midY)) (M.atan2f (x3 - midX) (y3 - midY))
      ≤ 2 * M.float_Pi
    ∧ (arcSteps M [] midX midY width (M.atan2f (x2 - midX) (y2 - midY))
        (unwrapAngle M (M.atan2f (x2 - midX) (y2 - midY))
          (M.atan2f (x3 - midX) (y3 - midY)))).length ≤ 63
    ∧ (style ≠ JointStyle.beveled → style ≠ JointStyle.mitered →
        ¬ (x1 = x2 ∧ y1 = y2) → ¬ (x3 = x4 ∧ y3 = y4) →
        (lineIntersection x1 y1 x2 y2 x3 y3 x4 y4).intersects = false →
        addEdgeAndJoint M destPath style mm width x1 y1 x2 y2 x3 y3 x4 y4 midX midY
          = destPath ++ [PathOp.lineTo x2 y2]
            ++ arcSteps M [] midX midY width (M.atan2f (x2 - midX) (y2 - midY))
                (unwrapAngle M (M.atan2f (x2 - midX) (y2 - midY))
                  (M.atan2f (x3 - midX) (y3 - midY)))
            ++ [PathOp.lineTo x3 y3]) := by
  have hun := unwrapAngle_once M (M.atan2f (x2 - midX) (y2 - midY))
    (M.atan2f (x3 - midX) (y3 - midY)) hat1.1 hat2.2
  have hsweep : M.atan2f (x2 - midX) (y2 - midY)
      - unwrapAngle M (M.atan2f (x2 - midX) (y2 - midY)) (M.atan2f (x3 - midX) (y3 - midY))
      ≤ 2 * M.float_Pi := by
    rw [hun]
    by_cases h : M.atan2f (x2 - midX) (y2 - midY) < M.atan2f (x3 - midX) (y3 - midY) - 1 / 100
    · rw [if_pos h]
      linarith
    · rw [if_neg h]
      linarith [hat1.2, hat2.1]
  refine ⟨hun, hsweep, ?_, ?_⟩
  · apply arcSteps_length_le
    linarith
  · intro hs1 hs2 h1 h2 hf
    unfold addEdgeAndJoint
    have hg : ¬ (style = JointStyle.beveled ∨ (x3 = x4 ∧ y3 = y4) ∨ (x1 = x2 ∧ y1 = y2)) := by
      rintro (h | h | h)
      · exact hs1 h
      · exact h2 h
      · exact h1 h
    simp only [if_neg hg, hf, Bool.false_eq_true, if_false, if_neg hs2, Path.lineTo]
    rw [arcSteps_append]

/-- C34 with the rational stand-ins for the library functions
(`float_Pi = 355/113`), at a joint whose end points `(0,-1)` and
`(-1/100,-1)` are seen from the pivot `(0,0)` under almost a full turn. -/
theorem C34_arc_loops_bounded_witness :
    (arcSteps ratMath [] 0 0 1 (ratMath.atan2f (0 - 0) (-1 - 0))
        (unwrapAngle ratMath (ratMath.atan2f (0 - 0) (-1 - 0))
          (ratMath.atan2f (-1 / 100 - 0) (-1 - 0)))).length ≤ 63
    ∧ ratMath.atan2f (0 - 0) (-1 - 0)
        - unwrapAngle ratMath (ratMath.atan2f (0 - 0) (-1 - 0))
            (ratMath.atan2f (-1 / 100 - 0) (-1 - 0))
      ≤ 2 * ratMath.float_Pi :=
  have h := C34_arc_loops_bounded ratMath [] JointStyle.curved 36 1 (-1) (-1) 0 (-1)
    (-1 / 100) (-1) 1 1 0 0 (by decide!) (by decide!) (by decide!)
  ⟨h.2.2.1, h.2.1⟩

theorem roundHalfEven_intCast (z : Int) : roundHalfEven (z : ℚ) = z := by
  unfold roundHalfEven
  simp

/-- Rounding to the nearest integer moves a value by at most one half. -/
theorem roundHalfEven_ge (q : ℚ) : q - 1 / 2 ≤ (roundHalfEven q : ℚ) := by
  unfold roundHalfEven
  have h1 := Int.floor_le q
  have h2 := Int.lt_floor_add_one q
  split_ifs with c1 c2 c3
  · linarith
  · push_cast; linarith
  · linarith
  · push_cast; linarith

/-- A natural number up to `2 ^ 24` is a value of type `float`. -/
theorem roundFloat_natCast (n : Nat) (h : n ≤ 2 ^ 24) : roundFloat (n : ℚ) = n := by
  unfold roundFloat
  by_cases h0 : (n : ℚ) = 0
  · rw [if_pos h0, h0]
  rw [if_neg h0]
  have hn0 : n ≠ 0 := by
    intro hc
    apply h0
    rw [hc]
    rfl
  have habs : |(n : ℚ)| = (n : ℚ) := abs_of_nonneg (Nat.cast_nonneg n)
  rw [habs, Int.log_natCast]
  rcases Nat.lt_or_ge n (2 ^ 24) with hlt | hge
  · have hk : Nat.log 2 n < 24 := Nat.log_lt_of_lt_pow hn0 hlt
    obtain ⟨j, hj⟩ : ∃ j : Nat, Nat.log 2 n + j = 23 := ⟨23 - Nat.log 2 n, by omega⟩
    have he : ((Nat.log 2 n : Nat) : Int) - 23 = -(j : Int) := by omega
    rw [he, zpow_neg, zpow_natCast]
    have hq : (n : ℚ) / ((2 : ℚ) ^ j)⁻¹ = ((n * 2 ^ j : Nat) : Int) := by
      rw [div_inv_eq_mul]
      push_cast
      ring
    rw [hq, roundHalfEven_intCast]
    push_cast
    field_simp
  · have hn : n = 2 ^ 24 := le_antisymm h hge
    subst hn
    have hlog : Nat.log 2 (2 ^ 24) = 24 := Nat.log_pow (by norm_num) 24
    rw [hlog]
    have hq : (((2 : Nat) ^ 24 : Nat) : ℚ) / (2 : ℚ) ^ (((24 : Nat) : Int) - 23)
        = ((2 ^ 23 : Int) : Int) := by
      norm_num
    rw [hq, roundHalfEven_intCast]
    norm_num

/-- The sum of two natural numbers whose exact sum is at most `2 ^ 24` is
computed exactly. -/
theorem floatAdd_natCast (m n : Nat) (h : m + n ≤ 2 ^ 24) :
    floatAdd (m : ℚ) (n : ℚ) = (m : ℚ) + (n : ℚ) := by
  unfold floatAdd
  rw [← Nat.cast_add, roundFloat_natCast _ h]

/-- At `2 ^ 24` an increment of 1 is lost: the exact sum `2 ^ 24 + 1` lies
half way between the neighbours `2 ^ 24` and `2 ^ 24 + 2`, and the tie goes to
the even significand. -/
theorem floatAdd_saturates : floatAdd 16777216 1 = 16777216 := by
  unfold floatAdd roundFloat
  have hlog : Int.log 2 |((16777216 : ℚ) + 1)| = 24 := by
    have : |((16777216 : ℚ) + 1)| = ((16777217 : Nat) : ℚ) := by norm_num
    rw [this, Int.log_natCast]
    have : Nat.log 2 16777217 = 24 := by
      rw [Nat.log_eq_iff (by norm_num)]
      norm_num
    rw [this]
    rfl
  rw [hlog, if_neg (by norm_num)]
  have hfl : ⌊((16777216 : ℚ) + 1) / 2 ^ ((24 : Int) - 23)⌋ = 8388608 := by
    rw [Int.floor_eq_iff]
    norm_num
  unfold roundHalfEven
  rw [hfl]
  norm_num

/-- Rounding to `float` loses at most the fraction `2 ^ (-24)` of a positive
value. -/
theorem roundFloat_ge (x : ℚ) (hx : 0 < x) : x - x / 2 ^ 24 ≤ roundFloat x := by
  unfold roundFloat
  rw [if_neg (ne_of_gt hx), abs_of_pos hx]
  have h2 : ((2 : Nat) : ℚ) ^ Int.log 2 x ≤ x := Int.zpow_log_le_self (by norm_num) hx
  have h3 : (2 : ℚ) ^ (Int.log 2 x - 23) = 2 ^ Int.log 2 x / 2 ^ 23 := by
    rw [zpow_sub₀ (by norm_num)]
    norm_num
  have hc : ((2 : Nat) : ℚ) = 2 := by norm_num
  rw [hc] at h2
  have hu : (0 : ℚ) < 2 ^ (Int.log 2 x - 23) := zpow_pos (by norm_num) _
  have hle : (2 : ℚ) ^ (Int.log 2 x - 23) ≤ x / 2 ^ 23 := by
    rw [h3]
    exact div_le_div_of_nonneg_right h2 (by norm_num)
  generalize (2 : ℚ) ^ (Int.log 2 x - 23) = u at hu hle
  have h1 := roundHalfEven_ge (x / u)
  have h4 : (x / u - 1 / 2) * u ≤ (roundHalfEven (x / u) : ℚ) * u :=
    mul_le_mul_of_nonneg_right h1 hu.le
  have h5 : (x / u - 1 / 2) * u = x - u / 2 := by
    field_simp
    ring
  rw [h5] at h4
  have h6 : x / 2 ^ 23 / 2 = x / 2 ^ 24 := by
    norm_num
    ring
  linarith

/-- With the exact addition the inner loop of the dasher is `consumeSegments`. -/
theorem consumeSegmentsWith_exact (M : FloatMath F) (isSolid : Bool) :
    ∀ (pend : List (FlatSegment F)) (st : DashState F),
      consumeSegmentsWith (fun a b => a + b) M isSolid st pend
        = consumeSegments M isSolid st pend := by
  intro pend
  induction pend with
  | nil =>
    intro st
    rfl
  | cons s rest ih =>
    intro st
    unfold consumeSegmentsWith consumeSegments
    by_cases hgt : st.pos > st.lineEndPos
    · rw [if_pos hgt, if_pos hgt]
      exact ih _
    · rw [if_neg hgt, if_neg hgt]

/-- With the exact addition the loop of the dasher is `dashLoop`. -/
theorem dashLoopWith_exact (M : FloatMath F) (dashLengths : List F) (numDashLengths : Nat) :
    ∀ (fuel : Nat) (st : DashState F),
      dashLoopWith (fun a b => a + b) M dashLengths numDashLengths fuel st
        = dashLoop M dashLengths numDashLengths fuel st := by
  intro fuel
  induction fuel with
  | zero =>
    intro st
    rfl
  | succ fuel ih =>
    intro st
    unfold dashLoopWith dashLoop
    simp only [consumeSegmentsWith_exact, ih]

/-- With the exact addition the dasher is `createDashedStroke`. -/
theorem createDashedStrokeWith_exact [FloorRing F] (M : FloatMath F) (fl : Flattener F)
    (style : PathStrokeType F) (destPath sourcePath : Path F) (dashLengths : List F)
    (numDashLengths : Nat) (transform : fl.Transform) (extraAccuracy : F) (fuel : Nat) :
    createDashedStrokeWith (fun a b => a + b) M fl style destPath sourcePath dashLengths
        numDashLengths transform extraAccuracy fuel
      = createDashedStroke M fl style destPath sourcePath dashLengths numDashLengths transform
          extraAccuracy fuel := by
  unfold createDashedStrokeWith createDashedStroke
  rw [dashLoopWith_exact]

theorem le_reachWith (add : F → F → F) (M : FloatMath F) (e : F)
    (pending : List (FlatSegment F)) : e ≤ reachWith add M e pending := by
  cases pending with
  | nil => exact le_refl _
  | cons s rest => exact le_max_left _ _

/-- What the inner loop of the dasher does to the state, whatever the
rounding of the sums. -/
theorem consumeSegmentsWith_spec (add : F → F → F) (M : FloatMath F) (isSolid : Bool) :
    ∀ (pend : List (FlatSegment F)) (st : DashState F) (consumed : List (FlatSegment F)),
      LastSeen consumed st →
      (consumeSegmentsWith add M isSolid st pend).2.pos = st.pos
      ∧ (consumeSegmentsWith add M isSolid st pend).2.dashNum = st.dashNum
      ∧ reachWith add M (consumeSegmentsWith add M isSolid st pend).2.lineEndPos
          (consumeSegmentsWith add M isSolid st pend).2.pending
          ≤ reachWith add M st.lineEndPos pend
      ∧ (∃ consumed2,
          consumed ++ pend = consumed2 ++ (consumeSegmentsWith add M isSolid st pend).2.pending
          ∧ LastSeen consumed2 (consumeSegmentsWith add M isSolid st pend).2)
      ∧ ((consumeSegmentsWith add M isSolid st pend).1 = false →
          (consumeSegmentsWith add M isSolid st pend).2.pos
            ≤ (consumeSegmentsWith add M isSolid st pend).2.lineEndPos)
      ∧ ((consumeSegmentsWith add M isSolid st pend).1 = true →
          (consumeSegmentsWith add M isSolid st pend).2.pending = []
          ∧ (isSolid = true → (consumeSegmentsWith add M isSolid st pend).2.first = false →
              (consumeSegmentsWith add M isSolid st pend).2.newDestPath.getLast?
                = some (PathOp.lineTo (consumeSegmentsWith add M isSolid st pend).2.itX2
                    (consumeSegmentsWith add M isSolid st pend).2.itY2))) := by
  intro pend
  induction pend with
  | nil =>
    intro st consumed hls
    unfold consumeSegmentsWith
    by_cases hgt : st.pos > st.lineEndPos
    · rw [if_pos hgt]
      refine ⟨rfl, rfl, le_refl _, ⟨consumed, rfl, hls⟩, fun h => ?_, fun _ => ⟨rfl, ?_⟩⟩
      · simp at h
      · intro hs hf
        have hf2 : st.first = false := hf
        simp [hs, hf2, Path.lineTo]
    · rw [if_neg hgt]
      exact ⟨rfl, rfl, le_refl _, ⟨consumed, rfl, hls⟩, fun _ => not_lt.mp hgt,
        fun h => by simp at h⟩
  | cons s rest ih =>
    intro st consumed hls
    unfold consumeSegmentsWith
    by_cases hgt : st.pos > st.lineEndPos
    · rw [if_pos hgt]
      have hls2 : LastSeen (consumed ++ [s])
          { st with
            itX1 := s.x1, itY1 := s.y1, itX2 := s.x2, itY2 := s.y2
            newDestPath :=
              if isSolid = true ∧ st.first = false then st.newDestPath.lineTo s.x1 s.y1
              else st.newDestPath.startNewSubPath s.x1 s.y1
            first := if isSolid = true ∧ st.first = false then st.first else false
            dx := s.x2 - s.x1, dy := s.y2 - s.y1
            lineLen := M.hypotf (s.x2 - s.x1) (s.y2 - s.y1)
            lineEndPos := add st.lineEndPos (M.hypotf (s.x2 - s.x1) (s.y2 - s.y1)) } := by
        refine ⟨fun h => by simp at h, ?_⟩
        intro s2 hs2
        rw [List.getLast?_concat] at hs2
        cases hs2
        refine ⟨?_, rfl, rfl⟩
        show (if isSolid = true ∧ st.first = false then st.first else false) = false
        split_ifs with h
        · exact h.2
        · rfl
      obtain ⟨h1, h2, h3, ⟨c2, h4, h5⟩, h6, h7⟩ := ih _ (consumed ++ [s]) hls2
      refine ⟨h1, h2, ?_, ⟨c2, ?_, h5⟩, h6, h7⟩
      · refine le_trans h3 ?_
        exact le_max_right _ _
      · rw [← h4]; simp
    · rw [if_neg hgt]
      exact ⟨rfl, rfl, le_refl _, ⟨consumed, rfl, hls⟩, fun _ => not_lt.mp hgt,
        fun h => by simp at h⟩

/-- Whatever the rounding of the sums: with a non-empty table of positive
dash lengths the loop of the dasher is left in one way only, through the
exhaustion of the iterator.  Nothing is then left to yield, and when the last
dash is an "on" dash and a segment was yielded, the dashed path ends with a
`lineTo` to the end point of the last segment of the stream. -/
theorem dashLoopWith_outcome (add : F → F → F) (M : FloatMath F) (dl : List F)
    (hpos : ∀ d ∈ dl, 0 < d) (hne : dl ≠ []) (segs : List (FlatSegment F)) :
    ∀ (fuel : Nat) (st : DashState F) (consumed : List (FlatSegment F)) (o : DashOutcome F),
      segs = consumed ++ st.pending → LastSeen consumed st →
      dashLoopWith add M dl dl.length fuel st = some o →
      ∃ st2 : DashState F, o = DashOutcome.exhausted st2
        ∧ st2.pending = []
        ∧ ∀ s, segs.getLast? = some s → st2.dashNum % 2 = 1 →
            st2.newDestPath.getLast? = some (PathOp.lineTo s.x2 s.y2) := by
  have hlen : dl.length ≠ 0 := by
    intro h
    exact hne (List.length_eq_zero.mp h)
  intro fuel
  induction fuel with
  | zero =>
    intro st consumed o hsegs hls hrun
    simp [dashLoopWith] at hrun
  | succ fuel ih =>
    intro st consumed o hsegs hls hrun
    have hidx : st.dashNum % dl.length < dl.length := Nat.mod_lt _ (Nat.pos_of_ne_zero hlen)
    have hdpos : 0 < dl[st.dashNum % dl.length] := hpos _ (List.getElem_mem _)
    obtain ⟨h1, h2, h3, ⟨c2, h4, h5⟩, h6, h7⟩ :=
      consumeSegmentsWith_spec add M (decide (st.dashNum % 2 = 0)) st.pending
        { st with dashNum := st.dashNum + 1, pos := add st.pos dl[st.dashNum % dl.length] }
        consumed (lastSeen_congr hls rfl rfl rfl)
    rw [dashLoopWith] at hrun
    simp only [if_neg hlen, List.getElem?_eq_getElem hidx, not_le.mpr hdpos, if_false] at hrun
    rcases hr : consumeSegmentsWith add M (decide (st.dashNum % 2 = 0))
        { st with dashNum := st.dashNum + 1, pos := add st.pos dl[st.dashNum % dl.length] }
        st.pending with ⟨flag, st2⟩
    rw [hr] at h1 h2 h3 h4 h5 h6 h7 hrun
    simp only at h1 h2 h3 h4 h5 h6 h7 hrun
    cases flag with
    | false =>
      simp only at hrun
      refine ih _ c2 o ?_ ?_ hrun
      · rw [hsegs, h4]
      · exact lastSeen_congr h5 rfl rfl rfl
    | true =>
      simp only [Option.some.injEq] at hrun
      obtain ⟨hp, hlast⟩ := h7 rfl
      refine ⟨st2, hrun.symm, hp, ?_⟩
      intro s hs hodd
      rw [hp, List.append_nil] at h4
      rw [hsegs, h4] at hs
      obtain ⟨hf, hx, hy⟩ := h5.2 s hs
      rw [h2] at hodd
      rw [hlast (by simp; omega) hf, hx, hy]

/-- The inner loop of the dasher leaves `pos` as it is, does not raise the
greatest value `lineEndPos` can still take, and stops before the end of the
stream only with `pos <= lineEndPos`. -/
theorem consumeSegmentsWith_reach (add : F → F → F) (M : FloatMath F) (isSolid : Bool) :
    ∀ (pend : List (FlatSegment F)) (st : DashState F),
      (consumeSegmentsWith add M isSolid st pend).2.pos = st.pos
      ∧ reachWith add M (consumeSegmentsWith add M isSolid st pend).2.lineEndPos
          (consumeSegmentsWith add M isSolid st pend).2.pending
          ≤ reachWith add M st.lineEndPos pend
      ∧ ((consumeSegmentsWith add M isSolid st pend).1 = false →
          (consumeSegmentsWith add M isSolid st pend).2.pos
            ≤ (consumeSegmentsWith add M isSolid st pend).2.lineEndPos) := by
  intro pend
  induction pend with
  | nil =>
    intro st
    unfold consumeSegmentsWith
    by_cases hgt : st.pos > st.lineEndPos
    · rw [if_pos hgt]
      exact ⟨rfl, le_refl _, fun h => by simp at h⟩
    · rw [if_neg hgt]
      exact ⟨rfl, le_refl _, fun _ => not_lt.mp hgt⟩
  | cons s rest ih =>
    intro st
    unfold consumeSegmentsWith
    by_cases hgt : st.pos > st.lineEndPos
    · rw [if_pos hgt]
      obtain ⟨h1, h3, h6⟩ := ih
        { st with
          itX1 := s.x1, itY1 := s.y1, itX2 := s.x2, itY2 := s.y2
          newDestPath :=
            if isSolid = true ∧ st.first = false then st.newDestPath.lineTo s.x1 s.y1
            else st.newDestPath.startNewSubPath s.x1 s.y1
          first := if isSolid = true ∧ st.first = false then st.first else false
          dx := s.x2 - s.x1, dy := s.y2 - s.y1
          lineLen := M.hypotf (s.x2 - s.x1) (s.y2 - s.y1)
          lineEndPos := add st.lineEndPos (M.hypotf (s.x2 - s.x1) (s.y2 - s.y1)) }
      exact ⟨h1, le_trans h3 (le_max_right _ _), h6⟩
    · rw [if_neg hgt]
      exact ⟨rfl, le_refl _, fun _ => not_lt.mp hgt⟩

/-- The main loop of the dasher is left when every pass moves `pos` forward
by at least `m > 0`, as long as `pos` has not passed the greatest value `R`
that `lineEndPos` takes: from a state with `R - pos < n * m` at most `n`
further passes are made. -/
theorem dashLoopWith_exhausts (add : F → F → F) (M : FloatMath F) (dl : List F) (m R : F)
    (hm : 0 < m) (hpos : ∀ d ∈ dl, 0 < d) (hne : dl ≠ [])
    (hprog : ∀ p : F, 0 ≤ p → p ≤ R → ∀ d ∈ dl, p + m ≤ add p d) :
    ∀ (n : Nat) (st : DashState F),
      0 ≤ st.pos → st.pos ≤ R → reachWith add M st.lineEndPos st.pending ≤ R →
      R - st.pos < n * m →
      ∃ o : DashOutcome F, ∀ extra : Nat,
        dashLoopWith add M dl dl.length (extra + n) st = some o := by
  have hlen : dl.length ≠ 0 := by
    intro h
    exact hne (List.length_eq_zero.mp h)
  intro n
  induction n with
  | zero =>
    intro st h0 hR hreach hn
    exfalso
    simp only [Nat.cast_zero, zero_mul] at hn
    linarith
  | succ n ih =>
    intro st h0 hR hreach hn
    have hidx : st.dashNum % dl.length < dl.length := Nat.mod_lt _ (Nat.pos_of_ne_zero hlen)
    have hdmem : dl[st.dashNum % dl.length] ∈ dl := List.getElem_mem _
    have hdpos : 0 < dl[st.dashNum % dl.length] := hpos _ hdmem
    have hstep := hprog st.pos h0 hR _ hdmem
    obtain ⟨h1, h3, h6⟩ :=
      consumeSegmentsWith_reach add M (decide (st.dashNum % 2 = 0)) st.pending
        { st with dashNum := st.dashNum + 1, pos := add st.pos dl[st.dashNum % dl.length] }
    rcases hr : consumeSegmentsWith add M (decide (st.dashNum % 2 = 0))
        { st with dashNum := st.dashNum + 1, pos := add st.pos dl[st.dashNum % dl.length] }
        st.pending with ⟨flag, st2⟩
    rw [hr] at h1 h3 h6
    simp only at h1 h3 h6
    cases flag with
    | false =>
      have hle := h6 rfl
      have hle2 := le_reachWith add M st2.lineEndPos st2.pending
      obtain ⟨o, hrun⟩ := ih
        { st2 with
          newDestPath :=
            if decide (st.dashNum % 2 = 0) = true then
              st2.newDestPath.lineTo
                (st2.itX1 + st2.dx * ((st2.pos - (st2.lineEndPos - st2.lineLen)) / st2.lineLen))
                (st2.itY1 + st2.dy * ((st2.pos - (st2.lineEndPos - st2.lineLen)) / st2.lineLen))
            else
              st2.newDestPath.startNewSubPath
                (st2.itX1 + st2.dx * ((st2.pos - (st2.lineEndPos - st2.lineLen)) / st2.lineLen))
                (st2.itY1 + st2.dy * ((st2.pos - (st2.lineEndPos - st2.lineLen)) / st2.lineLen)) }
        (by simp only; rw [h1]; linarith)
        (by simp only; linarith)
        (by simp only; linarith)
        (by
          simp only
          rw [h1]
          push_cast at hn
          linarith)
      refine ⟨o, ?_⟩
      intro extra
      rw [show extra + (n + 1) = (extra + n) + 1 by ring, dashLoopWith]
      simp only [if_neg hlen, List.getElem?_eq_getElem hidx, not_le.mpr hdpos, if_false, hr]
      exact hrun extra
    | true =>
      refine ⟨DashOutcome.exhausted st2, ?_⟩
      intro extra
      rw [show extra + (n + 1) = (extra + n) + 1 by ring, dashLoopWith]
      simp only [if_neg hlen, List.getElem?_eq_getElem hidx, not_le.mpr hdpos, if_false, hr]

/-- The value `2 ^ 25` is a value of type `float`. -/
theorem roundFloat_two_pow_25 : roundFloat 33554432 = 33554432 := by
  unfold roundFloat
  have hlog : Int.log 2 |(33554432 : ℚ)| = 25 := by
    have : |(33554432 : ℚ)| = (((2 : Nat) ^ 25 : Nat) : ℚ) := by norm_num
    rw [this, Int.log_natCast, Nat.log_pow (by norm_num)]
    rfl
  rw [hlog, if_neg (by norm_num)]
  have hq : (33554432 : ℚ) / 2 ^ ((25 : Int) - 23) = ((8388608 : Int) : ℚ) := by norm_num
  rw [hq, roundHalfEven_intCast]
  norm_num

/-- Once `pos` is a whole number up to `2 ^ 24`, `lineEndPos` is `2 ^ 25` and
the iterator has nothing left to yield, the loop of the dasher with the dash
table `{1, 1}` and the addition of type `float` is never left: `pos` counts
up to `2 ^ 24` and stays there, below `lineEndPos`. -/
theorem dashLoopWith_stuck (M : FloatMath ℚ) :
    ∀ (fuel : Nat) (st : DashState ℚ), st.pending = [] → st.lineEndPos = 33554432 →
      (∃ k : Nat, k ≤ 2 ^ 24 ∧ st.pos = k) →
      dashLoopWith floatAdd M [1, 1] 2 fuel st = none := by
  intro fuel
  induction fuel with
  | zero =>
    intro st _ _ _
    rfl
  | succ fuel ih =>
    intro st hpend hend hk
    obtain ⟨k, hk24, hpos⟩ := hk
    have hread : [(1 : ℚ), 1][st.dashNum % 2]? = some 1 := by
      rcases Nat.mod_two_eq_zero_or_one st.dashNum with h | h <;> rw [h] <;> rfl
    have hadd : ∃ k2 : Nat, k2 ≤ 2 ^ 24 ∧ floatAdd st.pos 1 = k2 := by
      rcases Nat.lt_or_ge k (2 ^ 24) with hlt | hge
      · refine ⟨k + 1, hlt, ?_⟩
        have := floatAdd_natCast k 1 (by omega)
        rw [hpos]
        push_cast at this ⊢
        exact this
      · have hk2 : k = 2 ^ 24 := le_antisymm hk24 hge
        refine ⟨2 ^ 24, le_refl _, ?_⟩
        rw [hpos, hk2]
        have := floatAdd_saturates
        push_cast
        exact this
    obtain ⟨k2, hk2, hadd2⟩ := hadd
    have hle : ¬ ((k2 : ℚ) > 33554432) := by
      rw [not_lt]
      have : (k2 : ℚ) ≤ ((2 ^ 24 : Nat) : ℚ) := Nat.cast_le.mpr hk2
      push_cast at this
      linarith
    rw [dashLoopWith]
    simp only [hread, hpend, hadd2, hend, consumeSegmentsWith, if_neg hle,
      show ¬ ((2 : Nat) = 0) by decide, if_false, show ¬ ((1 : ℚ) ≤ 0) by norm_num]
    apply ih
    · rfl
    · rfl
    · exact ⟨k2, hk2, rfl⟩

/-- The first pass of the dasher loop with the dash table `{1, 1}` over a
stream of one segment of length `L >= 1`: the segment is yielded, and the
pass ends at the cut point at the distance 1. -/
theorem dashLoopWith_enter (add : ℚ → ℚ → ℚ) (M : FloatMath ℚ) (x1 y1 x2 y2 L : ℚ) (idx : Int) (cl : Bool)
    (fuel : Nat) (hL : M.hypotf (x2 - x1) (y2 - y1) = L) (h1 : add 0 1 = 1) (h2 : add 0 L = L)
    (hbig : 1 ≤ L) :
    dashLoopWith add M [1, 1] 2 (fuel + 1) (dashInit [⟨x1, y1, x2, y2, idx, cl⟩])
      = dashLoopWith add M [1, 1] 2 fuel
          ⟨[PathOp.startNewSubPath x1 y1,
              PathOp.lineTo (x1 + (x2 - x1) * ((1 - (L - L)) / L))
                (y1 + (y2 - y1) * ((1 - (L - L)) / L))],
            [], x1, y1, x2, y2, false, 1, 1, L, L, x2 - x1, y2 - y1⟩ := by
  rw [dashLoopWith]
  simp only [dashInit, Nat.zero_mod, show ¬ ((2 : Nat) = 0) by decide, if_false,
    show [(1 : ℚ), 1][0]? = some 1 from rfl, show ¬ ((1 : ℚ) ≤ 0) by norm_num,
    consumeSegmentsWith, h1, hL, h2, show (1 : ℚ) > 0 by norm_num, if_true,
    not_lt.mpr hbig]
  rfl

/-- C30, the code at the failing input: a source path of one straight line
of length `2 ^ 25 = 33554432`, the dash table `{1, 1}`, thickness 1, the sums
`pos += dashLen` and `lineEndPos += lineLen` computed in type `float`.  The
increment of 1 is lost at `pos = 2 ^ 24` (`floatAdd 16777216 1 = 16777216`),
`pos` never exceeds `lineEndPos = 2 ^ 25`, and no number of passes lets the
loop be left: `createDashedStroke` does not return and the stroker is not
called. -/
theorem C30_dash_loop_never_exits :
    floatAdd 16777216 1 = 16777216
    ∧ (∀ fuel : Nat,
        dashLoopWith floatAdd ratMath [1, 1] 2 fuel
          (dashInit [⟨0, 0, 33554432, 0, 0, false⟩]) = none)
    ∧ (∀ fuel : Nat,
        createDashedStrokeWith floatAdd ratMath polylineFlattener
          ⟨1, JointStyle.mitered, EndCapStyle.butt⟩ []
          [PathOp.startNewSubPath 0 0, PathOp.lineTo 33554432 0] [1, 1] 2 () 1 fuel = none) := by
  have hloop : ∀ fuel : Nat,
      dashLoopWith floatAdd ratMath [1, 1] 2 fuel
        (dashInit [⟨0, 0, 33554432, 0, 0, false⟩]) = none := by
    intro fuel
    cases fuel with
    | zero => rfl
    | succ fuel =>
      have hL : ratMath.hypotf (33554432 - 0) (0 - 0) = 33554432 := by decide!
      have h1 : floatAdd 0 1 = 1 := by
        have := floatAdd_natCast 0 1 (by norm_num)
        push_cast at this
        rw [zero_add] at this
        exact this
      have h2 : floatAdd 0 33554432 = 33554432 := by
        unfold floatAdd
        rw [zero_add, roundFloat_two_pow_25]
      rw [dashLoopWith_enter floatAdd ratMath 0 0 33554432 0 33554432 0 false fuel hL h1 h2
        (by norm_num)]
      exact dashLoopWith_stuck ratMath fuel _ rfl rfl ⟨1, by norm_num, by norm_num⟩
  refine ⟨floatAdd_saturates, hloop, ?_⟩
  intro fuel
  unfold createDashedStrokeWith
  rw [if_neg (by norm_num)]
  have hs : polylineFlattener.segments [PathOp.startNewSubPath 0 0, PathOp.lineTo 33554432 0]
      () (9 / 1) = [⟨0, 0, 33554432, 0, 0, false⟩] := by decide!
  rw [hs, hloop fuel]

/-- A pass of the dasher loop in an "on" phase that ends inside the current
segment, the sum `pos + a` being computed as `p2`: a `lineTo` to the cut point
is appended. -/
theorem dashLoopWith_on (add : F → F → F) (M : FloatMath F) (a b : F) (fuel : Nat) (P : Path F)
    (x1 y1 x2 y2 : F) (n : Nat) (p len e dx dy : F) {p2 : F}
    (hn : n % 2 = 0) (ha : 0 < a) (hadd : add p a = p2) (hp : p2 ≤ e) :
    dashLoopWith add M [a, b] 2 (fuel + 1)
        ⟨P, [], x1, y1, x2, y2, false, n, p, len, e, dx, dy⟩
      = dashLoopWith add M [a, b] 2 fuel
          ⟨P ++ [PathOp.lineTo (x1 + dx * ((p2 - (e - len)) / len))
                  (y1 + dy * ((p2 - (e - len)) / len))],
            [], x1, y1, x2, y2, false, n + 1, p2, len, e, dx, dy⟩ := by
  rw [dashLoopWith]
  simp [hn, not_le.mpr ha, consumeSegmentsWith, hadd, not_lt.mpr hp, Path.lineTo]

/-- A pass of the dasher loop in an "off" phase that ends inside the current
segment, the sum `pos + b` being computed as `p2`: a new sub-path is started
at the cut point. -/
theorem dashLoopWith_off (add : F → F → F) (M : FloatMath F) (a b : F) (fuel : Nat)
    (P : Path F) (x1 y1 x2 y2 : F) (n : Nat) (p len e dx dy : F) {p2 : F}
    (hn : n % 2 = 1) (hb : 0 < b) (hadd : add p b = p2) (hp : p2 ≤ e) :
    dashLoopWith add M [a, b] 2 (fuel + 1)
        ⟨P, [], x1, y1, x2, y2, false, n, p, len, e, dx, dy⟩
      = dashLoopWith add M [a, b] 2 fuel
          ⟨P ++ [PathOp.startNewSubPath (x1 + dx * ((p2 - (e - len)) / len))
                  (y1 + dy * ((p2 - (e - len)) / len))],
            [], x1, y1, x2, y2, false, n + 1, p2, len, e, dx, dy⟩ := by
  rw [dashLoopWith]
  simp [hn, not_le.mpr hb, consumeSegmentsWith, hadd, not_lt.mpr hp, Path.startNewSubPath]

/-- The first pass of the dasher loop over a stream of one segment that is at
least as long as the first dash, the sums `0 + a` and `0 + L` being computed
exactly. -/
theorem dashLoopWith_first (add : F → F → F) (M : FloatMath F) (a b : F) (fuel : Nat)
    (x1 y1 x2 y2 : F) (idx : Int) (cl : Bool) (L : F)
    (hL : M.hypotf (x2 - x1) (y2 - y1) = L) (ha : 0 < a) (hadd : add 0 a = a)
    (hend : add 0 L = L) (hp : a ≤ L) :
    dashLoopWith add M [a, b] 2 (fuel + 1) (dashInit [⟨x1, y1, x2, y2, idx, cl⟩])
      = dashLoopWith add M [a, b] 2 fuel
          ⟨[PathOp.startNewSubPath x1 y1, PathOp.lineTo (x1 + (x2 - x1) * (a / L))
                  (y1 + (y2 - y1) * (a / L))],
            [], x1, y1, x2, y2, false, 1, a, L, L, x2 - x1, y2 - y1⟩ := by
  rw [dashLoopWith]
  simp [dashInit, not_le.mpr ha, consumeSegmentsWith, ha, hL, hadd, hend, not_lt.mpr hp,
    Path.lineTo, Path.startNewSubPath]

/-- The pass of the dasher loop in which the iterator runs out during an
"on" phase. -/
theorem dashLoopWith_end (add : F → F → F) (M : FloatMath F) (a b : F) (fuel : Nat)
    (P : Path F) (x1 y1 x2 y2 : F) (n : Nat) (p len e dx dy : F)
    (hn : n % 2 = 0) (ha : 0 < a) (hp : e < add p a) :
    dashLoopWith add M [a, b] 2 (fuel + 1)
        ⟨P, [], x1, y1, x2, y2, false, n, p, len, e, dx, dy⟩
      = some (DashOutcome.exhausted
          ⟨P ++ [PathOp.lineTo x2 y2],
            [], x1, y1, x2, y2, false, n + 1, add p a, len, e, dx, dy⟩) := by
  rw [dashLoopWith]
  simp [hn, not_le.mpr ha, consumeSegmentsWith, hp, Path.lineTo]

/-- The dasher loop over one segment of length `N * (a + b)`, the running
sums being computed exactly: after `2 * k` passes, `1 ≤ k ≤ N`, it has written
`k` dashes and started the next sub-path. -/
theorem dashLoopWith_pairs (add : F → F → F) (M : FloatMath F) (a b : F) (x1 y1 x2 y2 : F)
    (idx : Int) (cl : Bool)
    (L : F) (N : Nat) (hL : M.hypotf (x2 - x1) (y2 - y1) = L) (ha : 0 < a) (hb : 0 < b)
    (hN : L = N * (a + b)) (hend : add 0 L = L)
    (hon : ∀ k : Nat, k < N → add (k * (a + b)) a = k * (a + b) + a)
    (hoff : ∀ k : Nat, k < N → add (k * (a + b) + a) b = k * (a + b) + a + b) :
    ∀ j : Nat, j + 1 ≤ N → ∀ fuel : Nat,
      dashLoopWith add M [a, b] 2 (fuel + 2 * (j + 1)) (dashInit [⟨x1, y1, x2, y2, idx, cl⟩])
        = dashLoopWith add M [a, b] 2 fuel (dashStateAfter x1 y1 x2 y2 a b L (j + 1)) := by
  have hD : 0 < a + b := add_pos ha hb
  have hle : ∀ k : Nat, k + 1 ≤ N → (k : F) * (a + b) + a + b ≤ L := by
    intro k hk
    have h1 : ((k + 1 : Nat) : F) ≤ (N : F) := Nat.cast_le.mpr hk
    have h2 : ((k + 1 : Nat) : F) * (a + b) ≤ (N : F) * (a + b) :=
      mul_le_mul_of_nonneg_right h1 hD.le
    rw [hN]
    push_cast at h2
    linarith
  intro j
  induction j with
  | zero =>
    intro h1 fuel
    have h0 := hle 0 (by simpa using h1)
    have hon0 := hon 0 (by omega)
    have hoff0 := hoff 0 (by omega)
    simp only [Nat.cast_zero, zero_mul, zero_add] at h0 hon0 hoff0
    rw [show fuel + 2 * (0 + 1) = (fuel + 1) + 1 by ring,
      dashLoopWith_first add M a b (fuel + 1) x1 y1 x2 y2 idx cl L hL ha hon0 hend
        (by linarith),
      dashLoopWith_off add M a b fuel _ x1 y1 x2 y2 1 a L L _ _ (by norm_num) hb hoff0 h0]
    congr 1
    simp only [dashStateAfter, onDash, DashState.mk.injEq, show List.range (0 + 1) = [0] from rfl, List.flatMap_cons,
      List.flatMap_nil, List.append_nil, Nat.cast_zero, zero_mul, zero_div, mul_zero, add_zero,
      zero_add, sub_self, sub_zero, Nat.cast_one, one_mul, mul_one, List.cons_append,
      List.nil_append, and_true, true_and]
  | succ j ih =>
    intro h1 fuel
    have hk := hle (j + 1) h1
    rw [show fuel + 2 * (j + 1 + 1) = (fuel + 2) + 2 * (j + 1) by ring,
      ih (by omega) (fuel + 2)]
    unfold dashStateAfter
    rw [show fuel + 2 = (fuel + 1) + 1 by ring,
      dashLoopWith_on add M a b (fuel + 1) _ x1 y1 x2 y2 (2 * (j + 1)) _ L L _ _ (by omega) ha
        (hon (j + 1) (by omega)) (by push_cast at hk ⊢; linarith),
      dashLoopWith_off add M a b fuel _ x1 y1 x2 y2 (2 * (j + 1) + 1) _ L L _ _ (by omega) hb
        (hoff (j + 1) (by omega)) (by push_cast at hk ⊢; linarith)]
    congr 1
    simp only [DashState.mk.injEq, and_true, true_and]
    refine ⟨?_, by ring, by push_cast; ring⟩
    rw [List.range_succ (n := j + 1), List.flatMap_append]
    simp only [onDash, List.flatMap_cons, List.flatMap_nil, List.append_nil, List.append_assoc,
      List.cons_append, List.nil_append, sub_self, sub_zero]
    congr 3
    push_cast
    ring_nf

/-- C5, as the code has it when its running sums are computed without
rounding error: for a source that flattens to one straight segment of length
`L = N * (a + b)`, `N ≥ 1`, and the dash pattern `[a, b]` with `a, b > 0`, let
the addition `add` of the sums `pos += dashLen` and `lineEndPos += lineLen`
be exact on this run (`0 + L = L`; `k * (a + b) + a` for the "on" dash `k` and
`k * (a + b) + a + b` for the "off" dash `k`, `k < N`) and let the last "on"
dash pass the end of the segment (`L < add L a`).  Then the dashed path that
`createDashedStroke` hands to the stroker (reached after `2 * N + 1` passes of
its loop) consists of the `N` sub-paths `onDash k`, `k = 0 .. N-1`, each a
straight line that starts at the offset `k * (a + b)` along the segment and
has length `a`, followed by one more sub-path of length zero at the end point
of the segment. -/
theorem C5_dashes_on_segment (add : F → F → F) (M : FloatMath F) (a b x1 y1 x2 y2 L : F)
    (idx : Int) (cl : Bool)
    (N : Nat) (hN1 : 1 ≤ N) (ha : 0 < a) (hb : 0 < b)
    (hL : M.hypotf (x2 - x1) (y2 - y1) = L)
    (hLsq : L * L = (x2 - x1) * (x2 - x1) + (y2 - y1) * (y2 - y1))
    (hN : L = N * (a + b))
    (hend : add 0 L = L)
    (hon : ∀ k : Nat, k < N → add (k * (a + b)) a = k * (a + b) + a)
    (hoff : ∀ k : Nat, k < N → add (k * (a + b) + a) b = k * (a + b) + a + b)
    (hlast : L < add L a) :
    (∀ fuel : Nat,
      dashedPathWith add M [a, b] 2 (fuel + (2 * N + 1)) [⟨x1, y1, x2, y2, idx, cl⟩]
        = some ((List.range N).flatMap (onDash x1 y1 x2 y2 a b L)
            ++ [PathOp.startNewSubPath x2 y2, PathOp.lineTo x2 y2]))
    ∧ ∀ k : Nat,
        ((x1 + (x2 - x1) * ((k * (a + b) + a) / L)) - (x1 + (x2 - x1) * ((k * (a + b)) / L)))
          * ((x1 + (x2 - x1) * ((k * (a + b) + a) / L))
              - (x1 + (x2 - x1) * ((k * (a + b)) / L)))
        + ((y1 + (y2 - y1) * ((k * (a + b) + a) / L)) - (y1 + (y2 - y1) * ((k * (a + b)) / L)))
          * ((y1 + (y2 - y1) * ((k * (a + b) + a) / L))
              - (y1 + (y2 - y1) * ((k * (a + b)) / L)))
        = a * a := by
  have hD : 0 < a + b := add_pos ha hb
  have hNpos : (0 : F) < N := Nat.cast_pos.mpr hN1
  have hLpos : 0 < L := by rw [hN]; exact mul_pos hNpos hD
  have hL0 : L ≠ 0 := ne_of_gt hLpos
  constructor
  · intro fuel
    obtain ⟨j, rfl⟩ : ∃ j, N = j + 1 := ⟨N - 1, by omega⟩
    unfold dashedPathWith
    rw [show fuel + (2 * (j + 1) + 1) = (fuel + 1) + 2 * (j + 1) by ring,
      dashLoopWith_pairs add M a b x1 y1 x2 y2 idx cl L (j + 1) hL ha hb hN hend hon hoff j
        le_rfl (fuel + 1)]
    unfold dashStateAfter
    rw [dashLoopWith_end add M a b fuel _ x1 y1 x2 y2 (2 * (j + 1)) _ L L _ _ (by omega) ha
      (by rw [← hN]; exact hlast)]
    simp only [List.append_assoc, List.cons_append, List.nil_append, Option.some.injEq,
      List.append_cancel_left_eq, List.cons.injEq, PathOp.startNewSubPath.injEq, and_true]
    rw [← hN, div_self hL0]
    constructor <;> ring
  · intro k
    field_simp
    linear_combination (-(a * a)) * hLsq

/-- C5 at the segment `(0,0)-(20,0)` with the pattern `[6, 4]`, `N = 2`, the
sums computed in type `float` (they are whole numbers, hence exact): two
dashes of length 6 and the sub-path of length zero at `(20,0)`. -/
theorem C5_dashes_on_segment_witness :
    dashedPathWith floatAdd ratMath [6, 4] 2 5 [⟨0, 0, 20, 0, 0, false⟩]
      = some [PathOp.startNewSubPath 0 0, PathOp.lineTo 6 0,
          PathOp.startNewSubPath 10 0, PathOp.lineTo 16 0,
          PathOp.startNewSubPath 20 0, PathOp.lineTo 20 0] := by
  have hnat : ∀ m n : Nat, m + n ≤ 2 ^ 24 → ∀ x y : ℚ, x = m → y = n →
      floatAdd x y = x + y := by
    intro m n h x y hx hy
    rw [hx, hy]
    exact floatAdd_natCast m n h
  have h := (C5_dashes_on_segment floatAdd ratMath 6 4 0 0 20 0 20 0 false 2 (by norm_num)
    (by norm_num) (by norm_num) (by decide!) (by norm_num) (by norm_num)
    (by rw [hnat 0 20 (by norm_num) 0 20 (by norm_num) (by norm_num)]; norm_num)
    (by
      intro k hk
      exact hnat (k * 10) 6 (by omega) _ _ (by push_cast; ring) (by norm_num))
    (by
      intro k hk
      exact hnat (k * 10 + 6) 4 (by omega) _ _ (by push_cast; ring) (by norm_num))
    (by
      rw [hnat 20 6 (by norm_num) 20 6 (by norm_num) (by norm_num)]
      norm_num)).1 0
  rw [h]
  decide!

/-- The pass of the dasher loop in which the iterator runs out during an
"off" phase: nothing is appended. -/
theorem dashLoopWith_end_off (add : F → F → F) (M : FloatMath F) (a b : F) (fuel : Nat)
    (P : Path F) (x1 y1 x2 y2 : F) (n : Nat) (p len e dx dy : F)
    (hn : n % 2 = 1) (hb : 0 < b) (hp : e < add p b) :
    dashLoopWith add M [a, b] 2 (fuel + 1)
        ⟨P, [], x1, y1, x2, y2, false, n, p, len, e, dx, dy⟩
      = some (DashOutcome.exhausted
          ⟨P, [], x1, y1, x2, y2, false, n + 1, add p b, len, e, dx, dy⟩) := by
  rw [dashLoopWith]
  simp [hn, not_le.mpr hb, consumeSegmentsWith, hp]

/-- The value of type `float` nearest to a positive rational whose binary
exponent is `e`. -/
theorem roundFloat_of_exponent (x : ℚ) (e : Int) (hx : 0 < x) (h1 : (2 : ℚ) ^ e ≤ x)
    (h2 : x < (2 : ℚ) ^ (e + 1)) :
    roundFloat x = roundHalfEven (x / 2 ^ (e - 23)) * 2 ^ (e - 23) := by
  have hc : ((2 : Nat) : ℚ) = 2 := by norm_num
  have hlog : Int.log 2 x = e := by
    apply le_antisymm
    · have := (Int.lt_zpow_iff_log_lt (b := 2) (by norm_num) hx).mp (by rw [hc]; exact h2)
      omega
    · exact (Int.zpow_le_iff_le_log (b := 2) (by norm_num) hx).mp (by rw [hc]; exact h1)
  unfold roundFloat
  rw [if_neg (ne_of_gt hx), abs_of_pos hx, hlog]

/-- Rounding to the nearest integer, given the integer part. -/
theorem roundHalfEven_of_floor (q : ℚ) (f : Int) (h1 : (f : ℚ) ≤ q) (h2 : q < f + 1) :
    roundHalfEven q
      = if q - f < 1 / 2 then f
        else if 1 / 2 < q - f then f + 1
        else if f % 2 = 0 then f else f + 1 := by
  have hf : ⌊q⌋ = f := by
    rw [Int.floor_eq_iff]
    exact ⟨h1, h2⟩
  unfold roundHalfEven
  rw [hf]

/-- The running sums of the dasher in type `float` for the dash length
`0.1f = 13421773 / 2^27`, eight times, and the sum `0 + 0.8f`: the eighth
sum, `13421774 / 2^24`, is above `0.8f = 13421773 / 2^24`. -/
theorem floatAdd_tenths :
    floatAdd 0 (13421773 / 134217728) = 13421773 / 134217728
    ∧ floatAdd (13421773 / 134217728) (13421773 / 134217728) = 13421773 / 67108864
    ∧ floatAdd (13421773 / 67108864) (13421773 / 134217728) = 5033165 / 16777216
    ∧ floatAdd (5033165 / 16777216) (13421773 / 134217728) = 13421773 / 33554432
    ∧ floatAdd (13421773 / 33554432) (13421773 / 134217728) = 1 / 2
    ∧ floatAdd (1 / 2) (13421773 / 134217728) = 5033165 / 8388608
    ∧ floatAdd (5033165 / 8388608) (13421773 / 134217728) = 2936013 / 4194304
    ∧ floatAdd (2936013 / 4194304) (13421773 / 134217728) = 6710887 / 8388608
    ∧ floatAdd 0 (13421773 / 16777216) = 13421773 / 16777216 := by
  refine ⟨?_, ?_, ?_, ?_, ?_, ?_, ?_, ?_, ?_⟩ <;> unfold floatAdd
  · rw [roundFloat_of_exponent _ (-4) (by norm_num) (by norm_num) (by norm_num),
      roundHalfEven_of_floor _ 13421773 (by norm_num) (by norm_num)]
    norm_num
  · rw [roundFloat_of_exponent _ (-3) (by norm_num) (by norm_num) (by norm_num),
      roundHalfEven_of_floor _ 13421773 (by norm_num) (by norm_num)]
    norm_num
  · rw [roundFloat_of_exponent _ (-2) (by norm_num) (by norm_num) (by norm_num),
      roundHalfEven_of_floor _ 10066329 (by norm_num) (by norm_num)]
    norm_num
  · rw [roundFloat_of_exponent _ (-2) (by norm_num) (by norm_num) (by norm_num),
      roundHalfEven_of_floor _ 13421773 (by norm_num) (by norm_num)]
    norm_num
  · rw [roundFloat_of_exponent _ (-1) (by norm_num) (by norm_num) (by norm_num),
      roundHalfEven_of_floor _ 8388608 (by norm_num) (by norm_num)]
    norm_num
  · rw [roundFloat_of_exponent _ (-1) (by norm_num) (by norm_num) (by norm_num),
      roundHalfEven_of_floor _ 10066329 (by norm_num) (by norm_num)]
    norm_num
  · rw [roundFloat_of_exponent _ (-1) (by norm_num) (by norm_num) (by norm_num),
      roundHalfEven_of_floor _ 11744051 (by norm_num) (by norm_num)]
    norm_num
  · rw [roundFloat_of_exponent _ (-1) (by norm_num) (by norm_num) (by norm_num),
      roundHalfEven_of_floor _ 13421773 (by norm_num) (by norm_num)]
    norm_num
  · rw [roundFloat_of_exponent _ (-1) (by norm_num) (by norm_num) (by norm_num),
      roundHalfEven_of_floor _ 13421773 (by norm_num) (by norm_num)]
    norm_num

/-- The dasher with its sums in type `float`, at the segment from `(0,0)` to
`(0.8f, 0)` with the dash table `{0.1f, 0.1f}`: the length is `4 * (0.1f +
0.1f)` exactly, but the eighth sum of `pos` is above it, so the iterator runs
out in the fourth "off" dash, and the dashed path consists of four sub-paths;
no sub-path of length zero follows them. -/
theorem dashedPathWith_float_tenths :
    (13421773 / 16777216 : ℚ) = 4 * (13421773 / 134217728 + 13421773 / 134217728)
    ∧ dashedPathWith floatAdd ratMath [13421773 / 134217728, 13421773 / 134217728] 2 8
        [⟨0, 0, 13421773 / 16777216, 0, 0, false⟩]
      = some [PathOp.startNewSubPath 0 0, PathOp.lineTo (13421773 / 134217728) 0,
          PathOp.startNewSubPath (13421773 / 67108864) 0, PathOp.lineTo (5033165 / 16777216) 0,
          PathOp.startNewSubPath (13421773 / 33554432) 0, PathOp.lineTo (1 / 2) 0,
          PathOp.startNewSubPath (5033165 / 8388608) 0,
          PathOp.lineTo (2936013 / 4194304) 0] := by
  obtain ⟨h1, h2, h3, h4, h5, h6, h7, h8, hend⟩ := floatAdd_tenths
  have hL : ratMath.hypotf (13421773 / 16777216 - 0) (0 - 0) = 13421773 / 16777216 := by
    decide!
  refine ⟨by norm_num, ?_⟩
  unfold dashedPathWith
  rw [show (8 : Nat) = 7 + 1 from rfl,
    dashLoopWith_first floatAdd ratMath _ _ 7 0 0 _ 0 0 false _ hL (by norm_num) h1 hend
      (by norm_num),
    show (7 : Nat) = 6 + 1 from rfl,
    dashLoopWith_off floatAdd ratMath _ _ 6 _ 0 0 _ 0 1 _ _ _ _ _ (by norm_num) (by norm_num)
      h2 (by norm_num),
    show (6 : Nat) = 5 + 1 from rfl,
    dashLoopWith_on floatAdd ratMath _ _ 5 _ 0 0 _ 0 2 _ _ _ _ _ (by norm_num) (by norm_num)
      h3 (by norm_num),
    show (5 : Nat) = 4 + 1 from rfl,
    dashLoopWith_off floatAdd ratMath _ _ 4 _ 0 0 _ 0 3 _ _ _ _ _ (by norm_num) (by norm_num)
      h4 (by norm_num),
    show (4 : Nat) = 3 + 1 from rfl,
    dashLoopWith_on floatAdd ratMath _ _ 3 _ 0 0 _ 0 4 _ _ _ _ _ (by norm_num) (by norm_num)
      h5 (by norm_num),
    show (3 : Nat) = 2 + 1 from rfl,
    dashLoopWith_off floatAdd ratMath _ _ 2 _ 0 0 _ 0 5 _ _ _ _ _ (by norm_num) (by norm_num)
      h6 (by norm_num),
    show (2 : Nat) = 1 + 1 from rfl,
    dashLoopWith_on floatAdd ratMath _ _ 1 _ 0 0 _ 0 6 _ _ _ _ _ (by norm_num) (by norm_num)
      h7 (by norm_num),
    show (1 : Nat) = 0 + 1 from rfl,
    dashLoopWith_end_off floatAdd ratMath _ _ 0 _ 0 0 _ 0 7 _ _ _ _ _ (by norm_num)
      (by norm_num) (by rw [h8]; norm_num)]
  norm_num

/-- The loop of the dasher with its sums in type `float` is left, through the
exhaustion of the iterator, when the dash lengths lie between `lo > 0` and
`hi` and the greatest value `R` of `lineEndPos` is small enough for a dash not
to be lost in the rounding of `pos + dashLen`: `(R + hi) / 2 ^ 24 < lo`. -/
theorem dashLoopWith_float_exhausts (M : FloatMath ℚ) (dl : List ℚ) (lo hi : ℚ)
    (segs : List (FlatSegment ℚ)) (hlo : 0 < lo) (hdl : ∀ d ∈ dl, lo ≤ d ∧ d ≤ hi)
    (hne : dl ≠ [])
    (hsmall : (reachWith floatAdd M 0 segs + hi) / 2 ^ 24 < lo) :
    ∃ (fuel : Nat) (st : DashState ℚ), st.pending = [] ∧ ∀ extra : Nat,
      dashLoopWith floatAdd M dl dl.length (extra + fuel) (dashInit segs)
        = some (DashOutcome.exhausted st) := by
  have hpos : ∀ d ∈ dl, 0 < d := fun d hd => lt_of_lt_of_le hlo (hdl d hd).1
  have hm : 0 < lo - (reachWith floatAdd M 0 segs + hi) / 2 ^ 24 := by linarith
  have hprog : ∀ p : ℚ, 0 ≤ p → p ≤ reachWith floatAdd M 0 segs → ∀ d ∈ dl,
      p + (lo - (reachWith floatAdd M 0 segs + hi) / 2 ^ 24) ≤ floatAdd p d := by
    intro p hp0 hpR d hd
    obtain ⟨h1, h2⟩ := hdl d hd
    have hge := roundFloat_ge (p + d) (by linarith)
    have hdiv : (p + d) / 2 ^ 24 ≤ (reachWith floatAdd M 0 segs + hi) / 2 ^ 24 :=
      div_le_div_of_nonneg_right (by linarith) (by norm_num)
    show _ ≤ roundFloat (p + d)
    linarith
  obtain ⟨n, hn⟩ := exists_nat_gt
    ((reachWith floatAdd M 0 segs - 0) / (lo - (reachWith floatAdd M 0 segs + hi) / 2 ^ 24))
  obtain ⟨o, hrun⟩ := dashLoopWith_exhausts floatAdd M dl _ (reachWith floatAdd M 0 segs) hm
    hpos hne hprog n (dashInit segs) (le_refl _) (le_reachWith floatAdd M 0 _) (le_refl _)
    ((div_lt_iff₀ hm).mp hn)
  obtain ⟨st, rfl, hp, -⟩ := dashLoopWith_outcome floatAdd M dl hpos hne segs (0 + n)
    (dashInit segs) [] o rfl (lastSeen_dashInit _) (hrun 0)
  exact ⟨n, st, hp, hrun⟩

end Lemmas

end Juce
